import Mathlib

/-!
# frp-admin control plane

A shallow embedding of the login rate limiter (`backend/utils/rate_limiter.go`),
of the port pools and client handlers (`backend/main.go`), of the remote control
client (`backend/utils/frpc_api.go`), of the statistics client
(`backend/utils/dashboard_api.go`), of the direct backend with its log buffer and
its process lifecycle (`backend/utils/frps_manager.go`) and of the server
configuration parser (`backend/utils/toml_parser.go`), followed by the properties
proved about them.  The client configuration generator, whose source is not among
the files, is modelled from the specification as an arbitrary rendering function.

Conventions of the embedding:

* A `time.Time` is a natural number of nanoseconds elapsed since the zero value
  `time.Time{}`; the clock never reads before the zero value.  A `time.Duration`
  is an integer number of nanoseconds.
* A limiter operation reads the clock with `time.Now()`: the reading is the
  argument `now`.  `IsBlocked` and the locked branch of `RecordFailure` read the
  clock a second time inside `time.Until`: that reading is the argument `later`.
* The mutex-protected map `attempts` is a function from keys to optional records;
  each operation is atomic, so it is a function from the state before to the
  state after.
* A Go `int` is a 64-bit two's-complement integer (as on every 64-bit platform):
  it is an `Int` in the range of `isInt64`, and `port++` wraps around through
  `wrapInt64`.
* The relational store is the list of the client rows a query sees, together
  with the list of the soft-deleted rows, which stay in the table and count for
  its unique keys; the handlers are functions from the rows before the request to
  the visible rows after it and the response.
* What an operation of the direct backend meets outside the manager (the file
  system, the spawn, the signal) is an argument of the operation; the goroutines
  it launches are events of a step function on the manager and the processes
  around it.
-/

namespace FrpAdmin

/-! ## Time -/

/-- Clock reading: nanoseconds since the zero value of `time.Time`. -/
abbrev Time := Nat

/-- Signed nanosecond count, as `time.Duration`. -/
abbrev Duration := Int

/-- The zero value `time.Time{}`. -/
def zeroTime : Time := 0

/-- One second, `time.Second`. -/
def Second : Duration := 1000000000

/-- One minute, `time.Minute`. -/
def Minute : Duration := 60 * Second

/-- Strict order on instants: `t.Before(u)`. -/
def Time.Before (t u : Time) : Bool := decide (t < u)

/-- Strict order on instants: `t.After(u)`. -/
def Time.After (t u : Time) : Bool := decide (u < t)

/-- Difference of two instants: `t.Sub(u)`.  Go saturates the difference at about ±292 years;
the instants compared here are clock readings and lock-until instants (a clock reading plus
`lockDuration`), whose differences are far inside that range. -/
def Time.Sub (t u : Time) : Duration := (t : Int) - (u : Int)

/-- Time remaining until `u` as seen at `now`: `time.Until(u)`, that is `u.Sub(now)`. -/
def Until (now u : Time) : Duration := Time.Sub u now

/-- Shifted instant: `t.Add(d)`. -/
def Time.Add (t : Time) (d : Duration) : Time := ((t : Int) + d).toNat

/-! ## Login rate limiter (`utils/rate_limiter.go`) -/

/-- Failure record of one key (`attemptInfo`). -/
structure attemptInfo where
  /-- Number of failures. -/
  count : Int
  /-- Instant of the first failure of the current window. -/
  firstTime : Time
  /-- Instant until which the key is locked; `zeroTime` when not locked. -/
  lockUntil : Time
deriving DecidableEq

/-- Limiter state (`LoginRateLimiter`): the record map and the configuration. -/
structure LoginRateLimiter where
  /-- Records by key (`map[string]*attemptInfo`). -/
  attempts : String → Option attemptInfo
  /-- Failures after which a key is locked. -/
  maxAttempts : Int
  /-- Length of a lock, and of the failure window. -/
  lockDuration : Duration
  /-- Period of the sweep. -/
  cleanInterval : Duration

/-- The singleton built by `GetLoginRateLimiter`: empty map, 5 attempts, 5 minute lock,
sweep every 10 minutes. -/
def GetLoginRateLimiter : LoginRateLimiter :=
  ⟨fun _ => none, 5, 5 * Minute, 10 * Minute⟩

/-- Map assignment `l.attempts[ip] = info` (also the effect of mutating the record
through its pointer). -/
def LoginRateLimiter.store (l : LoginRateLimiter) (ip : String) (info : attemptInfo) :
    LoginRateLimiter :=
  ⟨fun k => if k = ip then some info else l.attempts k,
    l.maxAttempts, l.lockDuration, l.cleanInterval⟩

/-- Map deletion `delete(l.attempts, ip)`. -/
def LoginRateLimiter.delete (l : LoginRateLimiter) (ip : String) : LoginRateLimiter :=
  ⟨fun k => if k = ip then none else l.attempts k,
    l.maxAttempts, l.lockDuration, l.cleanInterval⟩

/-- Lock check `IsBlocked(ip)`: the flag and the remaining time.  `now` is the reading of
`time.Now()` that is tested against lock-until, `later` the reading taken after it inside
`time.Until`. -/
def IsBlocked (l : LoginRateLimiter) (ip : String) (now later : Time) : Bool × Duration :=
  match l.attempts ip with
  | none => (false, 0)
  | some info =>
    if Time.Before now info.lockUntil then (true, Until later info.lockUntil)
    else (false, 0)

/-- Failure bookkeeping `RecordFailure(ip)`: the state after the call, the `blocked` flag and
the `remaining` time.  `now` is the reading `now := time.Now()` of the call, `later` the
reading taken inside `time.Until` when the key is found locked. -/
def RecordFailure (l : LoginRateLimiter) (ip : String) (now later : Time) :
    LoginRateLimiter × Bool × Duration :=
  match l.attempts ip with
  | none => (l.store ip ⟨1, now, zeroTime⟩, false, 0)
  | some info =>
    if Time.Before now info.lockUntil then (l, true, Until later info.lockUntil)
    else if Time.Sub now info.firstTime > l.lockDuration then
      (l.store ip ⟨1, now, zeroTime⟩, false, 0)
    else
      let count := info.count + 1
      if count ≥ l.maxAttempts then
        (l.store ip ⟨count, info.firstTime, Time.Add now l.lockDuration⟩, true, l.lockDuration)
      else
        (l.store ip ⟨count, info.firstTime, info.lockUntil⟩, false, 0)

/-- Success bookkeeping `RecordSuccess(ip)`: the record of the key is deleted. -/
def RecordSuccess (l : LoginRateLimiter) (ip : String) : LoginRateLimiter :=
  l.delete ip

/-- Attempts left for a key, `GetRemainingAttempts(ip)`. -/
def GetRemainingAttempts (l : LoginRateLimiter) (ip : String) : Int :=
  match l.attempts ip with
  | none => l.maxAttempts
  | some info =>
    let remaining := l.maxAttempts - info.count
    if remaining < 0 then 0 else remaining

/-- Sweep `cleanup()` at clock reading `now`: every record whose lock-until instant is
before `now` and whose first failure is more than twice `lockDuration` old is deleted;
the others are kept as they are. -/
def cleanup (l : LoginRateLimiter) (now : Time) : LoginRateLimiter :=
  ⟨fun ip =>
      match l.attempts ip with
      | none => none
      | some info =>
        if Time.After now info.lockUntil
            && decide (Time.Sub now info.firstTime > l.lockDuration * 2)
        then none else some info,
    l.maxAttempts, l.lockDuration, l.cleanInterval⟩

/-- Consecutive `RecordFailure(ip)` calls whose readings `now` are those of `ts`, in order: the
state after the last one.  The state a call leaves does not depend on the reading inside
`time.Until` (`RecordFailure_state`), which is given the value of `now` here. -/
def recordFailures (l : LoginRateLimiter) (ip : String) (ts : List Time) : LoginRateLimiter :=
  ts.foldl (fun s t => (RecordFailure s ip t t).1) l

/-! ## Go integers -/

/-- Smallest Go `int` (64-bit). -/
def minInt64 : Int := -9223372036854775808

/-- Largest Go `int` (64-bit). -/
def maxInt64 : Int := 9223372036854775807

/-- Range of a Go `int`. -/
def isInt64 (x : Int) : Prop := minInt64 ≤ x ∧ x ≤ maxInt64

instance (x : Int) : Decidable (isInt64 x) := by
  unfold isInt64
  infer_instance

/-- Two's-complement wrap-around of an integer result into the range of a Go `int`. -/
def wrapInt64 (x : Int) : Int :=
  (x + 9223372036854775808) % 18446744073709551616 - 9223372036854775808

/-! ## Client records and the admin port pool (`main.go`) -/

/-- Client row `models.FrpcConfig`, without its timestamps and associations.  The lists of
rows below hold the rows a query on the model sees (rows that are not soft-deleted). -/
structure FrpcConfig where
  /-- Primary key (`uint`). -/
  ID : Nat
  /-- Display name. -/
  Name : String
  /-- User of the client, unique among the rows. -/
  User : String
  /-- Free text. -/
  Remark : String
  /-- Whether online management is enabled. -/
  AdminEnabled : Bool
  /-- Local port of the client's control API. -/
  AdminPort : Int
  /-- User of the control API. -/
  AdminUser : String
  /-- Password of the control API. -/
  AdminPass : String
  /-- Remote management port on the server; 0 when none is assigned. -/
  AdminRemotePort : Int
deriving DecidableEq

/-- The ports plucked by the query of `allocateAdminPort`:
`admin_remote_port > 0 AND id != excludeClientID`, column `admin_remote_port`. -/
def usedAdminPorts (clients : List FrpcConfig) (excludeClientID : Nat) : List Int :=
  (clients.filter
    (fun c => decide (c.AdminRemotePort > 0) && decide (c.ID ≠ excludeClientID))).map
    (fun c => c.AdminRemotePort)

/-- The scan `for port := portStart; port <= portEnd; port++` of `allocateAdminPort`, entered
with the loop variable at `port`; `usedMap[port]` is membership in `usedPorts`.  The first
argument bounds the number of iterations: `none` means the bound was reached before the loop
left, `some 0` is the `return 0` after the loop. -/
def allocLoop (usedPorts : List Int) (portEnd : Int) : Nat → Int → Option Int
  | 0, _ => none
  | fuel + 1, port =>
    if port ≤ portEnd then
      if !(usedPorts.contains port) then some port
      else allocLoop usedPorts portEnd fuel (wrapInt64 (port + 1))
    else some 0

/-- Port allocation `allocateAdminPort(excludeClientID)` as a function of the resolved pool
bounds and of the client rows.  The scan is given one iteration per port of the range and one
more, which is all it can use (`allocateAdminPort_returns`). -/
def allocateAdminPort (portStart portEnd : Int) (clients : List FrpcConfig)
    (excludeClientID : Nat) : Option Int :=
  allocLoop (usedAdminPorts clients excludeClientID) portEnd
    ((portEnd - portStart + 1).toNat + 1) portStart

/-- The ports listed as used by `getAdminPortPoolHandler`:
`admin_enabled = true AND admin_remote_port > 0`, ordered by port. -/
def adminPortUsages (clients : List FrpcConfig) : List Int :=
  ((clients.filter (fun c => c.AdminEnabled && decide (c.AdminRemotePort > 0))).map
    (fun c => c.AdminRemotePort)).insertionSort (fun a b => a ≤ b)

/-- Client `c` holds the management port `q`: `q` is its assigned remote port.  A remote port
is assigned when it is positive (0 is the value of a client without port, and `getFrpcClient`
reads a port `≤ 0` as not assigned). -/
def holdsAdminPort (c : FrpcConfig) (q : Int) : Prop :=
  0 < c.AdminRemotePort ∧ c.AdminRemotePort = q

instance (c : FrpcConfig) (q : Int) : Decidable (holdsAdminPort c q) := by
  unfold holdsAdminPort
  infer_instance

/-! ## Client handlers (`main.go`) -/

/-- Outcome of a handler: the status written to the response. -/
inductive Response where
  /-- Status 200 with the client row as body. -/
  | ok (client : FrpcConfig)
  /-- Status 400, the body did not bind. -/
  | badRequest
  /-- Status 404, no such client. -/
  | notFound
  /-- Status 500, the insertion failed. -/
  | internalServerError
deriving DecidableEq

/-- Insertion `db.Create(&req)` into the client table, `clients` being the rows a query sees
and `deleted` the soft-deleted rows, which stay in the table.  The primary key and the unique
index on `user` range over all the rows of the table: the insertion fails when the user, or
a non-zero ID of the request, is taken by a row of either kind.  A row with ID 0 gets the
next ID of the table, above the IDs of all its rows (clients are only ever soft-deleted, so
these are all the IDs the table has handed out).  The result is the new list of visible rows
and the row as stored. -/
def dbCreate (clients deleted : List FrpcConfig) (req : FrpcConfig) :
    Option (List FrpcConfig × FrpcConfig) :=
  if (clients ++ deleted).any (fun c => decide (c.User = req.User))
      || (decide (req.ID ≠ 0) && (clients ++ deleted).any (fun c => decide (c.ID = req.ID)))
  then none
  else
    let row : FrpcConfig :=
      { req with ID := if req.ID = 0
                       then ((clients ++ deleted).map (fun c => c.ID)).foldl max 0 + 1
                       else req.ID }
    some (clients ++ [row], row)

/-- Lookup `db.First(&client, id)` among the rows a query sees. -/
def dbFirst (clients : List FrpcConfig) (id : Nat) : Option FrpcConfig :=
  clients.find? (fun c => decide (c.ID = id))

/-- Column update `db.Model(&client).Updates(...)` of `updateClientHandler`: the visible row
with the ID of `row` takes the updated columns of `row`; nothing changes when the new user is
taken by another row of the table, visible or soft-deleted (the error of the unique index is
not looked at by the handler). -/
def dbUpdates (clients deleted : List FrpcConfig) (row : FrpcConfig) : List FrpcConfig :=
  if (clients ++ deleted).any (fun c => decide (c.ID ≠ row.ID) && decide (c.User = row.User))
  then clients
  else clients.map (fun c => if c.ID = row.ID then row else c)

/-- Handler `createClientHandler`: `clients` are the visible rows and `deleted` the
soft-deleted rows of the table, `body` is the bound request (`none` when binding fails); the
result is the visible rows after the call and the response. -/
def createClientHandler (portStart portEnd : Int) (clients deleted : List FrpcConfig)
    (body : Option FrpcConfig) : Option (List FrpcConfig × Response) :=
  match body with
  | none => some (clients, Response.badRequest)
  | some req => do
    let req1 ←
      if req.AdminEnabled then do
        let adminPort := if req.AdminPort = 0 then 7400 else req.AdminPort
        let adminRemotePort ←
          if req.AdminRemotePort = 0 then allocateAdminPort portStart portEnd clients 0
          else some req.AdminRemotePort
        pure { req with AdminPort := adminPort, AdminRemotePort := adminRemotePort }
      else pure req
    match dbCreate clients deleted req1 with
    | none => pure (clients, Response.internalServerError)
    | some (clients1, row) => pure (clients1, Response.ok row)

/-- Handler `updateClientHandler` for the client `id`: `clients` are the visible rows and
`deleted` the soft-deleted rows of the table, `body` is the bound request; the result is the
visible rows after the call and the response. -/
def updateClientHandler (portStart portEnd : Int) (clients deleted : List FrpcConfig)
    (id : Nat) (body : Option FrpcConfig) : Option (List FrpcConfig × Response) :=
  match dbFirst clients id with
  | none => some (clients, Response.notFound)
  | some client =>
    match body with
    | none => some (clients, Response.badRequest)
    | some req => do
      let ports ←
        if req.AdminEnabled then do
          let adminPort := if req.AdminPort = 0 then 7400 else req.AdminPort
          let adminRemotePort ←
            if req.AdminRemotePort = 0 then allocateAdminPort portStart portEnd clients client.ID
            else some req.AdminRemotePort
          pure (adminPort, adminRemotePort)
        else pure (req.AdminPort, 0)
      let clients1 := dbUpdates clients deleted
        { client with
          Name := req.Name, User := req.User, Remark := req.Remark,
          AdminEnabled := req.AdminEnabled, AdminPort := ports.1,
          AdminUser := req.AdminUser, AdminPass := req.AdminPass,
          AdminRemotePort := ports.2 }
      match dbFirst clients1 id with
      | none => pure (clients1, Response.ok client)
      | some row => pure (clients1, Response.ok row)

/-- Endpoint selection `getFrpcClient`: the address, port and credentials handed to
`NewFrpcClient`, or the error text. -/
def getFrpcClient (client : FrpcConfig) : Except String (String × Int × String × String) :=
  if !client.AdminEnabled then Except.error "该客户端未启用在线管理"
  else if client.AdminRemotePort ≤ 0 then Except.error "该客户端未分配管理端口，请重新保存配置"
  else Except.ok ("127.0.0.1", client.AdminRemotePort, client.AdminUser, client.AdminPass)

/-! ## Remote control client (`utils/frpc_api.go`) -/

/-- Response of the remote control API as `doRequest` sees it: the status code and the body
as read by `io.ReadAll` (the exchange and the read of the body are taken to succeed). -/
structure httpResponse where
  /-- Status code of the response. -/
  StatusCode : Int
  /-- Body of the response. -/
  Body : String
deriving DecidableEq

/-- The outcome of `FrpcClient.doRequest` for a received response: an error whose text is
`fmt.Errorf("API returned status %d: %s", ...)`, or the body. -/
def FrpcClient.doRequest (resp : httpResponse) : Except String String :=
  if resp.StatusCode ≠ 200 then
    Except.error ("API returned status " ++ toString resp.StatusCode ++ ": " ++ resp.Body)
  else Except.ok resp.Body

/-- Outcome of `FrpcClient.GetConfig`: the body as a string. -/
def FrpcClient.GetConfig (resp : httpResponse) : Except String String :=
  match FrpcClient.doRequest resp with
  | Except.error err => Except.error err
  | Except.ok data => Except.ok data

/-- Outcome of `FrpcClient.UpdateConfig`: only the error of `doRequest` is returned. -/
def FrpcClient.UpdateConfig (resp : httpResponse) : Except String Unit :=
  match FrpcClient.doRequest resp with
  | Except.error err => Except.error err
  | Except.ok _ => Except.ok ()

/-- Outcome of `FrpcClient.Reload`: only the error of `doRequest` is returned. -/
def FrpcClient.Reload (resp : httpResponse) : Except String Unit :=
  match FrpcClient.doRequest resp with
  | Except.error err => Except.error err
  | Except.ok _ => Except.ok ()

/-- Outcome of `FrpcClient.Stop`: only the error of `doRequest` is returned. -/
def FrpcClient.Stop (resp : httpResponse) : Except String Unit :=
  match FrpcClient.doRequest resp with
  | Except.error err => Except.error err
  | Except.ok _ => Except.ok ()

/-! ## Direct backend: the log buffer (`utils/frps_manager.go`) -/

/-- Command handle `exec.Cmd`, reduced to its field `Process`. -/
structure Cmd where
  /-- PID of the process (`Process.Pid`); `none` while `Process` is nil, that is until the
  command has been started. -/
  Process : Option Int
deriving DecidableEq

/-- State of the direct backend (`ProcessManager`), without its two locks. -/
structure ProcessManager where
  /-- The last command built by `Start`; `none` while `cmd` is nil. -/
  cmd : Option Cmd
  /-- Path of the executable. -/
  frpsPath : String
  /-- Path of the configuration file. -/
  configPath : String
  /-- Whether a process is tracked as running. -/
  running : Bool
  /-- Captured lines, oldest first. -/
  logLines : List String
  /-- Capacity of the buffer. -/
  maxLogLines : Int
  /-- Instant of the last successful start. -/
  startTime : Time

/-- Constructor `NewProcessManager`: nothing running, empty buffer of capacity 1000. -/
def NewProcessManager (frpsPath configPath : String) : ProcessManager :=
  { cmd := none, frpsPath := frpsPath, configPath := configPath, running := false,
    logLines := [], maxLogLines := 1000, startTime := zeroTime }

/-- Capture of one line, `addLogLine(line)`: `timestamp` is the text of
`time.Now().Format("2006-01-02 15:04:05")` at the call. -/
def addLogLine (m : ProcessManager) (timestamp line : String) : ProcessManager :=
  let logLine := "[" ++ timestamp ++ "] " ++ line
  let logLines := m.logLines ++ [logLine]
  if (logLines.length : Int) > m.maxLogLines then { m with logLines := logLines.drop 1 }
  else { m with logLines := logLines }

/-- Captures of the (timestamp, line) pairs of `entries`, in order. -/
def addLogLines (m : ProcessManager) (entries : List (String × String)) : ProcessManager :=
  entries.foldl (fun s e => addLogLine s e.1 e.2) m

/-- The builtin `copy(dst, src)`: the first `min(len(dst), len(src))` elements of `dst` are
overwritten with those of `src`; the result is `dst` after the call. -/
def goCopy {α : Type} (dst src : List α) : List α :=
  src.take dst.length ++ dst.drop src.length

/-- Log query `GetLogs(lines)` of the direct backend. -/
def ProcessManager.GetLogs (m : ProcessManager) (lines : Int) : List String :=
  let lines1 : Int :=
    if lines ≤ 0 ∨ lines > (m.logLines.length : Int) then (m.logLines.length : Int) else lines
  let start : Int := (m.logLines.length : Int) - lines1
  let start1 : Int := if start < 0 then 0 else start
  goCopy (List.replicate lines1.toNat "") (m.logLines.drop start1.toNat)

/-! ## Data-plane port pool (`main.go`) -/

/-- Proxy row `models.Proxy`, with the columns the port pool reads.  The lists of rows below
hold the rows a query on the model sees (rows that are not soft-deleted). -/
structure Proxy where
  /-- Primary key (`uint`). -/
  ID : Nat
  /-- Owning client. -/
  FrpcConfigID : Nat
  /-- Name of the proxy. -/
  Name : String
  /-- Transport type (column `type`). -/
  ProxyType : String
  /-- Remote port, used by tcp and udp proxies. -/
  RemotePort : Int
deriving DecidableEq

/-- The ports plucked by the query of `getAvailablePortsHandler`:
`type IN ("tcp", "udp") AND remote_port > 0`, column `remote_port`. -/
def usedProxyPorts (proxies : List Proxy) : List Int :=
  (proxies.filter
    (fun p => (decide (p.ProxyType = "tcp") || decide (p.ProxyType = "udp"))
      && decide (p.RemotePort > 0))).map
    (fun p => p.RemotePort)

/-- The scan `for port := portStart; port <= portEnd && len(availablePorts) < 100; port++`
of `getAvailablePortsHandler`, entered with the loop variable at `port` and the ports
collected so far in `availablePorts`.  The first argument bounds the number of iterations:
`none` means the bound was reached before the loop left. -/
def availableLoop (usedPorts : List Int) (portEnd : Int) :
    Nat → Int → List Int → Option (List Int)
  | 0, _, _ => none
  | fuel + 1, port, availablePorts =>
    if port ≤ portEnd ∧ availablePorts.length < 100 then
      availableLoop usedPorts portEnd fuel (wrapInt64 (port + 1))
        (if !(usedPorts.contains port) then availablePorts ++ [port] else availablePorts)
    else some availablePorts

/-- Body of the answer of `getAvailablePortsHandler`, without `port_usages`. -/
structure AvailablePorts where
  /-- Field `ports`: the free ports listed. -/
  ports : List Int
  /-- Field `used_ports`. -/
  used_ports : List Int
  /-- Field `pool_start`. -/
  pool_start : Int
  /-- Field `pool_end`. -/
  pool_end : Int
  /-- Field `total_used`. -/
  total_used : Int
  /-- Field `total_available`. -/
  total_available : Int
deriving DecidableEq

/-- Handler `getAvailablePortsHandler` as a function of the resolved pool bounds and of the
proxy rows.  The scan is given one iteration per port of the range and 101 more (after a
wrap-around of `port++` it adds at most 100 ports). -/
def getAvailablePortsHandler (portStart portEnd : Int) (proxies : List Proxy) :
    Option AvailablePorts :=
  let usedPorts := usedProxyPorts proxies
  match availableLoop usedPorts portEnd ((portEnd - portStart + 1).toNat + 101) portStart [] with
  | none => none
  | some availablePorts =>
    some
      { ports := availablePorts, used_ports := usedPorts,
        pool_start := portStart, pool_end := portEnd,
        total_used := (usedPorts.length : Int),
        total_available :=
          wrapInt64 (wrapInt64 (wrapInt64 (portEnd - portStart) + 1) - (usedPorts.length : Int)) }

/-- The ports of the inclusive range `[portStart, portEnd]`, in ascending order. -/
def portRange (portStart portEnd : Int) : List Int :=
  (List.range (portEnd - portStart + 1).toNat).map (fun (i : Nat) => portStart + (i : Int))

/-! ## Server configuration parser (`utils/toml_parser.go`)

Text is a list of characters (a Go string holding valid UTF-8).  A document is the list of
its raw lines: the pieces of the file content between newlines, as `bufio.Scanner` meets
them before it drops a trailing carriage return. -/

/-- White space in the sense of `unicode.IsSpace`. -/
def isSpace (c : Char) : Bool :=
  let r := c.toNat
  (9 ≤ r && r ≤ 13) || r == 32 || r == 133 || r == 160 || r == 5760
    || (8192 ≤ r && r ≤ 8202) || r == 8232 || r == 8233 || r == 8239 || r == 8287
    || r == 12288

/-- Both ends cleared of white space: `strings.TrimSpace`. -/
def TrimSpace (s : List Char) : List Char :=
  (s.rdropWhile isSpace).dropWhile isSpace

/-- Both ends cleared of the characters of `cutset`: `strings.Trim`. -/
def Trim (s : List Char) (cutset : List Char) : List Char :=
  (s.rdropWhile (fun c => cutset.contains c)).dropWhile (fun c => cutset.contains c)

/-- Test `strings.HasPrefix(s, p)`. -/
def HasPrefix (s p : List Char) : Bool :=
  p.isPrefixOf s

/-- The text before and the text after the first occurrence of `sep`, when there is one. -/
def cutAtFirst (sep : Char) : List Char → Option (List Char × List Char)
  | [] => none
  | c :: cs =>
    if c = sep then some ([], cs)
    else
      match cutAtFirst sep cs with
      | none => none
      | some (before, after) => some (c :: before, after)

/-- The split `strings.SplitN(s, sep, 2)` for a separator of one character: one part when `sep`
does not occur, otherwise the text before its first occurrence and the text after it. -/
def SplitN (s : List Char) (sep : Char) : List (List Char) :=
  match cutAtFirst sep s with
  | none => [s]
  | some (before, after) => [before, after]

/-- Conversion `strconv.Atoi`: an optional sign and at least one decimal digit, the value
being in the range of `int`; `none` is the error. -/
def Atoi (s : List Char) : Option Int :=
  let negative := s.head? = some '-'
  let digits := if s.head? = some '-' ∨ s.head? = some '+' then s.tail else s
  if digits = [] ∨ ¬ digits.all Char.isDigit then none
  else
    let n : Nat := digits.foldl (fun acc c => acc * 10 + (c.toNat - 48)) 0
    let v : Int := if negative then -(n : Int) else (n : Int)
    if isInt64 v then some v else none

/-- Decimal text of an integer, as `strconv.Itoa` writes it. -/
def Itoa (n : Int) : List Char :=
  if n < 0 then '-' :: Nat.toDigits 10 n.natAbs else Nat.toDigits 10 n.toNat

/-- Parsed server configuration (`FrpsConfig`). -/
structure FrpsConfig where
  /-- Key `bindAddr`. -/
  BindAddr : List Char
  /-- Key `bindPort`. -/
  BindPort : Int
  /-- Key `auth.method`. -/
  AuthMethod : List Char
  /-- Key `auth.token`. -/
  AuthToken : List Char
  /-- Key `webServer.addr`. -/
  WebServerAddr : List Char
  /-- Key `webServer.port`. -/
  WebServerPort : Int
  /-- Key `webServer.user`. -/
  WebServerUser : List Char
  /-- Key `webServer.password`. -/
  WebServerPass : List Char
deriving DecidableEq

/-- The configuration `ParseFrpsToml` starts from. -/
def defaultFrpsConfig : FrpsConfig :=
  { BindAddr := "0.0.0.0".toList, BindPort := 7000, AuthMethod := "token".toList,
    AuthToken := [], WebServerAddr := "127.0.0.1".toList, WebServerPort := 7500,
    WebServerUser := "admin".toList, WebServerPass := "admin".toList }

/-- The token `scanner.Text()` for a raw line: one trailing carriage return is dropped. -/
def dropCR (raw : List Char) : List Char :=
  if raw.getLast? = some '\r' then raw.dropLast else raw

/-- The key and the value the loop body of `ParseFrpsToml` reads on a raw line; `none` when
the line is skipped (blank, comment, or without `=`). -/
def keyValue (raw : List Char) : Option (List Char × List Char) :=
  let line := TrimSpace (dropCR raw)
  if line = [] ∨ HasPrefix line ['#'] then none
  else
    match SplitN line '=' with
    | [part0, part1] => some (TrimSpace part0, Trim (TrimSpace part1) ['"'])
    | _ => none

/-- The `switch key` of `ParseFrpsToml`. -/
def assignKey (config : FrpsConfig) (key value : List Char) : FrpsConfig :=
  if key = "bindAddr".toList then { config with BindAddr := value }
  else if key = "bindPort".toList then
    match Atoi value with
    | some v => { config with BindPort := v }
    | none => config
  else if key = "auth.method".toList then { config with AuthMethod := value }
  else if key = "auth.token".toList then { config with AuthToken := value }
  else if key = "webServer.addr".toList then { config with WebServerAddr := value }
  else if key = "webServer.port".toList then
    match Atoi value with
    | some v => { config with WebServerPort := v }
    | none => config
  else if key = "webServer.user".toList then { config with WebServerUser := value }
  else if key = "webServer.password".toList then { config with WebServerPass := value }
  else config

/-- One turn of the loop of `ParseFrpsToml` on a raw line. -/
def scanLine (config : FrpsConfig) (raw : List Char) : FrpsConfig :=
  match keyValue raw with
  | none => config
  | some (key, value) => assignKey config key value

/-- Number of bytes of a text, `len(s)`. -/
def byteLen (s : List Char) : Nat :=
  (s.map Char.utf8Size).sum

/-- The limit `bufio.MaxScanTokenSize` of the scanner's buffer: a raw line of that many bytes
or more cannot be scanned. -/
def maxScanTokenSize : Nat := 65536

/-- Errors of `ParseFrpsToml`. -/
inductive ParseError where
  /-- The error of `os.Open`. -/
  | openFailed
  /-- The error `bufio.ErrTooLong` of the scanner. -/
  | tooLong
deriving DecidableEq

/-- The loop `for scanner.Scan()` over the raw lines still to read, and `scanner.Err()`
after it: the scan stops at a raw line that does not fit the scanner's buffer. -/
def scanLoop (config : FrpsConfig) : List (List Char) → FrpsConfig × Option ParseError
  | [] => (config, none)
  | raw :: rest =>
    if maxScanTokenSize ≤ byteLen raw then (config, some ParseError.tooLong)
    else scanLoop (scanLine config raw) rest

/-- Parser `ParseFrpsToml` as a function of the file: `none` when the file cannot be opened,
otherwise its raw lines.  The result is the pair the Go function returns. -/
def ParseFrpsToml (file : Option (List (List Char))) : Option FrpsConfig × Option ParseError :=
  match file with
  | none => (none, some ParseError.openFailed)
  | some lines =>
    let r := scanLoop defaultFrpsConfig lines
    (some r.1, r.2)

/-- The string field a recognized key is stored in. -/
def FrpsConfig.stringField (c : FrpsConfig) (key : List Char) : Option (List Char) :=
  if key = "bindAddr".toList then some c.BindAddr
  else if key = "auth.method".toList then some c.AuthMethod
  else if key = "auth.token".toList then some c.AuthToken
  else if key = "webServer.addr".toList then some c.WebServerAddr
  else if key = "webServer.user".toList then some c.WebServerUser
  else if key = "webServer.password".toList then some c.WebServerPass
  else none

/-- The integer field a recognized key is stored in. -/
def FrpsConfig.intField (c : FrpsConfig) (key : List Char) : Option Int :=
  if key = "bindPort".toList then some c.BindPort
  else if key = "webServer.port".toList then some c.WebServerPort
  else none

/-- The eight keys `ParseFrpsToml` recognizes. -/
def recognizedKeys : List (List Char) :=
  ["bindAddr".toList, "bindPort".toList, "auth.method".toList, "auth.token".toList,
   "webServer.addr".toList, "webServer.port".toList, "webServer.user".toList,
   "webServer.password".toList]

/-- The key occurs on a key=value line of the document. -/
def keyOccurs (key : List Char) (doc : List (List Char)) : Prop :=
  ∃ raw ∈ doc, ∃ value, keyValue raw = some (key, value)

/-- The keys stored in string fields. -/
def stringKeys : List (List Char) :=
  ["bindAddr".toList, "auth.method".toList, "auth.token".toList, "webServer.addr".toList,
   "webServer.user".toList, "webServer.password".toList]

/-- The keys stored in integer fields. -/
def intKeys : List (List Char) :=
  ["bindPort".toList, "webServer.port".toList]

/-- The raw line `key = text`, with the white space `w1`, `w2`, `w3`, `w4` around the key, the
equals sign and the text. -/
def keyValueLine (w1 key w2 w3 text w4 : List Char) : List Char :=
  w1 ++ key ++ w2 ++ '=' :: (w3 ++ text ++ w4)

/-- The text `v` between double quotes. -/
def quoted (v : List Char) : List Char :=
  '"' :: v ++ ['"']

/-! ## Statistics client (`utils/dashboard_api.go`) -/

/-- One proxy as the statistics API reports it (`ProxyInfo`); `Conf` holds the text of the
untyped `conf` value. -/
structure ProxyInfo where
  /-- Name of the proxy. -/
  Name : String
  /-- Text of the reported configuration. -/
  Conf : String
  /-- Version of the client. -/
  ClientVersion : String
  /-- Bytes received today. -/
  TodayTrafficIn : Int
  /-- Bytes sent today. -/
  TodayTrafficOut : Int
  /-- Current connections. -/
  CurConns : Int
  /-- Text of the last start instant. -/
  LastStartTime : String
  /-- Text of the last close instant. -/
  LastCloseTime : String
  /-- Status text. -/
  Status : String
deriving DecidableEq

/-- Decoded answer of one per-type query (`ProxiesResponse`). -/
structure ProxiesResponse where
  /-- The proxies of the type. -/
  Proxies : List ProxyInfo
deriving DecidableEq

/-- The transport types queried by `GetAllProxies`, in the order of the source. -/
def proxyTypes : List String :=
  ["tcp", "udp", "http", "https", "stcp", "sudp", "xtcp", "tcpmux"]

/-- Aggregate query `DashboardClient.GetAllProxies`, as a function of the outcome of
`GetProxies` for each type (an error of the request or of the decoding, or the decoded
answer): the list and the returned error. -/
def DashboardClient.GetAllProxies (GetProxies : String → Except String ProxiesResponse) :
    List ProxyInfo × Option String :=
  (proxyTypes.foldl
      (fun allProxies t =>
        match GetProxies t with
        | Except.error _ => allProxies
        | Except.ok resp => allProxies ++ resp.Proxies) [],
    none)

/-! ## Admin port pool statistics (`main.go`) -/

/-- Body of the answer of `getAdminPortPoolHandler`; of each usage only the port is kept. -/
structure AdminPortPool where
  /-- Field `pool_start`. -/
  pool_start : Int
  /-- Field `pool_end`. -/
  pool_end : Int
  /-- Field `total_used`. -/
  total_used : Int
  /-- Field `total_available`. -/
  total_available : Int
  /-- Field `port_usages`: the ports in use, ordered. -/
  port_usages : List Int
deriving DecidableEq

/-- Handler `getAdminPortPoolHandler` as a function of the resolved pool bounds and of the
client rows. -/
def getAdminPortPoolHandler (portStart portEnd : Int) (clients : List FrpcConfig) :
    AdminPortPool :=
  let portUsages := adminPortUsages clients
  let totalUsed : Int := (portUsages.length : Int)
  let totalAvailable := wrapInt64 (wrapInt64 (wrapInt64 (portEnd - portStart) + 1) - totalUsed)
  { pool_start := portStart, pool_end := portEnd, total_used := totalUsed,
    total_available := totalAvailable, port_usages := portUsages }

/-- The number of ports of `[portStart, portEnd]` that are not among `usedPorts`. -/
def freePortCount (portStart portEnd : Int) (usedPorts : List Int) : Nat :=
  ((portRange portStart portEnd).filter (fun p => !(usedPorts.contains p))).length

/-! ## Direct backend: the process lifecycle (`utils/frps_manager.go`) -/

/-- What a call of `Start` meets outside the manager. -/
structure StartEnv where
  /-- Whether `os.IsNotExist` holds of the error of `os.Stat(m.configPath)`. -/
  configNotExist : Bool
  /-- Whether `StdoutPipe` fails. -/
  stdoutPipeFails : Bool
  /-- Whether `StderrPipe` fails. -/
  stderrPipeFails : Bool
  /-- Outcome of `m.cmd.Start()`: the PID of the spawned process, or `none` on error. -/
  spawn : Option Int
  /-- The reading `time.Now()` after the spawn. -/
  now : Time
deriving DecidableEq

/-- Operation `Start()`: the state after the call, the error returned (its text, up to the
cause printed by `%v`), and the PID of the process spawned by the call, if any (whose output
readers and exit-waiter the call has launched). -/
def ProcessManager.Start (m : ProcessManager) (env : StartEnv) :
    ProcessManager × Option String × Option Int :=
  if m.running then (m, some "frps is already running", none)
  else if env.configNotExist then (m, some ("config file not found: " ++ m.configPath), none)
  else
    let m1 := { m with cmd := some ⟨none⟩ }
    if env.stdoutPipeFails then (m1, some "failed to get stdout pipe", none)
    else if env.stderrPipeFails then (m1, some "failed to get stderr pipe", none)
    else
      match env.spawn with
      | none => (m1, some "failed to start frps", none)
      | some pid =>
        ({ m1 with cmd := some ⟨some pid⟩, running := true, startTime := env.now },
          none, some pid)

/-- Signals sent by `Stop`. -/
inductive Signal where
  /-- The graceful `syscall.SIGTERM` of `Process.Signal`. -/
  | SIGTERM
  /-- The forced termination of `Process.Kill`. -/
  | KILL
deriving DecidableEq

/-- Operation `Stop()`, `signalFails` telling whether `Process.Signal(SIGTERM)` returns an
error: the state after the call, the error returned and the signals sent, in order, each
with the PID it went to. -/
def ProcessManager.Stop (m : ProcessManager) (signalFails : Bool) :
    ProcessManager × Option String × List (Int × Signal) :=
  match m.running, m.cmd with
  | true, some ⟨some pid⟩ =>
    ({ m with running := false }, none,
      if signalFails then [(pid, Signal.SIGTERM), (pid, Signal.KILL)]
      else [(pid, Signal.SIGTERM)])
  | _, _ => (m, some "frps is not running", [])

/-- The exit-waiter launched by a successful `Start` firing (the process it waits for has
exited): `m.running = false`. -/
def ProcessManager.exitWaiter (m : ProcessManager) : ProcessManager :=
  { m with running := false }

/-- Report `FrpsStatus`. -/
structure FrpsStatus where
  /-- Field `running`. -/
  Running : Bool
  /-- Field `pid`; 0 when not set. -/
  PID : Int
  /-- Field `start_time`; the zero instant when not set. -/
  StartTime : Time
  /-- Field `uptime`; empty when not set. -/
  Uptime : String
  /-- Field `manager_type`. -/
  ManagerType : String
deriving DecidableEq

/-- Rounding `d.Round(time.Second)`: the nearest multiple of a second, halfway values away
from zero. -/
def roundSecond (d : Duration) : Duration :=
  if d < 0 then -((((-d) + 500000000) / Second) * Second)
  else ((d + 500000000) / Second) * Second

/-- Text `d.String()` of a duration that is a multiple of a second: `0s`, `5s`, `1m0s`,
`1h0m5s`, with a leading `-` when negative. -/
def durationString (d : Duration) : String :=
  let u : Nat := d.natAbs / 1000000000
  if u = 0 then "0s"
  else
    let sign := if d < 0 then "-" else ""
    let seconds := toString (u % 60) ++ "s"
    let minutes := if u / 60 > 0 then toString (u / 60 % 60) ++ "m" else ""
    let hours := if u / 3600 > 0 then toString (u / 3600) ++ "h" else ""
    sign ++ hours ++ minutes ++ seconds

/-- Operation `Status()` at clock reading `now`. -/
def ProcessManager.Status (m : ProcessManager) (now : Time) : FrpsStatus :=
  match m.running, m.cmd with
  | true, some ⟨some pid⟩ =>
    { Running := m.running, PID := pid, StartTime := m.startTime,
      Uptime := durationString (roundSecond (Time.Sub now m.startTime)),
      ManagerType := "process" }
  | _, _ =>
    { Running := m.running, PID := 0, StartTime := zeroTime, Uptime := "",
      ManagerType := "process" }

/-- Events of the direct backend. -/
inductive Event where
  /-- A call of `Start`. -/
  | start (env : StartEnv)
  /-- A call of `Stop`. -/
  | stop (signalFails : Bool)
  /-- Process `pid` has exited and its exit-waiter fires. -/
  | exit (pid : Int)
  /-- An output reader captures a line. -/
  | log (timestamp line : String)
deriving DecidableEq

/-- The manager together with the processes around it. -/
structure World where
  /-- State of the manager. -/
  m : ProcessManager
  /-- Spawned processes whose exit-waiter has not fired yet. -/
  live : List Int
  /-- The most recently spawned process. -/
  latest : Option Int
  /-- Processes a `Stop` has sent its signals to. -/
  stopped : List Int

/-- The world of a new manager. -/
def World.init (frpsPath configPath : String) : World :=
  { m := NewProcessManager frpsPath configPath, live := [], latest := none, stopped := [] }

/-- One step of the direct backend; `none` when the event cannot occur: an exit-waiter
fires only for a spawned process that has not exited yet, and a spawn does not return the
PID of such a process. -/
def World.step (w : World) : Event → Option World
  | Event.start env =>
    match w.m.Start env with
    | (m1, _, none) => some { w with m := m1 }
    | (m1, _, some pid) =>
      if pid ∈ w.live then none
      else some { w with m := m1, live := pid :: w.live, latest := some pid }
  | Event.stop signalFails =>
    match w.m.Stop signalFails with
    | (m1, _, signals) =>
      some { w with m := m1, stopped := signals.map (fun s => s.1) ++ w.stopped }
  | Event.exit pid =>
    if pid ∈ w.live then some { w with m := w.m.exitWaiter, live := w.live.erase pid }
    else none
  | Event.log timestamp line => some { w with m := addLogLine w.m timestamp line }

/-- The steps of a list of events, in order. -/
def World.run (w : World) : List Event → Option World
  | [] => some w
  | e :: es =>
    match w.step e with
    | none => none
    | some w1 => w1.run es

/-- While a process is tracked as running, the command of the manager has a process. -/
def World.tracked (w : World) : Prop :=
  w.m.running = true → ∃ pid, w.m.cmd = some ⟨some pid⟩

/-! ## The limiter over time -/

/-- Calls that write the limiter, with the reading `now` of each call that takes one. -/
inductive LimiterEvent where
  /-- A call `RecordFailure(ip)` whose reading `time.Now()` is `now`. -/
  | failure (ip : String) (now : Time)
  /-- A call `RecordSuccess(ip)`. -/
  | success (ip : String)
  /-- A run of the sweep at `now`. -/
  | sweep (now : Time)
deriving DecidableEq

/-- The state after one call.  The state `RecordFailure` leaves does not depend on the
reading inside `time.Until` (`RecordFailure_state`), which is given the value of `now`. -/
def LimiterEvent.apply (l : LoginRateLimiter) : LimiterEvent → LoginRateLimiter
  | LimiterEvent.failure ip now => (RecordFailure l ip now now).1
  | LimiterEvent.success ip => RecordSuccess l ip
  | LimiterEvent.sweep now => cleanup l now

/-- The state after the calls of `events`, in order. -/
def runLimiter (l : LoginRateLimiter) (events : List LimiterEvent) : LoginRateLimiter :=
  events.foldl LimiterEvent.apply l

/-- The clock does not run backwards: the readings of `events` are non-decreasing and none is
below `t`. -/
def clockOrdered : Time → List LimiterEvent → Bool
  | _, [] => true
  | t, LimiterEvent.failure _ now :: es => decide (t ≤ now) && clockOrdered now es
  | t, LimiterEvent.success _ :: es => clockOrdered t es
  | t, LimiterEvent.sweep now :: es => decide (t ≤ now) && clockOrdered now es

/-- Shape of a record of the limiter built by `GetLoginRateLimiter` when the clock has
reached `t`: unlocked with at most 4 failures, or locked with 5 failures until at least a
lock duration after the first one, or locked with 6 failures until two lock durations after
the first one. -/
def recordShape (t : Time) (info : attemptInfo) : Prop :=
  1 ≤ info.count ∧ info.firstTime ≤ t
  ∧ ((info.lockUntil = zeroTime ∧ info.count ≤ 4)
    ∨ (info.count = 5 ∧ (info.firstTime : Int) + 5 * Minute ≤ (info.lockUntil : Int))
    ∨ (info.count = 6 ∧ (info.lockUntil : Int) = (info.firstTime : Int) + 2 * (5 * Minute)))

/-- Shape of the limiter built by `GetLoginRateLimiter` when the clock has reached `t`. -/
def limiterShape (t : Time) (l : LoginRateLimiter) : Prop :=
  l.maxAttempts = 5 ∧ l.lockDuration = 5 * Minute
  ∧ ∀ ip info, l.attempts ip = some info → recordShape t info

/-! ## Client configuration generator (`utils.GenerateFrpcToml`, called in `main.go`)

The source file of the generator is not among the sources; its input type is known from the
struct literals of `generateClientToml`. -/

/-- The scan of a text into raw lines, `current` holding the characters of the line being
read, last first. -/
def rawLinesFrom : List Char → List Char → List (List Char)
  | [], current => if current = [] then [] else [current.reverse]
  | c :: rest, current =>
    if c = '\n' then current.reverse :: rawLinesFrom rest []
    else rawLinesFrom rest (c :: current)

/-- The raw lines of a file content, as `bufio.ScanLines` cuts it: the pieces between line
feeds, a last piece without line feed being a line when it is not empty. -/
def rawLines (text : List Char) : List (List Char) :=
  rawLinesFrom text []

/-! ## Properties of the login rate limiter -/

/-- Reading back the key just stored. -/
theorem store_attempts_self (l : LoginRateLimiter) (ip : String) (info : attemptInfo) :
    (l.store ip info).attempts ip = some info := by
  simp [LoginRateLimiter.store]

/-- Storing at one key leaves the other keys. -/
theorem store_attempts_other (l : LoginRateLimiter) (ip k : String) (info : attemptInfo)
    (h : k ≠ ip) : (l.store ip info).attempts k = l.attempts k := by
  simp [LoginRateLimiter.store, h]

/-- Storing keeps `maxAttempts`. -/
theorem store_maxAttempts (l : LoginRateLimiter) (ip : String) (info : attemptInfo) :
    (l.store ip info).maxAttempts = l.maxAttempts := rfl

/-- Storing keeps `lockDuration`. -/
theorem store_lockDuration (l : LoginRateLimiter) (ip : String) (info : attemptInfo) :
    (l.store ip info).lockDuration = l.lockDuration := rfl

/-- Reading back the key just deleted. -/
theorem delete_attempts_self (l : LoginRateLimiter) (ip : String) :
    (l.delete ip).attempts ip = none := by
  simp [LoginRateLimiter.delete]

/-- Deleting one key leaves the other keys. -/
theorem delete_attempts_other (l : LoginRateLimiter) (ip k : String) (h : k ≠ ip) :
    (l.delete ip).attempts k = l.attempts k := by
  simp [LoginRateLimiter.delete, h]

/-- First failure of a key without record: a record with count 1 is created. -/
theorem RecordFailure_absent (l : LoginRateLimiter) (ip : String) (now : Time)
    (h : l.attempts ip = none) {later : Time} :
    RecordFailure l ip now later = (l.store ip ⟨1, now, zeroTime⟩, false, 0) := by
  simp [RecordFailure, h]

/-- Failure while the lock is in force: nothing is written, and the remaining time is
measured at the later reading. -/
theorem RecordFailure_locked (l : LoginRateLimiter) (ip : String) (now : Time)
    (info : attemptInfo) (h : l.attempts ip = some info) (hlk : now < info.lockUntil)
    {later : Time} :
    RecordFailure l ip now later = (l, true, (info.lockUntil : Int) - (later : Int)) := by
  simp [RecordFailure, h, Time.Before, hlk, Until, Time.Sub]

/-- Failure inside the window that does not reach `maxAttempts`: the count grows by one. -/
theorem RecordFailure_count (l : LoginRateLimiter) (ip : String) (now : Time)
    (info : attemptInfo) (h : l.attempts ip = some info) (hlk : info.lockUntil ≤ now)
    (hw : (now : Int) - (info.firstTime : Int) ≤ l.lockDuration)
    (hc : info.count + 1 < l.maxAttempts) {later : Time} :
    RecordFailure l ip now later
      = (l.store ip ⟨info.count + 1, info.firstTime, info.lockUntil⟩, false, 0) := by
  have h1 : ¬ now < info.lockUntil := Nat.not_lt.mpr hlk
  have h2 : ¬ l.lockDuration < (now : Int) - (info.firstTime : Int) := Int.not_lt.mpr hw
  have h3 : ¬ l.maxAttempts ≤ info.count + 1 := Int.not_le.mpr hc
  simp [RecordFailure, h, Time.Before, h1, Time.Sub, h2, h3]

/-- Failure inside the window that reaches `maxAttempts`: the key is locked from `now`. -/
theorem RecordFailure_lock (l : LoginRateLimiter) (ip : String) (now : Time)
    (info : attemptInfo) (h : l.attempts ip = some info) (hlk : info.lockUntil ≤ now)
    (hw : (now : Int) - (info.firstTime : Int) ≤ l.lockDuration)
    (hc : l.maxAttempts ≤ info.count + 1) {later : Time} :
    RecordFailure l ip now later
      = (l.store ip ⟨info.count + 1, info.firstTime, Time.Add now l.lockDuration⟩,
          true, l.lockDuration) := by
  have h1 : ¬ now < info.lockUntil := Nat.not_lt.mpr hlk
  have h2 : ¬ l.lockDuration < (now : Int) - (info.firstTime : Int) := Int.not_lt.mpr hw
  simp [RecordFailure, h, Time.Before, h1, Time.Sub, h2, hc]

/-- The state `RecordFailure` leaves does not depend on the reading inside `time.Until`. -/
theorem RecordFailure_state (l : LoginRateLimiter) (ip : String) (now later : Time) :
    (RecordFailure l ip now later).1 = (RecordFailure l ip now now).1 := by
  unfold RecordFailure
  cases l.attempts ip with
  | none => rfl
  | some info =>
    simp only []
    split
    · rfl
    · rfl

/-- The state after five failures of a key without record inside one window: the key is
locked until a lock duration after the fifth. -/
theorem recordFailures_five (l : LoginRateLimiter) (key : String) (t1 t2 t3 t4 t5 : Time)
    (hmax : l.maxAttempts = 5) (hnone : l.attempts key = none)
    (h23 : t2 ≤ t3) (h34 : t3 ≤ t4) (h45 : t4 ≤ t5)
    (hwin : Time.Sub t5 t1 ≤ l.lockDuration) :
    (recordFailures l key [t1, t2, t3, t4, t5]).attempts key
      = some ⟨5, t1, Time.Add t5 l.lockDuration⟩ := by
  simp only [recordFailures, List.foldl]
  simp only [Time.Sub, Time, Duration] at *
  rw [RecordFailure_absent l key t1 hnone]
  rw [RecordFailure_count _ key t2 _ (store_attempts_self _ _ _) (Nat.zero_le _)
    (by simp only [store_lockDuration]; omega) (by simp [store_maxAttempts, hmax])]
  rw [RecordFailure_count _ key t3 _ (store_attempts_self _ _ _) (Nat.zero_le _)
    (by simp only [store_lockDuration]; omega) (by simp [store_maxAttempts, hmax])]
  rw [RecordFailure_count _ key t4 _ (store_attempts_self _ _ _) (Nat.zero_le _)
    (by simp only [store_lockDuration]; omega) (by simp [store_maxAttempts, hmax])]
  rw [RecordFailure_lock _ key t5 _ (store_attempts_self _ _ _) (Nat.zero_le _)
    (by simp only [store_lockDuration]; omega) (by simp [store_maxAttempts, hmax])]
  simp only [store_lockDuration]
  rw [store_attempts_self]
  rfl

/-- C1, as stated, fails: after five failures of 10.0.0.5 at the seconds 1 to 5 the key is
locked until 305 s.  `IsBlocked` whose first reading of the clock is the last nanosecond of
the lock and whose second reading, inside `time.Until`, comes 40 ns later answers true with
the remaining time -39 ns, which is not above 0. -/
theorem lock_check_across_expiry_is_negative :
    (recordFailures GetLoginRateLimiter "10.0.0.5"
        [1000000000, 2000000000, 3000000000, 4000000000, 5000000000]).attempts "10.0.0.5"
      = some ⟨5, 1000000000, 305000000000⟩
    ∧ (5000000000 : Time) ≤ 304999999999
    ∧ (304999999999 : Time) < Time.Add 5000000000 GetLoginRateLimiter.lockDuration
    ∧ IsBlocked (recordFailures GetLoginRateLimiter "10.0.0.5"
          [1000000000, 2000000000, 3000000000, 4000000000, 5000000000])
        "10.0.0.5" 304999999999 305000000039 = (true, -39) := by
  decide

/-- C1, amended: with maxAttempts = 5 and lockDuration = 5 minutes, for a key without record,
after five `RecordFailure` calls at non-decreasing instants t1..t5 with t5 - t1 ≤ lockDuration
and nothing else in between, `IsBlocked` whose reading of `time.Now()` is an instant t with
t5 ≤ t < t5 + lockDuration answers true, with the remaining time r = t5 + lockDuration - u
where u is the reading taken inside `time.Until`, at or after t: r ≤ lockDuration always, and
0 < r exactly when u is still before t5 + lockDuration (as it is when u = t). -/
theorem lockout_after_max_failures (l : LoginRateLimiter) (key : String)
    (t1 t2 t3 t4 t5 t later : Time)
    (hmax : l.maxAttempts = 5) (hlock : l.lockDuration = 5 * Minute)
    (hnone : l.attempts key = none)
    (_h12 : t1 ≤ t2) (h23 : t2 ≤ t3) (h34 : t3 ≤ t4) (h45 : t4 ≤ t5)
    (hwin : Time.Sub t5 t1 ≤ l.lockDuration)
    (ht : t5 ≤ t) (ht2 : t < Time.Add t5 l.lockDuration) (hlater : t ≤ later) :
    ∃ r : Duration,
      IsBlocked (recordFailures l key [t1, t2, t3, t4, t5]) key t later = (true, r)
      ∧ r = (t5 : Int) + l.lockDuration - (later : Int) ∧ r ≤ l.lockDuration
      ∧ (0 < r ↔ later < Time.Add t5 l.lockDuration)
      ∧ (later = t → 0 < r) := by
  have hrec := recordFailures_five l key t1 t2 t3 t4 t5 hmax hnone h23 h34 h45 hwin
  have hadd : ((Time.Add t5 l.lockDuration : Time) : Int) = (t5 : Int) + 300000000000 := by
    simp only [Time.Add, hlock, Minute, Second]
    omega
  have ht3 : (t : Int) < (t5 : Int) + 300000000000 := by
    rw [← hadd]
    exact Int.ofNat_lt.mpr ht2
  have ht5 : (t5 : Int) ≤ (t : Int) := Int.ofNat_le.mpr ht
  have hl : (t : Int) ≤ (later : Int) := Int.ofNat_le.mpr hlater
  have hL : l.lockDuration = 300000000000 := by
    rw [hlock]
    decide
  have hiff : later < Time.Add t5 l.lockDuration ↔ (later : Int) < (t5 : Int) + 300000000000 := by
    rw [← hadd]
    exact Int.ofNat_lt.symm
  refine ⟨((Time.Add t5 l.lockDuration : Time) : Int) - (later : Int), ?_, ?_, ?_, ?_, ?_⟩
  · simp [IsBlocked, hrec, Time.Before, ht2, Until, Time.Sub]
  · rw [hadd, hL]
  · rw [hadd, hL]
    show (t5 : Int) + 300000000000 - (later : Int) ≤ (300000000000 : Int)
    omega
  · rw [hiff, hadd]
    show (0 : Int) < (t5 : Int) + 300000000000 - (later : Int) ↔ _
    omega
  · intro e
    rw [hadd, e]
    show (0 : Int) < (t5 : Int) + 300000000000 - (t : Int)
    omega

/-- Witness of C1 amended: five failures of 10.0.0.5 one second apart on the fresh limiter,
lock checked one second after the last, the second reading 40 ns after the first. -/
theorem lockout_after_max_failures_witness :
    GetLoginRateLimiter.attempts "10.0.0.5" = none
    ∧ ∃ r : Duration,
      IsBlocked (recordFailures GetLoginRateLimiter "10.0.0.5"
          [1000000000, 2000000000, 3000000000, 4000000000, 5000000000])
        "10.0.0.5" 6000000000 6000000040 = (true, r)
      ∧ r = ((5000000000 : Time) : Int) + GetLoginRateLimiter.lockDuration
            - ((6000000040 : Time) : Int)
      ∧ r ≤ GetLoginRateLimiter.lockDuration
      ∧ (0 < r ↔ (6000000040 : Time) < Time.Add 5000000000 GetLoginRateLimiter.lockDuration)
      ∧ ((6000000040 : Time) = 6000000000 → 0 < r) :=
  ⟨rfl, lockout_after_max_failures GetLoginRateLimiter "10.0.0.5"
    1000000000 2000000000 3000000000 4000000000 5000000000 6000000000 6000000040
    rfl rfl rfl (by decide) (by decide) (by decide) (by decide) (by decide) (by decide)
    (by decide) (by decide)⟩

/-- C2, as stated, fails: 10.0.0.5 is locked until 300000000005 by five failures at the
instants 1..5.  `RecordFailure` whose reading `now` is 1000000005 and whose reading inside
`time.Until` comes 40 ns later returns the remaining time 298999999960, not lock-until minus
`now`, which is 299000000000. -/
theorem locked_failure_measures_at_later_reading :
    (recordFailures GetLoginRateLimiter "10.0.0.5" [1, 2, 3, 4, 5]).attempts "10.0.0.5"
      = some ⟨5, 1, 300000000005⟩
    ∧ (RecordFailure (recordFailures GetLoginRateLimiter "10.0.0.5" [1, 2, 3, 4, 5])
        "10.0.0.5" 1000000005 1000000045).2 = (true, 298999999960)
    ∧ ((300000000005 : Time) : Int) - ((1000000005 : Time) : Int) = 299000000000 := by
  decide

/-- C2, amended: for a key locked at instant t (t before its lock-until instant),
`RecordFailure` whose reading `now` is t leaves the whole limiter state, hence the record's
lock-until instant, count and first-failure instant, unchanged and returns (true, lockUntil -
u) where u is the reading taken inside `time.Until`; with u at or after t the remaining time
is at most lockUntil - t, and it is lockUntil - t when u = t.  Every further call while
locked, such as one 30 seconds later, again changes nothing and returns the time left to the
same lock-until instant at its own second reading. -/
theorem failure_while_locked_keeps_lock (l : LoginRateLimiter) (key : String) (t u : Time)
    (info : attemptInfo) (h : l.attempts key = some info) (hlk : t < info.lockUntil) :
    RecordFailure l key t u = (l, true, (info.lockUntil : Int) - (u : Int))
    ∧ (RecordFailure l key t u).1.attempts key = some info
    ∧ (t ≤ u → (RecordFailure l key t u).2.2 ≤ (info.lockUntil : Int) - (t : Int))
    ∧ (u = t → RecordFailure l key t u = (l, true, (info.lockUntil : Int) - (t : Int)))
    ∧ (∀ t2 u2 : Time, t2 < info.lockUntil →
        RecordFailure (RecordFailure l key t u).1 key t2 u2
          = (l, true, (info.lockUntil : Int) - (u2 : Int)))
    ∧ (Time.Add t (30 * Second) < info.lockUntil →
        RecordFailure (RecordFailure l key t u).1 key (Time.Add t (30 * Second))
            (Time.Add t (30 * Second))
          = (l, true, (info.lockUntil : Int) - (t : Int) - 30 * Second)) := by
  have e : RecordFailure l key t u = (l, true, (info.lockUntil : Int) - (u : Int)) :=
    RecordFailure_locked l key t info h hlk
  refine ⟨e, by rw [e]; exact h, fun htu => ?_, fun hut => ?_, fun t2 u2 h2 => ?_,
    fun h30 => ?_⟩
  · rw [e]
    have : (t : Int) ≤ (u : Int) := Int.ofNat_le.mpr htu
    show (info.lockUntil : Int) - (u : Int) ≤ (info.lockUntil : Int) - (t : Int)
    omega
  · rw [e, hut]
  · rw [e]
    exact RecordFailure_locked l key t2 info h h2
  · rw [e]
    rw [RecordFailure_locked l key _ info h h30]
    simp only [Time.Add, Second, Time, Duration] at *
    have : (((t : Int) + 30 * 1000000000).toNat : Int) = (t : Int) + 30 * 1000000000 := by omega
    rw [this]
    congr 2
    omega

/-- Witness of C2 amended: 10.0.0.5 locked by five failures at instants 1..5, failures one
second and thirty-one seconds later, each with its second reading 40 ns after the first. -/
theorem failure_while_locked_keeps_lock_witness :
    (recordFailures GetLoginRateLimiter "10.0.0.5" [1, 2, 3, 4, 5]).attempts "10.0.0.5"
      = some ⟨5, 1, 300000000005⟩
    ∧ RecordFailure (recordFailures GetLoginRateLimiter "10.0.0.5" [1, 2, 3, 4, 5])
        "10.0.0.5" 1000000005 1000000045
      = (recordFailures GetLoginRateLimiter "10.0.0.5" [1, 2, 3, 4, 5], true, 298999999960)
    ∧ RecordFailure
        (RecordFailure (recordFailures GetLoginRateLimiter "10.0.0.5" [1, 2, 3, 4, 5])
          "10.0.0.5" 1000000005 1000000045).1 "10.0.0.5" 31000000005 31000000045
      = (recordFailures GetLoginRateLimiter "10.0.0.5" [1, 2, 3, 4, 5], true, 268999999960) :=
  have h := failure_while_locked_keeps_lock
    (recordFailures GetLoginRateLimiter "10.0.0.5" [1, 2, 3, 4, 5]) "10.0.0.5" 1000000005
    1000000045 ⟨5, 1, 300000000005⟩ (by decide) (by decide)
  ⟨by decide, h.1, h.2.2.2.2.1 31000000005 31000000045 (by decide)⟩

/-- C6: `RecordSuccess` deletes the record of the key whatever it holds (locked or not):
right afterwards `IsBlocked` is false at every instant, `GetRemainingAttempts` is
`maxAttempts`, and the next `RecordFailure` stores a fresh record with count 1, first failure
at its own instant and no lock, and reports not blocked. -/
theorem success_deletes_record (l : LoginRateLimiter) (key : String) (now later : Time) :
    (RecordSuccess l key).attempts key = none
    ∧ IsBlocked (RecordSuccess l key) key now later = (false, 0)
    ∧ GetRemainingAttempts (RecordSuccess l key) key = l.maxAttempts
    ∧ (RecordFailure (RecordSuccess l key) key now later).2 = (false, 0)
    ∧ (RecordFailure (RecordSuccess l key) key now later).1.attempts key
        = some ⟨1, now, zeroTime⟩ := by
  have hd : (RecordSuccess l key).attempts key = none := delete_attempts_self l key
  refine ⟨hd, ?_, ?_, ?_, ?_⟩
  · simp [IsBlocked, hd]
  · simp [GetRemainingAttempts, hd, RecordSuccess, LoginRateLimiter.delete]
  · rw [RecordFailure_absent _ key now hd]
  · rw [RecordFailure_absent _ key now hd]
    exact store_attempts_self _ _ _

/-- Other keys are not touched by `RecordFailure`. -/
theorem RecordFailure_attempts_other (l : LoginRateLimiter) (a b : String) (now : Time)
    (hab : a ≠ b) {later : Time} :
    (RecordFailure l a now later).1.attempts b = l.attempts b := by
  have hba : b ≠ a := fun h => hab h.symm
  unfold RecordFailure
  split
  · exact store_attempts_other _ _ _ _ hba
  · split
    · rfl
    · split
      · exact store_attempts_other _ _ _ _ hba
      · simp only []
        split
        · exact store_attempts_other _ _ _ _ hba
        · exact store_attempts_other _ _ _ _ hba

/-- The configuration is not touched by `RecordFailure`. -/
theorem RecordFailure_maxAttempts (l : LoginRateLimiter) (a : String) (now : Time)
    {later : Time} : (RecordFailure l a now later).1.maxAttempts = l.maxAttempts := by
  unfold RecordFailure
  split
  · rfl
  · split
    · rfl
    · split
      · rfl
      · simp only []
        split <;> rfl

/-- C7: for two distinct keys a and b, `RecordFailure(a)` and `RecordSuccess(a)` leave the
record of b unchanged, and with it `IsBlocked(b)` and `GetRemainingAttempts(b)`. -/
theorem other_key_unchanged (l : LoginRateLimiter) (a b : String) (now later t u : Time)
    (hab : a ≠ b) :
    (RecordFailure l a now later).1.attempts b = l.attempts b
    ∧ (RecordSuccess l a).attempts b = l.attempts b
    ∧ IsBlocked (RecordFailure l a now later).1 b t u = IsBlocked l b t u
    ∧ IsBlocked (RecordSuccess l a) b t u = IsBlocked l b t u
    ∧ GetRemainingAttempts (RecordFailure l a now later).1 b = GetRemainingAttempts l b
    ∧ GetRemainingAttempts (RecordSuccess l a) b = GetRemainingAttempts l b := by
  have hba : b ≠ a := fun h => hab h.symm
  have hf : (RecordFailure l a now later).1.attempts b = l.attempts b :=
    RecordFailure_attempts_other l a b now hab
  have hs : (RecordSuccess l a).attempts b = l.attempts b := delete_attempts_other l a b hba
  refine ⟨hf, hs, ?_, ?_, ?_, ?_⟩
  · simp only [IsBlocked, hf]
  · simp only [IsBlocked, hs]
  · simp only [GetRemainingAttempts, hf, RecordFailure_maxAttempts]
  · simp only [GetRemainingAttempts, hs]
    rfl

/-- Witness of C7: 10.0.0.5 has failed four times; a success and a failure of 10.0.0.6 leave
its record, lock state and remaining attempts as they were. -/
theorem other_key_unchanged_witness :
    (RecordFailure (recordFailures GetLoginRateLimiter "10.0.0.5" [1, 2, 3, 4])
        "10.0.0.6" 5 9).1.attempts "10.0.0.5"
      = (recordFailures GetLoginRateLimiter "10.0.0.5" [1, 2, 3, 4]).attempts "10.0.0.5"
    ∧ (RecordSuccess (recordFailures GetLoginRateLimiter "10.0.0.5" [1, 2, 3, 4])
        "10.0.0.6").attempts "10.0.0.5"
      = (recordFailures GetLoginRateLimiter "10.0.0.5" [1, 2, 3, 4]).attempts "10.0.0.5"
    ∧ IsBlocked (RecordFailure (recordFailures GetLoginRateLimiter "10.0.0.5" [1, 2, 3, 4])
        "10.0.0.6" 5 9).1 "10.0.0.5" 6 8
      = IsBlocked (recordFailures GetLoginRateLimiter "10.0.0.5" [1, 2, 3, 4]) "10.0.0.5" 6 8
    ∧ IsBlocked (RecordSuccess (recordFailures GetLoginRateLimiter "10.0.0.5" [1, 2, 3, 4])
        "10.0.0.6") "10.0.0.5" 6 8
      = IsBlocked (recordFailures GetLoginRateLimiter "10.0.0.5" [1, 2, 3, 4]) "10.0.0.5" 6 8
    ∧ GetRemainingAttempts
        (RecordFailure (recordFailures GetLoginRateLimiter "10.0.0.5" [1, 2, 3, 4])
          "10.0.0.6" 5 9).1 "10.0.0.5"
      = GetRemainingAttempts (recordFailures GetLoginRateLimiter "10.0.0.5" [1, 2, 3, 4])
          "10.0.0.5"
    ∧ GetRemainingAttempts
        (RecordSuccess (recordFailures GetLoginRateLimiter "10.0.0.5" [1, 2, 3, 4])
          "10.0.0.6") "10.0.0.5"
      = GetRemainingAttempts (recordFailures GetLoginRateLimiter "10.0.0.5" [1, 2, 3, 4])
          "10.0.0.5" :=
  other_key_unchanged (recordFailures GetLoginRateLimiter "10.0.0.5" [1, 2, 3, 4])
    "10.0.0.6" "10.0.0.5" 5 9 6 8 (by decide)

/-- C9, as stated, fails: 10.0.0.5 fails four times within 3 ns from instant 1000 and a fifth
time 5 minutes after the first, which locks it until 10 minutes after the first failure; a
sweep one nanosecond after the lock has expired (so the lock has been expired for far less
than twice lockDuration) deletes the record. -/
theorem sweep_deletes_freshly_expired_lock :
    (recordFailures GetLoginRateLimiter "10.0.0.5" [1000, 1001, 1002, 1003, 300000001000]).attempts
        "10.0.0.5" = some ⟨5, 1000, 600000001000⟩
    ∧ ¬ (Time.Sub 600000001001 600000001000 > 2 * GetLoginRateLimiter.lockDuration)
    ∧ (cleanup
        (recordFailures GetLoginRateLimiter "10.0.0.5" [1000, 1001, 1002, 1003, 300000001000])
        600000001001).attempts "10.0.0.5" = none := by
  decide

/-- C9, amended: the sweep at instant now deletes a record exactly when now is after its
lock-until instant and its first failure is more than twice lockDuration before now; every
other record is kept as it is, and a key without record stays without record. -/
theorem sweep_deletes_iff (l : LoginRateLimiter) (now : Time) (ip : String)
    (info : attemptInfo) (h : l.attempts ip = some info) :
    ((cleanup l now).attempts ip = none
      ↔ info.lockUntil < now ∧ Time.Sub now info.firstTime > 2 * l.lockDuration)
    ∧ ((cleanup l now).attempts ip ≠ none → (cleanup l now).attempts ip = some info) := by
  have hm : l.lockDuration * 2 = 2 * l.lockDuration := Int.mul_comm _ _
  by_cases hc : info.lockUntil < now ∧ Time.Sub now info.firstTime > 2 * l.lockDuration
  · have e : (cleanup l now).attempts ip = none := by
      simp only [cleanup, h, Time.After, hm]
      simp [hc.1, hc.2]
    exact ⟨⟨fun _ => hc, fun _ => e⟩, fun hne => absurd e hne⟩
  · have e : (cleanup l now).attempts ip = some info := by
      simp only [cleanup, h, Time.After, hm]
      rcases not_and_or.mp hc with h1 | h2
      · simp [h1]
      · simp [h2]
    refine ⟨⟨fun hn => ?_, fun hh => absurd hh hc⟩, fun _ => e⟩
    rw [e] at hn
    cases hn

/-- Witness of C9 amended: the record of the counterexample is kept by the sweep at the
instant the lock expires and deleted one nanosecond later. -/
theorem sweep_deletes_iff_witness :
    (cleanup
        (recordFailures GetLoginRateLimiter "10.0.0.5" [1000, 1001, 1002, 1003, 300000001000])
        600000001000).attempts "10.0.0.5" = some ⟨5, 1000, 600000001000⟩
    ∧ (cleanup
        (recordFailures GetLoginRateLimiter "10.0.0.5" [1000, 1001, 1002, 1003, 300000001000])
        600000001001).attempts "10.0.0.5" = none :=
  ⟨(sweep_deletes_iff
      (recordFailures GetLoginRateLimiter "10.0.0.5" [1000, 1001, 1002, 1003, 300000001000])
      600000001000 "10.0.0.5" ⟨5, 1000, 600000001000⟩ (by decide)).2 (by decide),
    (sweep_deletes_iff
      (recordFailures GetLoginRateLimiter "10.0.0.5" [1000, 1001, 1002, 1003, 300000001000])
      600000001001 "10.0.0.5" ⟨5, 1000, 600000001000⟩ (by decide)).1.mpr
      ⟨by decide, by decide⟩⟩

/-! ## Properties of the admin port allocation -/

/-- A port is plucked by the allocation query exactly when a client other than the excluded
one has it as a positive remote port. -/
theorem mem_usedAdminPorts (clients : List FrpcConfig) (x : Nat) (q : Int) :
    q ∈ usedAdminPorts clients x
      ↔ ∃ c ∈ clients, 0 < c.AdminRemotePort ∧ c.ID ≠ x ∧ c.AdminRemotePort = q := by
  simp only [usedAdminPorts, List.mem_map, List.mem_filter, Bool.and_eq_true,
    decide_eq_true_eq, gt_iff_lt]
  constructor
  · rintro ⟨c, ⟨hc, hpos, hid⟩, rfl⟩
    exact ⟨c, hc, hpos, hid, rfl⟩
  · rintro ⟨c, hc, hpos, hid, rfl⟩
    exact ⟨c, ⟨hc, hpos, hid⟩, rfl⟩

/-- Every plucked port is positive. -/
theorem usedAdminPorts_pos (clients : List FrpcConfig) (x : Nat) (q : Int)
    (h : q ∈ usedAdminPorts clients x) : 0 < q := by
  obtain ⟨c, _, hpos, _, rfl⟩ := (mem_usedAdminPorts clients x q).mp h
  exact hpos

/-- Below the largest `int`, `port++` is the successor. -/
theorem wrapInt64_succ (port : Int) (h1 : minInt64 ≤ port) (h2 : port < maxInt64) :
    wrapInt64 (port + 1) = port + 1 := by
  simp only [wrapInt64, minInt64, maxInt64] at *
  omega

/-- At the largest `int`, `port++` is the smallest `int`. -/
theorem wrapInt64_max : wrapInt64 (maxInt64 + 1) = minInt64 := by
  decide

/-- The scan when `portEnd` is below the largest `int`: it returns either the first port of
`[port, portEnd]` that is not used, or 0 with every port of `[port, portEnd]` used. -/
theorem allocLoop_spec (used : List Int) (portEnd : Int) (hEnd : portEnd < maxInt64) :
    ∀ (fuel : Nat) (port : Int), minInt64 ≤ port → (portEnd - port + 1).toNat + 1 ≤ fuel →
      (∃ r, allocLoop used portEnd fuel port = some r ∧ port ≤ r ∧ r ≤ portEnd ∧ r ∉ used
          ∧ ∀ q, port ≤ q → q < r → q ∈ used)
      ∨ (allocLoop used portEnd fuel port = some 0
          ∧ ∀ q, port ≤ q → q ≤ portEnd → q ∈ used) := by
  intro fuel
  induction fuel with
  | zero => intro port _ hf; omega
  | succ n ih =>
    intro port hmin hf
    by_cases hle : port ≤ portEnd
    · by_cases hu : port ∈ used
      · have hw : wrapInt64 (port + 1) = port + 1 :=
          wrapInt64_succ port hmin (lt_of_le_of_lt hle hEnd)
        have hstep : allocLoop used portEnd (n + 1) port = allocLoop used portEnd n (port + 1) := by
          simp [allocLoop, hle, hu, hw]
        rw [hstep]
        have hmin1 : minInt64 ≤ port + 1 := by omega
        have hf1 : (portEnd - (port + 1) + 1).toNat + 1 ≤ n := by omega
        rcases ih (port + 1) hmin1 hf1 with ⟨r, hr, h1, h2, h3, h4⟩ | ⟨hr, hall⟩
        · left
          refine ⟨r, hr, by omega, h2, h3, fun q hq1 hq2 => ?_⟩
          by_cases hq : q = port
          · rw [hq]; exact hu
          · exact h4 q (by omega) hq2
        · right
          refine ⟨hr, fun q hq1 hq2 => ?_⟩
          by_cases hq : q = port
          · rw [hq]; exact hu
          · exact hall q (by omega) hq2
      · left
        refine ⟨port, ?_, le_refl _, hle, hu, fun q hq1 hq2 => absurd hq2 (by omega)⟩
        simp [allocLoop, hle, hu]
    · right
      refine ⟨?_, fun q hq1 hq2 => absurd hle (by omega)⟩
      simp [allocLoop, hle]

/-- The scan always leaves within its bound of iterations, for Go integers and a used set of
positive ports. -/
theorem allocLoop_returns (used : List Int) (hpos : ∀ q ∈ used, 0 < q) (portEnd : Int)
    (hEnd : portEnd ≤ maxInt64) :
    ∀ (fuel : Nat) (port : Int), isInt64 port → (portEnd - port + 1).toNat + 1 ≤ fuel →
      ∃ r, allocLoop used portEnd fuel port = some r := by
  intro fuel
  induction fuel with
  | zero => intro port _ hf; omega
  | succ n ih =>
    intro port hport hf
    by_cases hle : port ≤ portEnd
    · by_cases hu : port ∈ used
      · by_cases hmax : port < maxInt64
        · have hw : wrapInt64 (port + 1) = port + 1 := wrapInt64_succ port hport.1 hmax
          have hstep :
              allocLoop used portEnd (n + 1) port = allocLoop used portEnd n (port + 1) := by
            simp [allocLoop, hle, hu, hw]
          rw [hstep]
          exact ih (port + 1) ⟨by have := hport.1; omega, by omega⟩ (by omega)
        · have hpm : port = maxInt64 := le_antisymm hport.2 (not_lt.mp hmax)
          subst hpm
          have hstep :
              allocLoop used portEnd (n + 1) maxInt64 = allocLoop used portEnd n minInt64 := by
            simp [allocLoop, hle, hu, wrapInt64_max]
          rw [hstep]
          have hn : n = (n - 1) + 1 := by omega
          have hfree : minInt64 ∉ used := fun hm => by
            have := hpos _ hm
            simp [minInt64] at this
          have hle2 : minInt64 ≤ portEnd := by have := hport.1; omega
          rw [hn]
          exact ⟨minInt64, by simp [allocLoop, hle2, hfree]⟩
      · exact ⟨port, by simp [allocLoop, hle, hu]⟩
    · exact ⟨0, by simp [allocLoop, hle]⟩

/-- The scan stops at a free port `p` of the range when every port before it is used. -/
theorem allocLoop_first_free (used : List Int) (portEnd p : Int) (hp : p ≤ portEnd)
    (hpmax : p ≤ maxInt64) (hfree : p ∉ used) :
    ∀ (fuel : Nat) (port : Int), minInt64 ≤ port → port ≤ p → (p - port).toNat + 1 ≤ fuel →
      (∀ q, port ≤ q → q < p → q ∈ used) → allocLoop used portEnd fuel port = some p := by
  intro fuel
  induction fuel with
  | zero => intro port _ _ hf; omega
  | succ n ih =>
    intro port hmin hle hf hused
    by_cases hq : port = p
    · subst hq
      simp [allocLoop, hp, hfree]
    · have hlt : port < p := lt_of_le_of_ne hle hq
      have hu : port ∈ used := hused port (le_refl _) hlt
      have hw : wrapInt64 (port + 1) = port + 1 := wrapInt64_succ port hmin (by omega)
      have hstep : allocLoop used portEnd (n + 1) port = allocLoop used portEnd n (port + 1) := by
        simp [allocLoop, le_trans hle hp, hu, hw]
      rw [hstep]
      exact ih (port + 1) (by omega) (by omega) (by omega)
        (fun q h1 h2 => hused q (by omega) h2)

/-- The scan never returns a used port, the used ports being positive. -/
theorem allocLoop_not_used (used : List Int) (hpos : ∀ q ∈ used, 0 < q) (portEnd : Int) :
    ∀ (fuel : Nat) (port r : Int), allocLoop used portEnd fuel port = some r → r ∉ used := by
  intro fuel
  induction fuel with
  | zero => intro port r h; simp [allocLoop] at h
  | succ n ih =>
    intro port r h
    by_cases hle : port ≤ portEnd
    · by_cases hu : port ∈ used
      · have hstep : allocLoop used portEnd (n + 1) port
            = allocLoop used portEnd n (wrapInt64 (port + 1)) := by
          simp [allocLoop, hle, hu]
        rw [hstep] at h
        exact ih _ r h
      · have hstep : allocLoop used portEnd (n + 1) port = some port := by
          simp [allocLoop, hle, hu]
        rw [hstep] at h
        cases h
        exact hu
    · have hstep : allocLoop used portEnd (n + 1) port = some 0 := by
        simp [allocLoop, hle]
      rw [hstep] at h
      cases h
      intro hm
      exact absurd (hpos 0 hm) (lt_irrefl 0)

/-- The allocation returns a port for all Go integers `portStart`, `portEnd`: the bound on
the iterations of the scan is never reached. -/
theorem allocateAdminPort_returns (portStart portEnd : Int) (clients : List FrpcConfig)
    (x : Nat) (hs : isInt64 portStart) (he : isInt64 portEnd) :
    ∃ p, allocateAdminPort portStart portEnd clients x = some p :=
  allocLoop_returns _ (usedAdminPorts_pos clients x) portEnd he.2 _ portStart hs (le_refl _)

/-- C3, as stated, fails at the largest `int`: with the pool `[2^63-1, 2^63-1]` and a client
holding port 2^63-1, `port++` wraps around and the allocation returns -2^63, a non-zero port
below `portStart`. -/
theorem allocate_wraps_past_largest_int :
    allocateAdminPort 9223372036854775807 9223372036854775807
        [⟨1, "edge", "edge", "", true, 7400, "", "", 9223372036854775807⟩] 0
      = some (-9223372036854775808)
    ∧ (-9223372036854775808 : Int) ≠ 0
    ∧ ¬ ((9223372036854775807 : Int) ≤ -9223372036854775808) := by
  decide

/-- C3, amended: for Go integers `portStart`, `portEnd` the allocation returns a port p, and
p is never in the in-use set of the query; when moreover `portEnd` is below 2^63-1 and p is
not 0, p lies in `[portStart, portEnd]` and every port q with `portStart ≤ q < p` is in the
in-use set: p is the first free port in ascending order. -/
theorem allocate_first_free (portStart portEnd : Int) (clients : List FrpcConfig) (x : Nat)
    (hs : isInt64 portStart) (he : isInt64 portEnd) :
    (∃ p, allocateAdminPort portStart portEnd clients x = some p)
    ∧ ∀ p, allocateAdminPort portStart portEnd clients x = some p →
        p ∉ usedAdminPorts clients x
        ∧ (portEnd < maxInt64 → p ≠ 0 →
            portStart ≤ p ∧ p ≤ portEnd
            ∧ ∀ q, portStart ≤ q → q < p → q ∈ usedAdminPorts clients x) := by
  refine ⟨allocateAdminPort_returns portStart portEnd clients x hs he, fun p hp => ?_⟩
  unfold allocateAdminPort at hp
  refine ⟨allocLoop_not_used _ (usedAdminPorts_pos clients x) portEnd _ _ p hp,
    fun hmax hne => ?_⟩
  rcases allocLoop_spec (usedAdminPorts clients x) portEnd hmax _ portStart hs.1 (le_refl _)
    with ⟨r, hr, h1, h2, _, h4⟩ | ⟨hr, _⟩
  · rw [hr] at hp
    cases hp
    exact ⟨h1, h2, h4⟩
  · rw [hr] at hp
    cases hp
    exact absurd rfl hne

/-- Witness of C3 amended: pool 17000..17100 with 17000 and 17001 held: 17002 is returned. -/
theorem allocate_first_free_witness :
    allocateAdminPort 17000 17100
        [⟨1, "a", "a", "", true, 7400, "", "", 17000⟩,
         ⟨2, "b", "b", "", true, 7400, "", "", 17001⟩] 0 = some 17002
    ∧ (17002 : Int) ∉ usedAdminPorts
        [⟨1, "a", "a", "", true, 7400, "", "", 17000⟩,
         ⟨2, "b", "b", "", true, 7400, "", "", 17001⟩] 0
    ∧ ((17000 : Int) ≤ 17002 ∧ (17002 : Int) ≤ 17100
      ∧ ∀ q : Int, 17000 ≤ q → q < 17002 → q ∈ usedAdminPorts
          [⟨1, "a", "a", "", true, 7400, "", "", 17000⟩,
           ⟨2, "b", "b", "", true, 7400, "", "", 17001⟩] 0) :=
  have h := (allocate_first_free 17000 17100
      [⟨1, "a", "a", "", true, 7400, "", "", 17000⟩,
       ⟨2, "b", "b", "", true, 7400, "", "", 17001⟩] 0
      (by decide) (by decide)).2 17002 (by decide)
  ⟨by decide, h.1, h.2 (by decide) (by decide)⟩

/-- C4, as stated, fails in both directions: with the pool `[0, 100]` and no client the
allocation returns 0 although port 0 (like every port of the pool) is not in use; with the
pool `[2^63-1, 2^63-1]` and a client holding port 2^63-1 every port of the pool is in use and
the allocation returns -2^63, not 0. -/
theorem allocate_zero_not_iff_exhausted :
    (allocateAdminPort 0 100 [] 0 = some 0
      ∧ ¬ (∀ q : Int, 0 ≤ q → q ≤ 100 → q ∈ usedAdminPorts [] 0))
    ∧ ((∀ q : Int, 9223372036854775807 ≤ q → q ≤ 9223372036854775807 →
          q ∈ usedAdminPorts
            [⟨1, "edge", "edge", "", true, 7400, "", "", 9223372036854775807⟩] 0)
      ∧ allocateAdminPort 9223372036854775807 9223372036854775807
          [⟨1, "edge", "edge", "", true, 7400, "", "", 9223372036854775807⟩] 0 ≠ some 0) := by
  refine ⟨⟨by decide, fun h => ?_⟩, fun q h1 h2 => ?_, by decide⟩
  · have := h 0 (le_refl _) (by decide)
    simp [usedAdminPorts] at this
  · have hq : q = 9223372036854775807 := le_antisymm h2 h1
    subst hq
    decide

/-- C4, amended: for Go integers `portStart`, `portEnd` with `portStart ≠ 0` and `portEnd`
below 2^63-1, the allocation returns 0 if and only if every port of `[portStart, portEnd]` is
in the in-use set of the query. -/
theorem allocate_zero_iff_exhausted (portStart portEnd : Int) (clients : List FrpcConfig)
    (x : Nat) (hs : isInt64 portStart) (_he : isInt64 portEnd) (h0 : portStart ≠ 0)
    (hmax : portEnd < maxInt64) :
    allocateAdminPort portStart portEnd clients x = some 0
      ↔ ∀ q, portStart ≤ q → q ≤ portEnd → q ∈ usedAdminPorts clients x := by
  unfold allocateAdminPort
  rcases allocLoop_spec (usedAdminPorts clients x) portEnd hmax _ portStart hs.1 (le_refl _)
    with ⟨r, hr, h1, h2, h3, h4⟩ | ⟨hr, hall⟩
  · rw [hr]
    constructor
    · intro hz
      cases hz
      have hlt : portStart < 0 := lt_of_le_of_ne h1 h0
      have := usedAdminPorts_pos clients x portStart (h4 portStart (le_refl _) hlt)
      omega
    · intro hall
      exact absurd (hall r h1 h2) h3
  · exact ⟨fun _ => hall, fun _ => hr⟩

/-- Witness of C4 amended: the pool 17000..17001 with both ports held is exhausted. -/
theorem allocate_zero_iff_exhausted_witness :
    allocateAdminPort 17000 17001
        [⟨1, "a", "a", "", true, 7400, "", "", 17000⟩,
         ⟨2, "b", "b", "", true, 7400, "", "", 17001⟩] 0 = some 0
    ∧ ∀ q : Int, 17000 ≤ q → q ≤ 17001 → q ∈ usedAdminPorts
        [⟨1, "a", "a", "", true, 7400, "", "", 17000⟩,
         ⟨2, "b", "b", "", true, 7400, "", "", 17001⟩] 0 :=
  ⟨by decide,
    (allocate_zero_iff_exhausted 17000 17001
      [⟨1, "a", "a", "", true, 7400, "", "", 17000⟩,
       ⟨2, "b", "b", "", true, 7400, "", "", 17001⟩] 0
      (by decide) (by decide) (by decide) (by decide)).mp (by decide)⟩

/-- C5: when client X holds a management port p of `[portStart, portEnd]` that no other
client holds, and every other port of the pool is held by some client other than X, the
allocation that excludes X returns p. -/
theorem allocate_keeps_own_port (portStart portEnd : Int) (clients : List FrpcConfig)
    (X : Nat) (p : Int) (hs : isInt64 portStart) (he : isInt64 portEnd)
    (hp1 : portStart ≤ p) (hp2 : p ≤ portEnd)
    (_hX : ∃ c ∈ clients, c.ID = X ∧ holdsAdminPort c p)
    (hother : ∀ c ∈ clients, c.ID ≠ X → ¬ holdsAdminPort c p)
    (hrest : ∀ q, portStart ≤ q → q ≤ portEnd → q ≠ p →
      ∃ c ∈ clients, c.ID ≠ X ∧ holdsAdminPort c q) :
    allocateAdminPort portStart portEnd clients X = some p := by
  unfold allocateAdminPort
  have hfree : p ∉ usedAdminPorts clients X := by
    intro hmem
    obtain ⟨c, hc, hpos, hid, hcp⟩ := (mem_usedAdminPorts clients X p).mp hmem
    exact hother c hc hid ⟨hpos, hcp⟩
  refine allocLoop_first_free _ portEnd p hp2 (le_trans hp2 he.2) hfree _ portStart hs.1 hp1
    (by omega) (fun q h1 h2 => ?_)
  obtain ⟨c, hc, hid, hpos, hcq⟩ := hrest q h1 (by omega) (by omega)
  exact (mem_usedAdminPorts clients X q).mpr ⟨c, hc, hpos, hid, hcq⟩

/-- Witness of C5: pool 17000..17002, client 2 holds 17001, clients 1 and 3 hold the two other
ports: the allocation for client 2 returns 17001. -/
theorem allocate_keeps_own_port_witness :
    allocateAdminPort 17000 17002
      [⟨1, "a", "a", "", true, 7400, "", "", 17000⟩,
       ⟨2, "b", "b", "", true, 7400, "", "", 17001⟩,
       ⟨3, "c", "c", "", true, 7400, "", "", 17002⟩] 2 = some 17001 :=
  allocate_keeps_own_port 17000 17002
    [⟨1, "a", "a", "", true, 7400, "", "", 17000⟩,
     ⟨2, "b", "b", "", true, 7400, "", "", 17001⟩,
     ⟨3, "c", "c", "", true, 7400, "", "", 17002⟩] 2 17001
    (by decide) (by decide) (by decide) (by decide)
    ⟨⟨2, "b", "b", "", true, 7400, "", "", 17001⟩, by simp, by decide⟩
    (by decide)
    (fun q h1 h2 h3 => by
      have hq : q = 17000 ∨ q = 17002 := by omega
      rcases hq with rfl | rfl
      · exact ⟨⟨1, "a", "a", "", true, 7400, "", "", 17000⟩, by simp, by decide⟩
      · exact ⟨⟨3, "c", "c", "", true, 7400, "", "", 17002⟩, by simp, by decide⟩)

/-! ## Properties of the client handlers -/

/-- After replacing the row found for `id` by a row with the same ID, the lookup of `id`
finds the new row. -/
theorem dbFirst_map_replace (id : Nat) (client row : FrpcConfig) (hid : row.ID = client.ID) :
    ∀ clients : List FrpcConfig, dbFirst clients id = some client →
      dbFirst (clients.map (fun c => if c.ID = row.ID then row else c)) id = some row := by
  intro clients
  induction clients with
  | nil => intro h; simp [dbFirst] at h
  | cons a l ih =>
    intro h
    have hcid : client.ID = id := by
      have := List.find?_some h
      simpa using this
    by_cases ha : a.ID = id
    · have hrow : a.ID = row.ID := by rw [hid, hcid, ha]
      have hrid : row.ID = id := by rw [hid, hcid]
      simp [dbFirst, hrow, hrid]
    · have hne : ¬ a.ID = row.ID := by rw [hid, hcid]; exact ha
      have hl : dbFirst l id = some client := by
        simpa [dbFirst, ha] using h
      have := ih hl
      simpa [dbFirst, hne, ha] using this

/-- C8, as stated, fails: with the pool `[17000, 17000]` taken by client 1 (and a
soft-deleted client 2 in the table), creating a client with management enabled and no remote
port answers 200 and stores the row with management enabled and remote port 0; so does the
update that enables management for client 3. -/
theorem exhausted_pool_stores_port_zero :
    allocateAdminPort 17000 17000 [⟨1, "a", "a", "", true, 7400, "", "", 17000⟩] 0 = some 0
    ∧ createClientHandler 17000 17000 [⟨1, "a", "a", "", true, 7400, "", "", 17000⟩]
        [⟨2, "old", "old", "", false, 0, "", "", 0⟩]
        (some ⟨0, "b", "b", "", true, 0, "", "", 0⟩)
      = some ([⟨1, "a", "a", "", true, 7400, "", "", 17000⟩,
               ⟨3, "b", "b", "", true, 7400, "", "", 0⟩],
          Response.ok ⟨3, "b", "b", "", true, 7400, "", "", 0⟩)
    ∧ updateClientHandler 17000 17000
        [⟨1, "a", "a", "", true, 7400, "", "", 17000⟩,
         ⟨3, "b", "b", "", false, 0, "", "", 0⟩]
        [⟨2, "old", "old", "", false, 0, "", "", 0⟩] 3
        (some ⟨0, "b", "b", "", true, 0, "", "", 0⟩)
      = some ([⟨1, "a", "a", "", true, 7400, "", "", 17000⟩,
               ⟨3, "b", "b", "", true, 7400, "", "", 0⟩],
          Response.ok ⟨3, "b", "b", "", true, 7400, "", "", 0⟩) := by
  decide

/-- C8, amended: when a client is created or updated with management enabled and no requested
remote port, and the allocation returns 0, the operation does not fail on that account.  If
the insertion (the update) meets no key conflict in the table, whose unique keys range over
the visible and the soft-deleted rows, the handler answers 200 and the stored row has
management enabled and remote port 0; the missing port is reported only by `getFrpcClient`,
which refuses such a row.  If the user of the request is taken by a row of the table, visible
or soft-deleted, the creation answers 500 and stores nothing, and the update (the user taken
by another row) answers 200 and leaves the rows as they were. -/
theorem exhausted_pool_is_persisted (portStart portEnd : Int) (clients deleted : List FrpcConfig)
    (req : FrpcConfig) (hen : req.AdminEnabled = true) (h0 : req.AdminRemotePort = 0) :
    (allocateAdminPort portStart portEnd clients 0 = some 0 →
      ((∀ c ∈ clients ++ deleted, c.User ≠ req.User ∧ (req.ID ≠ 0 → c.ID ≠ req.ID)) →
        ∃ row, createClientHandler portStart portEnd clients deleted (some req)
            = some (clients ++ [row], Response.ok row)
          ∧ row.AdminEnabled = true ∧ row.AdminRemotePort = 0
          ∧ getFrpcClient row = Except.error "该客户端未分配管理端口，请重新保存配置")
      ∧ ((∃ c ∈ clients ++ deleted, c.User = req.User) →
        createClientHandler portStart portEnd clients deleted (some req)
          = some (clients, Response.internalServerError)))
    ∧ (∀ (id : Nat) (client : FrpcConfig), dbFirst clients id = some client →
      allocateAdminPort portStart portEnd clients client.ID = some 0 →
      ((∀ c ∈ clients ++ deleted, c.ID ≠ client.ID → c.User ≠ req.User) →
        ∃ clients1 row, updateClientHandler portStart portEnd clients deleted id (some req)
            = some (clients1, Response.ok row)
          ∧ dbFirst clients1 id = some row
          ∧ row.AdminEnabled = true ∧ row.AdminRemotePort = 0
          ∧ getFrpcClient row = Except.error "该客户端未分配管理端口，请重新保存配置")
      ∧ ((∃ c ∈ clients ++ deleted, c.ID ≠ client.ID ∧ c.User = req.User) →
        updateClientHandler portStart portEnd clients deleted id (some req)
          = some (clients, Response.ok client))) := by
  constructor
  · intro hfull
    constructor
    · intro hfresh
      have hany : ((clients ++ deleted).any (fun c => decide (c.User = req.User))
          || (decide (req.ID ≠ 0)
            && (clients ++ deleted).any (fun c => decide (c.ID = req.ID)))) = false := by
        rw [Bool.or_eq_false_iff]
        constructor
        · rw [List.any_eq_false]
          intro c hc
          simpa using (hfresh c hc).1
        · by_cases hid : req.ID = 0
          · simp [hid]
          · rw [Bool.and_eq_false_iff]
            right
            rw [List.any_eq_false]
            intro c hc
            simpa using (hfresh c hc).2 hid
      refine ⟨{ req with
          ID := if req.ID = 0 then ((clients ++ deleted).map (fun c => c.ID)).foldl max 0 + 1
                else req.ID,
          AdminPort := if req.AdminPort = 0 then 7400 else req.AdminPort,
          AdminRemotePort := 0 }, ?_, hen, rfl, ?_⟩
      · simp only [createClientHandler, hen, h0, hfull, dbCreate]
        simp only [if_true, bind, Option.bind, pure]
        rw [hany]
        simp
      · simp [getFrpcClient, hen]
    · rintro ⟨c, hc, hu⟩
      have hany : (clients ++ deleted).any (fun c => decide (c.User = req.User)) = true := by
        rw [List.any_eq_true]
        exact ⟨c, hc, by simpa using hu⟩
      simp only [createClientHandler, hen, h0, hfull, dbCreate]
      simp only [if_true, bind, Option.bind, pure]
      rw [hany]
      simp
  · intro id client hfound hfull
    constructor
    · intro hfresh
      have hany : (clients ++ deleted).any
          (fun c => decide (c.ID ≠ client.ID) && decide (c.User = req.User)) = false := by
        rw [List.any_eq_false]
        intro c hc
        by_cases hid : c.ID = client.ID
        · simp [hid]
        · simpa [hid] using hfresh c hc hid
      let row : FrpcConfig :=
        { client with
          Name := req.Name, User := req.User, Remark := req.Remark,
          AdminEnabled := true,
          AdminPort := if req.AdminPort = 0 then 7400 else req.AdminPort,
          AdminUser := req.AdminUser, AdminPass := req.AdminPass,
          AdminRemotePort := 0 }
      have hrow : dbFirst (clients.map (fun c => if c.ID = row.ID then row else c)) id
          = some row := dbFirst_map_replace id client row rfl clients hfound
      refine ⟨clients.map (fun c => if c.ID = row.ID then row else c), row, ?_, hrow, rfl,
        rfl, ?_⟩
      · simp only [updateClientHandler, hfound, hen, h0, hfull, dbUpdates]
        simp only [if_true, bind, Option.bind, pure]
        rw [hany]
        simp only [Bool.false_eq_true, if_false]
        simp only [row] at hrow ⊢
        rw [hrow]
      · simp [getFrpcClient, row]
    · rintro ⟨c, hc, hid, hu⟩
      have hany : (clients ++ deleted).any
          (fun c => decide (c.ID ≠ client.ID) && decide (c.User = req.User)) = true := by
        rw [List.any_eq_true]
        exact ⟨c, hc, by simpa using ⟨hid, hu⟩⟩
      simp only [updateClientHandler, hfound, hen, h0, hfull, dbUpdates]
      simp only [if_true, bind, Option.bind, pure]
      rw [hany]
      simp only [if_true, hfound]

/-- Witness of C8 amended: the pool `[17000, 17000]` is taken by client 1 and the table holds
a soft-deleted client 3 of user "old"; creating client "c" and enabling management for client
2 both store a row with remote port 0, and creating a client of user "old" answers 500. -/
theorem exhausted_pool_is_persisted_witness :
    (∃ row, createClientHandler 17000 17000
          [⟨1, "a", "a", "", true, 7400, "", "", 17000⟩,
           ⟨2, "b", "b", "", false, 0, "", "", 0⟩]
          [⟨3, "old", "old", "", false, 0, "", "", 0⟩]
          (some ⟨0, "c", "c", "", true, 0, "", "", 0⟩)
        = some ([⟨1, "a", "a", "", true, 7400, "", "", 17000⟩,
                 ⟨2, "b", "b", "", false, 0, "", "", 0⟩] ++ [row], Response.ok row)
      ∧ row.AdminEnabled = true ∧ row.AdminRemotePort = 0
      ∧ getFrpcClient row = Except.error "该客户端未分配管理端口，请重新保存配置")
    ∧ (∃ clients1 row, updateClientHandler 17000 17000
          [⟨1, "a", "a", "", true, 7400, "", "", 17000⟩,
           ⟨2, "b", "b", "", false, 0, "", "", 0⟩]
          [⟨3, "old", "old", "", false, 0, "", "", 0⟩] 2
          (some ⟨0, "c", "c", "", true, 0, "", "", 0⟩)
        = some (clients1, Response.ok row)
      ∧ dbFirst clients1 2 = some row
      ∧ row.AdminEnabled = true ∧ row.AdminRemotePort = 0
      ∧ getFrpcClient row = Except.error "该客户端未分配管理端口，请重新保存配置")
    ∧ createClientHandler 17000 17000
          [⟨1, "a", "a", "", true, 7400, "", "", 17000⟩,
           ⟨2, "b", "b", "", false, 0, "", "", 0⟩]
          [⟨3, "old", "old", "", false, 0, "", "", 0⟩]
          (some ⟨0, "old", "old", "", true, 0, "", "", 0⟩)
        = some ([⟨1, "a", "a", "", true, 7400, "", "", 17000⟩,
                 ⟨2, "b", "b", "", false, 0, "", "", 0⟩], Response.internalServerError) :=
  have h := exhausted_pool_is_persisted 17000 17000
    [⟨1, "a", "a", "", true, 7400, "", "", 17000⟩,
     ⟨2, "b", "b", "", false, 0, "", "", 0⟩]
    [⟨3, "old", "old", "", false, 0, "", "", 0⟩]
    ⟨0, "c", "c", "", true, 0, "", "", 0⟩ rfl rfl
  have h2 := exhausted_pool_is_persisted 17000 17000
    [⟨1, "a", "a", "", true, 7400, "", "", 17000⟩,
     ⟨2, "b", "b", "", false, 0, "", "", 0⟩]
    [⟨3, "old", "old", "", false, 0, "", "", 0⟩]
    ⟨0, "old", "old", "", true, 0, "", "", 0⟩ rfl rfl
  ⟨(h.1 (by decide)).1 (by decide),
    (h.2 2 ⟨2, "b", "b", "", false, 0, "", "", 0⟩ (by decide) (by decide)).1 (by decide),
    (h2.1 (by decide)).2 (by decide)⟩

/-- C10 on the code: a client created with management disabled and remote port 17000 is
stored as sent; its port is in the in-use set of the allocation query, although the pool
listing of `getAdminPortPoolHandler` does not count it, and the next allocation skips 17000
and returns 17001. -/
theorem disabled_client_port_counts_as_used :
    createClientHandler 17000 17100 [] [] (some ⟨0, "a", "a", "", false, 0, "", "", 17000⟩)
      = some ([⟨1, "a", "a", "", false, 0, "", "", 17000⟩],
          Response.ok ⟨1, "a", "a", "", false, 0, "", "", 17000⟩)
    ∧ usedAdminPorts [⟨1, "a", "a", "", false, 0, "", "", 17000⟩] 0 = [17000]
    ∧ adminPortUsages [⟨1, "a", "a", "", false, 0, "", "", 17000⟩] = []
    ∧ allocateAdminPort 17000 17100 [⟨1, "a", "a", "", false, 0, "", "", 17000⟩] 0
        = some 17001 := by
  decide

/-! ## Further properties of the login rate limiter -/

/-- Failure after the window of a record that is not locked: the record starts afresh. -/
theorem RecordFailure_expired (l : LoginRateLimiter) (ip : String) (now : Time)
    (info : attemptInfo) (h : l.attempts ip = some info) (hlk : info.lockUntil ≤ now)
    (hw : l.lockDuration < (now : Int) - (info.firstTime : Int)) {later : Time} :
    RecordFailure l ip now later = (l.store ip ⟨1, now, zeroTime⟩, false, 0) := by
  have h1 : ¬ now < info.lockUntil := Nat.not_lt.mpr hlk
  simp [RecordFailure, h, Time.Before, h1, Time.Sub, hw]

/-- Unfolding of a sequence of failures at its first call. -/
theorem recordFailures_cons (l : LoginRateLimiter) (ip : String) (t : Time) (ts : List Time) :
    recordFailures l ip (t :: ts) = recordFailures (RecordFailure l ip t t).1 ip ts := rfl

/-- Failures inside the window of an unlocked record that stay below `maxAttempts` only
count: after them the record holds the count grown by their number, the same first failure
and no lock, and the configuration is the same. -/
theorem recordFailures_within_window (key : String) (t1 : Time) :
    ∀ (ts : List Time) (s : LoginRateLimiter) (c : Int),
      s.attempts key = some ⟨c, t1, zeroTime⟩ →
      (∀ t ∈ ts, Time.Sub t t1 ≤ s.lockDuration) →
      c + (ts.length : Int) < s.maxAttempts →
      (recordFailures s key ts).attempts key = some ⟨c + (ts.length : Int), t1, zeroTime⟩
      ∧ (recordFailures s key ts).maxAttempts = s.maxAttempts
      ∧ (recordFailures s key ts).lockDuration = s.lockDuration := by
  intro ts
  induction ts with
  | nil =>
    intro s c h _ _
    simpa [recordFailures] using h
  | cons t ts ih =>
    intro s c h hw hc
    have hlen : ((t :: ts).length : Int) = (ts.length : Int) + 1 := by simp
    rw [hlen] at hc
    have hstep : RecordFailure s key t t = (s.store key ⟨c + 1, t1, zeroTime⟩, false, 0) :=
      RecordFailure_count s key t ⟨c, t1, zeroTime⟩ h (Nat.zero_le _)
        (hw t (List.mem_cons_self _ _)) (by simp only []; omega)
    rw [recordFailures_cons, hstep]
    have := ih (s.store key ⟨c + 1, t1, zeroTime⟩) (c + 1) (store_attempts_self _ _ _)
      (fun u hu => hw u (List.mem_cons_of_mem _ hu))
      (by simp only [store_maxAttempts]; omega)
    simp only [store_maxAttempts, store_lockDuration] at this
    rw [hlen]
    have e : c + ((ts.length : Int) + 1) = c + 1 + (ts.length : Int) := by omega
    rw [e]
    exact this

/-- C12, as stated, fails: 10.0.0.5 is locked until 300000000005 by five failures at the
instants 1..5.  `IsBlocked` whose reading `time.Now()` is 1000000005 and whose reading inside
`time.Until` comes 40 ns later answers (true, 298999999960), not (true, lockUntil - now),
which is (true, 299000000000). -/
theorem lock_check_measures_at_later_reading :
    (recordFailures GetLoginRateLimiter "10.0.0.5" [1, 2, 3, 4, 5]).attempts "10.0.0.5"
      = some ⟨5, 1, 300000000005⟩
    ∧ IsBlocked (recordFailures GetLoginRateLimiter "10.0.0.5" [1, 2, 3, 4, 5])
        "10.0.0.5" 1000000005 1000000045 = (true, 298999999960)
    ∧ ((300000000005 : Time) : Int) - ((1000000005 : Time) : Int) = 299000000000 := by
  decide

/-- C12, amended: `IsBlocked(key)` whose reading `time.Now()` is now answers true exactly when
the key has a record and now is before its lock-until instant, and then the answer is (true,
lockUntil - u) where u is the reading taken inside `time.Until`: at most lockUntil - now when
u is at or after now, and lockUntil - now when u = now; in every other case the answer is
(false, 0).  The function reads the state and returns only the answer: the state after the
call is the state before it. -/
theorem blocked_iff_before_lock_until (l : LoginRateLimiter) (key : String)
    (now later : Time) :
    ((IsBlocked l key now later).1 = true
      ↔ ∃ info, l.attempts key = some info ∧ now < info.lockUntil)
    ∧ (∀ info, l.attempts key = some info → now < info.lockUntil →
        IsBlocked l key now later = (true, (info.lockUntil : Int) - (later : Int))
        ∧ (now ≤ later →
            (IsBlocked l key now later).2 ≤ (info.lockUntil : Int) - (now : Int))
        ∧ (later = now →
            IsBlocked l key now later = (true, (info.lockUntil : Int) - (now : Int))))
    ∧ ((¬ ∃ info, l.attempts key = some info ∧ now < info.lockUntil) →
        IsBlocked l key now later = (false, 0)) := by
  cases h : l.attempts key with
  | none => simp [IsBlocked, h]
  | some info =>
    by_cases hlk : now < info.lockUntil
    · have e : IsBlocked l key now later = (true, (info.lockUntil : Int) - (later : Int)) := by
        simp [IsBlocked, h, Time.Before, hlk, Until, Time.Sub]
      refine ⟨⟨fun _ => ⟨info, rfl, hlk⟩, fun _ => by rw [e]⟩, ?_, ?_⟩
      · intro info2 hi2 _
        cases hi2
        refine ⟨e, fun hnl => ?_, fun hln => by rw [e, hln]⟩
        rw [e]
        have : (now : Int) ≤ (later : Int) := Int.ofNat_le.mpr hnl
        show (info.lockUntil : Int) - (later : Int) ≤ (info.lockUntil : Int) - (now : Int)
        omega
      · intro hno
        exact absurd ⟨info, rfl, hlk⟩ hno
    · simp [IsBlocked, h, Time.Before, hlk]
      exact Nat.le_of_not_lt hlk

/-- Witness of C12 amended: the lock check of the locked key 10.0.0.5 with its second reading
40 ns after the first. -/
theorem blocked_iff_before_lock_until_witness :
    IsBlocked (recordFailures GetLoginRateLimiter "10.0.0.5" [1, 2, 3, 4, 5])
        "10.0.0.5" 1000000005 1000000045
      = (true, ((300000000005 : Time) : Int) - ((1000000045 : Time) : Int)) :=
  ((blocked_iff_before_lock_until (recordFailures GetLoginRateLimiter "10.0.0.5" [1, 2, 3, 4, 5])
    "10.0.0.5" 1000000005 1000000045).2.1 ⟨5, 1, 300000000005⟩ (by decide) (by decide)).1

/-- C13: from no record for the key, with the later calls at most lockDuration after the
first one (at t1): the first `RecordFailure` stores a record with count 1 and reports not
blocked; after the calls at `t1 :: ts` the record holds count `|ts| + 1`, first failure t1
and no lock; the next call, the k-th with k = |ts| + 2, returns (false, 0) leaving count k
when k < maxAttempts, and when k = maxAttempts it sets lock-until to now + lockDuration and
returns (true, lockDuration). -/
theorem failures_count_then_lock (l : LoginRateLimiter) (key : String) (t1 : Time)
    (ts : List Time) (now : Time) (hnone : l.attempts key = none)
    (hwin : ∀ t ∈ ts, Time.Sub t t1 ≤ l.lockDuration)
    (hnow : Time.Sub now t1 ≤ l.lockDuration) (u1 later : Time) :
    RecordFailure l key t1 u1 = (l.store key ⟨1, t1, zeroTime⟩, false, 0)
    ∧ ((ts.length : Int) + 2 ≤ l.maxAttempts →
        (recordFailures l key (t1 :: ts)).attempts key
          = some ⟨(ts.length : Int) + 1, t1, zeroTime⟩)
    ∧ ((ts.length : Int) + 2 < l.maxAttempts →
        RecordFailure (recordFailures l key (t1 :: ts)) key now later
          = ((recordFailures l key (t1 :: ts)).store key
              ⟨(ts.length : Int) + 2, t1, zeroTime⟩, false, 0))
    ∧ ((ts.length : Int) + 2 = l.maxAttempts →
        RecordFailure (recordFailures l key (t1 :: ts)) key now later
          = ((recordFailures l key (t1 :: ts)).store key
              ⟨l.maxAttempts, t1, Time.Add now l.lockDuration⟩, true, l.lockDuration)) := by
  have h1 : ∀ u : Time, RecordFailure l key t1 u = (l.store key ⟨1, t1, zeroTime⟩, false, 0) :=
    fun _ => RecordFailure_absent l key t1 hnone
  have hacc : (ts.length : Int) + 2 ≤ l.maxAttempts →
      (recordFailures l key (t1 :: ts)).attempts key
          = some ⟨(ts.length : Int) + 1, t1, zeroTime⟩
      ∧ (recordFailures l key (t1 :: ts)).maxAttempts = l.maxAttempts
      ∧ (recordFailures l key (t1 :: ts)).lockDuration = l.lockDuration := by
    intro hk
    rw [recordFailures_cons, h1]
    have := recordFailures_within_window key t1 ts (l.store key ⟨1, t1, zeroTime⟩) 1
      (store_attempts_self _ _ _) hwin (by simp only [store_maxAttempts]; omega)
    simp only [store_maxAttempts, store_lockDuration] at this
    have e : (1 : Int) + (ts.length : Int) = (ts.length : Int) + 1 := by omega
    rw [e] at this
    exact this
  refine ⟨h1 u1, fun hk => (hacc hk).1, fun hk => ?_, fun hk => ?_⟩
  · obtain ⟨ha, hm, hl⟩ := hacc (le_of_lt hk)
    rw [RecordFailure_count _ key now _ ha (Nat.zero_le _) (by rw [hl]; exact hnow)
      (by rw [hm]; simp only []; omega)]
    simp only []
    congr 3
  · obtain ⟨ha, hm, hl⟩ := hacc (le_of_eq hk)
    rw [RecordFailure_lock _ key now _ ha (Nat.zero_le _) (by rw [hl]; exact hnow)
      (by rw [hm]; simp only []; omega)]
    simp only [hl]
    congr 3

/-- Witness of C13: on the fresh limiter 10.0.0.5 fails at 1 s, 2 s, 3 s, 4 s and 5 s; the
fifth call locks it. -/
theorem failures_count_then_lock_witness :
    RecordFailure GetLoginRateLimiter "10.0.0.5" 1000000000 1000000040
      = (GetLoginRateLimiter.store "10.0.0.5" ⟨1, 1000000000, zeroTime⟩, false, 0)
    ∧ (recordFailures GetLoginRateLimiter "10.0.0.5"
        [1000000000, 2000000000, 3000000000, 4000000000]).attempts "10.0.0.5"
      = some ⟨4, 1000000000, zeroTime⟩
    ∧ RecordFailure (recordFailures GetLoginRateLimiter "10.0.0.5"
        [1000000000, 2000000000, 3000000000, 4000000000]) "10.0.0.5" 5000000000
          5000000040
      = ((recordFailures GetLoginRateLimiter "10.0.0.5"
            [1000000000, 2000000000, 3000000000, 4000000000]).store "10.0.0.5"
          ⟨5, 1000000000, 305000000000⟩, true, 300000000000) :=
  have h := failures_count_then_lock GetLoginRateLimiter "10.0.0.5" 1000000000
    [2000000000, 3000000000, 4000000000] 5000000000 rfl (by decide) (by decide)
    1000000040 5000000040
  ⟨h.1, h.2.1 (by decide), h.2.2.2 (by decide)⟩

/-- C14: for a key whose record was never locked (its lock-until is the zero instant) and
whose first failure is more than lockDuration before now, `RecordFailure` at now stores the
record with count 1, first failure now and no lock, and returns not blocked, whatever count
had accumulated. -/
theorem failure_after_window_resets (l : LoginRateLimiter) (key : String) (now : Time)
    (info : attemptInfo) (h : l.attempts key = some info)
    (hnever : info.lockUntil = zeroTime)
    (hw : Time.Sub now info.firstTime > l.lockDuration) (later : Time) :
    RecordFailure l key now later = (l.store key ⟨1, now, zeroTime⟩, false, 0)
    ∧ (RecordFailure l key now later).1.attempts key = some ⟨1, now, zeroTime⟩ := by
  have e : RecordFailure l key now later = (l.store key ⟨1, now, zeroTime⟩, false, 0) :=
    RecordFailure_expired l key now info h (by rw [hnever]; exact Nat.zero_le _) hw
  exact ⟨e, by rw [e]; exact store_attempts_self _ _ _⟩

/-- Witness of C14: 10.0.0.5 has failed four times from instant 1000; a failure 5 minutes
and 1 ns after the first starts a fresh record. -/
theorem failure_after_window_resets_witness :
    (recordFailures GetLoginRateLimiter "10.0.0.5" [1000, 1001, 1002, 1003]).attempts
        "10.0.0.5" = some ⟨4, 1000, zeroTime⟩
    ∧ RecordFailure (recordFailures GetLoginRateLimiter "10.0.0.5" [1000, 1001, 1002, 1003])
        "10.0.0.5" 300000001001 300000001041
      = ((recordFailures GetLoginRateLimiter "10.0.0.5" [1000, 1001, 1002, 1003]).store
          "10.0.0.5" ⟨1, 300000001001, zeroTime⟩, false, 0)
    ∧ (RecordFailure (recordFailures GetLoginRateLimiter "10.0.0.5" [1000, 1001, 1002, 1003])
        "10.0.0.5" 300000001001 300000001041).1.attempts "10.0.0.5"
      = some ⟨1, 300000001001, zeroTime⟩ :=
  have h := failure_after_window_resets
    (recordFailures GetLoginRateLimiter "10.0.0.5" [1000, 1001, 1002, 1003]) "10.0.0.5"
    300000001001 ⟨4, 1000, zeroTime⟩ (by decide) rfl (by decide) 300000001041
  ⟨by decide, h.1, h.2⟩

/-! ## Properties of the remote control client -/

/-- C11, as stated, fails: a response with status 204 (a 2xx status) and an empty body makes
`doRequest`, and with it `UpdateConfig`, fail. -/
theorem doRequest_rejects_204 :
    FrpcClient.doRequest ⟨204, ""⟩ = Except.error "API returned status 204: "
    ∧ FrpcClient.UpdateConfig ⟨204, ""⟩ = Except.error "API returned status 204: "
    ∧ (200 : Int) ≤ 204 ∧ (204 : Int) ≤ 299 :=
  ⟨rfl, rfl, by decide, by decide⟩

/-- C11, amended: `doRequest`, as a function of the response, fails exactly when the status
is not 200; the error text then holds the status code and the body; for status 200 it
returns the body, which `GetConfig` returns and `UpdateConfig`, `Reload` and `Stop` drop. -/
theorem doRequest_fails_iff_not_200 (resp : httpResponse) :
    ((∃ err, FrpcClient.doRequest resp = Except.error err) ↔ resp.StatusCode ≠ 200)
    ∧ (resp.StatusCode ≠ 200 →
        FrpcClient.doRequest resp = Except.error
          ("API returned status " ++ toString resp.StatusCode ++ ": " ++ resp.Body))
    ∧ (resp.StatusCode = 200 →
        FrpcClient.doRequest resp = Except.ok resp.Body
        ∧ FrpcClient.GetConfig resp = Except.ok resp.Body
        ∧ FrpcClient.UpdateConfig resp = Except.ok ()
        ∧ FrpcClient.Reload resp = Except.ok ()
        ∧ FrpcClient.Stop resp = Except.ok ()) := by
  by_cases h : resp.StatusCode = 200
  · simp [FrpcClient.doRequest, FrpcClient.GetConfig, FrpcClient.UpdateConfig,
      FrpcClient.Reload, FrpcClient.Stop, h]
  · simp [FrpcClient.doRequest, h]

/-! ## Properties of the log buffer -/

/-- Copying a source into a destination of the same length gives the source. -/
theorem goCopy_same_length {α : Type} (dst src : List α) (h : dst.length = src.length) :
    goCopy dst src = src := by
  unfold goCopy
  rw [List.take_of_length_le (le_of_eq h.symm), List.drop_of_length_le (le_of_eq h)]
  simp

/-- The result of `GetLogs` is the buffer without its first `start` lines. -/
theorem GetLogs_eq_drop (m : ProcessManager) (n : Int) :
    m.GetLogs n = m.logLines.drop
      (m.logLines.length -
        (if n ≤ 0 ∨ n > (m.logLines.length : Int) then m.logLines.length else n.toNat)) := by
  unfold ProcessManager.GetLogs
  by_cases h : n ≤ 0 ∨ n > (m.logLines.length : Int)
  · simp only [h, if_true]
    rw [goCopy_same_length _ _ (by simp)]
    simp
  · simp only [h, if_false]
    have h1 : 0 < n := by omega
    have h2 : n ≤ (m.logLines.length : Int) := by omega
    have hs : ¬ ((m.logLines.length : Int) - n < 0) := by omega
    simp only [hs, if_false]
    have e : ((m.logLines.length : Int) - n).toNat = m.logLines.length - n.toNat := by omega
    rw [e]
    apply goCopy_same_length
    simp only [List.length_replicate, List.length_drop]
    omega

/-- C16: `GetLogs(n)` on a buffer of s lines: for 1 ≤ n ≤ s the result is the buffer without
its first s - n lines, that is its last n lines in the buffered order; for n ≤ 0 or n > s it
is the whole buffer; it is always a suffix of the buffer, of length min(n, s), or s when
n ≤ 0.  The function reads the buffer and returns a fresh list: the buffer is as before. -/
theorem GetLogs_last_lines (m : ProcessManager) (n : Int) :
    (1 ≤ n → n ≤ (m.logLines.length : Int) →
        m.GetLogs n = m.logLines.drop (m.logLines.length - n.toNat)
        ∧ (m.GetLogs n).length = n.toNat)
    ∧ (n ≤ 0 ∨ (m.logLines.length : Int) < n → m.GetLogs n = m.logLines)
    ∧ m.GetLogs n <:+ m.logLines
    ∧ ((m.GetLogs n).length : Int)
        = if n ≤ 0 then (m.logLines.length : Int) else min n (m.logLines.length : Int) := by
  have hd := GetLogs_eq_drop m n
  refine ⟨fun h1 h2 => ?_, fun h => ?_, ?_, ?_⟩
  · have hc : ¬ (n ≤ 0 ∨ n > (m.logLines.length : Int)) := by omega
    simp only [hc, if_false] at hd
    refine ⟨hd, ?_⟩
    rw [hd, List.length_drop]
    omega
  · have hc : n ≤ 0 ∨ n > (m.logLines.length : Int) := by omega
    simp only [hc, if_true] at hd
    rw [hd]
    simp
  · rw [hd]
    exact List.drop_suffix _ _
  · rw [hd, List.length_drop]
    by_cases hc : n ≤ 0 ∨ n > (m.logLines.length : Int)
    · simp only [hc, if_true]
      by_cases h0 : n ≤ 0
      · simp [h0]
      · have : (m.logLines.length : Int) < n := by omega
        simp only [h0, if_false]
        rw [min_eq_right (le_of_lt this)]
        omega
    · simp only [hc, if_false]
      have h0 : ¬ n ≤ 0 := by omega
      simp only [h0, if_false]
      rw [min_eq_left (by omega)]
      omega

/-- Witness of C16: the last two of three buffered lines. -/
theorem GetLogs_last_lines_witness :
    ProcessManager.GetLogs (addLogLines (NewProcessManager "frps" "frps.toml")
        [("t1", "a"), ("t2", "b"), ("t3", "c")]) 2 = ["[t2] b", "[t3] c"]
    ∧ ProcessManager.GetLogs (addLogLines (NewProcessManager "frps" "frps.toml")
        [("t1", "a"), ("t2", "b"), ("t3", "c")]) 0 = ["[t1] a", "[t2] b", "[t3] c"]
    ∧ ProcessManager.GetLogs (addLogLines (NewProcessManager "frps" "frps.toml")
        [("t1", "a"), ("t2", "b"), ("t3", "c")]) 7 = ["[t1] a", "[t2] b", "[t3] c"] :=
  have h2 := (GetLogs_last_lines (addLogLines (NewProcessManager "frps" "frps.toml")
    [("t1", "a"), ("t2", "b"), ("t3", "c")]) 2).1 (by decide) (by decide)
  have h0 := (GetLogs_last_lines (addLogLines (NewProcessManager "frps" "frps.toml")
    [("t1", "a"), ("t2", "b"), ("t3", "c")]) 0).2.1 (Or.inl (by decide))
  have h7 := (GetLogs_last_lines (addLogLines (NewProcessManager "frps" "frps.toml")
    [("t1", "a"), ("t2", "b"), ("t3", "c")]) 7).2.1 (Or.inr (by decide))
  ⟨h2.1, h0, h7⟩

/-- One capture into a buffer of capacity 1000 holding at most 1000 lines. -/
theorem addLogLine_logLines (m : ProcessManager) (timestamp line : String)
    (hmax : m.maxLogLines = 1000) (hlen : m.logLines.length ≤ 1000) :
    (addLogLine m timestamp line).logLines
      = (m.logLines ++ ["[" ++ timestamp ++ "] " ++ line]).drop
          ((m.logLines.length + 1) - min 1000 (m.logLines.length + 1))
    ∧ (addLogLine m timestamp line).maxLogLines = 1000
    ∧ (addLogLine m timestamp line).logLines.length ≤ 1000 := by
  by_cases h : m.logLines.length = 1000
  · have hc : (((m.logLines ++ ["[" ++ timestamp ++ "] " ++ line]).length : Nat) : Int)
        > m.maxLogLines := by
      rw [hmax, List.length_append, List.length_singleton]
      omega
    have e : addLogLine m timestamp line
        = { m with logLines := (m.logLines ++ ["[" ++ timestamp ++ "] " ++ line]).drop 1 } := by
      unfold addLogLine
      simp only [hc, if_true]
    rw [e]
    refine ⟨?_, hmax, ?_⟩
    · simp only [h]
      rfl
    · simp only [List.length_drop, List.length_append, List.length_singleton]
      omega
  · have hc : ¬ (((m.logLines ++ ["[" ++ timestamp ++ "] " ++ line]).length : Nat) : Int)
        > m.maxLogLines := by
      rw [hmax, List.length_append, List.length_singleton]
      omega
    have e : addLogLine m timestamp line
        = { m with logLines := m.logLines ++ ["[" ++ timestamp ++ "] " ++ line] } := by
      unfold addLogLine
      simp only [hc, if_false]
    rw [e]
    have e0 : m.logLines.length + 1 - min 1000 (m.logLines.length + 1) = 0 := by omega
    rw [e0]
    refine ⟨by simp, hmax, ?_⟩
    simp only [List.length_append, List.length_singleton]
    omega

/-- Every buffer built from the empty one by captures has capacity 1000 and at most 1000
lines. -/
theorem addLogLines_invariant (entries : List (String × String)) :
    ∀ m : ProcessManager, m.maxLogLines = 1000 → m.logLines.length ≤ 1000 →
      (addLogLines m entries).maxLogLines = 1000
      ∧ (addLogLines m entries).logLines.length ≤ 1000 := by
  induction entries with
  | nil => intro m h1 h2; exact ⟨h1, h2⟩
  | cons e es ih =>
    intro m h1 h2
    have h := addLogLine_logLines m e.1 e.2 h1 h2
    exact ih (addLogLine m e.1 e.2) h.2.1 h.2.2

/-- C17: a new direct-backend manager has an empty buffer; for every buffer reached from it
by captures (it holds at most 1000 lines), the buffer after `addLogLine` is the last
min(1000, len + 1) elements of the old buffer followed by the timestamped new line: its
length is at most 1000, its last element is the line just captured, and when the old buffer
was full exactly its oldest line is gone, the others keeping their order. -/
theorem log_buffer_bounded (frpsPath configPath : String) (entries : List (String × String))
    (timestamp line : String) :
    (NewProcessManager frpsPath configPath).logLines = []
    ∧ (addLogLines (NewProcessManager frpsPath configPath) entries).logLines.length ≤ 1000
    ∧ (addLogLine (addLogLines (NewProcessManager frpsPath configPath) entries)
          timestamp line).logLines
        = ((addLogLines (NewProcessManager frpsPath configPath) entries).logLines
            ++ ["[" ++ timestamp ++ "] " ++ line]).drop
          (((addLogLines (NewProcessManager frpsPath configPath) entries).logLines.length + 1)
            - min 1000
              ((addLogLines (NewProcessManager frpsPath configPath) entries).logLines.length
                + 1))
    ∧ (addLogLine (addLogLines (NewProcessManager frpsPath configPath) entries)
          timestamp line).logLines.length ≤ 1000
    ∧ (addLogLine (addLogLines (NewProcessManager frpsPath configPath) entries)
          timestamp line).logLines.getLast? = some ("[" ++ timestamp ++ "] " ++ line)
    ∧ ((addLogLines (NewProcessManager frpsPath configPath) entries).logLines.length = 1000 →
        (addLogLine (addLogLines (NewProcessManager frpsPath configPath) entries)
            timestamp line).logLines
          = (addLogLines (NewProcessManager frpsPath configPath) entries).logLines.tail
            ++ ["[" ++ timestamp ++ "] " ++ line])
    ∧ ((addLogLines (NewProcessManager frpsPath configPath) entries).logLines.length < 1000 →
        (addLogLine (addLogLines (NewProcessManager frpsPath configPath) entries)
            timestamp line).logLines
          = (addLogLines (NewProcessManager frpsPath configPath) entries).logLines
            ++ ["[" ++ timestamp ++ "] " ++ line]) := by
  have hinv := addLogLines_invariant entries (NewProcessManager frpsPath configPath) rfl
    (by simp [NewProcessManager])
  generalize addLogLines (NewProcessManager frpsPath configPath) entries = m at hinv ⊢
  obtain ⟨h1, h2⟩ := hinv
  have h := addLogLine_logLines m timestamp line h1 h2
  have hfull : m.logLines.length = 1000 →
      (addLogLine m timestamp line).logLines
        = m.logLines.tail ++ ["[" ++ timestamp ++ "] " ++ line] := by
    intro hl
    rw [h.1, hl]
    cases hm : m.logLines with
    | nil => rw [hm] at hl; simp at hl
    | cons a l => simp
  have hroom : m.logLines.length < 1000 →
      (addLogLine m timestamp line).logLines
        = m.logLines ++ ["[" ++ timestamp ++ "] " ++ line] := by
    intro hl
    rw [h.1]
    have e : m.logLines.length + 1 - min 1000 (m.logLines.length + 1) = 0 := by omega
    rw [e]
    simp
  refine ⟨rfl, h2, h.1, h.2.2, ?_, hfull, hroom⟩
  by_cases hl : m.logLines.length = 1000
  · rw [hfull hl]
    simp
  · rw [hroom (by omega)]
    simp

/-! ## Properties of the data-plane port pool -/

/-- Membership in a range of ports. -/
theorem mem_portRange (portStart portEnd q : Int) :
    q ∈ portRange portStart portEnd ↔ portStart ≤ q ∧ q ≤ portEnd := by
  simp only [portRange, List.mem_map, List.mem_range]
  constructor
  · rintro ⟨i, hi, rfl⟩
    omega
  · rintro ⟨h1, h2⟩
    exact ⟨(q - portStart).toNat, by omega, by omega⟩

/-- An empty range. -/
theorem portRange_empty (portStart portEnd : Int) (h : portEnd < portStart) :
    portRange portStart portEnd = [] := by
  have e : (portEnd - portStart + 1).toNat = 0 := by omega
  simp [portRange, e]

/-- A non-empty range starts with its lower bound. -/
theorem portRange_cons (portStart portEnd : Int) (h : portStart ≤ portEnd) :
    portRange portStart portEnd = portStart :: portRange (portStart + 1) portEnd := by
  have e : (portEnd - portStart + 1).toNat = (portEnd - (portStart + 1) + 1).toNat + 1 := by
    omega
  simp only [portRange, e, List.range_succ_eq_map, List.map_cons, List.map_map]
  refine congrArg₂ _ (by simp) ?_
  apply List.map_congr_left
  intro i _
  simp only [Function.comp, Nat.succ_eq_add_one, Nat.cast_add, Nat.cast_one]
  omega

/-- A range of ports is strictly ascending. -/
theorem portRange_pairwise (portStart portEnd : Int) :
    (portRange portStart portEnd).Pairwise (fun a b => a < b) := by
  unfold portRange
  rw [List.pairwise_map]
  exact List.Pairwise.imp (fun h => by omega) (List.pairwise_lt_range _)

/-- The scan when `portEnd` is below the largest `int`: it appends to the ports collected so
far the first free ports of `[port, portEnd]`, up to 100 ports in all. -/
theorem availableLoop_spec (used : List Int) (portEnd : Int) (hEnd : portEnd < maxInt64) :
    ∀ (fuel : Nat) (port : Int) (acc : List Int), minInt64 ≤ port → acc.length ≤ 100 →
      (portEnd - port + 1).toNat + 1 ≤ fuel →
      availableLoop used portEnd fuel port acc
        = some (acc ++ ((portRange port portEnd).filter
            (fun p => !(used.contains p))).take (100 - acc.length)) := by
  intro fuel
  induction fuel with
  | zero => intro port acc _ _ hf; omega
  | succ n ih =>
    intro port acc hmin hacc hf
    by_cases hle : port ≤ portEnd
    · by_cases hlen : acc.length < 100
      · have hw : wrapInt64 (port + 1) = port + 1 :=
          wrapInt64_succ port hmin (lt_of_le_of_lt hle hEnd)
        have hstep : availableLoop used portEnd (n + 1) port acc
            = availableLoop used portEnd n (port + 1)
                (if !(used.contains port) then acc ++ [port] else acc) := by
          simp [availableLoop, hle, hlen, hw]
        rw [hstep, portRange_cons port portEnd hle]
        by_cases hu : used.contains port = true
        · simp only [hu, Bool.not_true, Bool.false_eq_true, if_false, List.filter_cons_of_neg,
            not_false_eq_true]
          exact ih (port + 1) acc (by omega) hacc (by omega)
        · have hu2 : used.contains port = false := by simpa using hu
          simp only [hu2, Bool.not_false, if_true, List.filter_cons_of_pos]
          rw [ih (port + 1) (acc ++ [port]) (by omega)
            (by simp only [List.length_append, List.length_singleton]; omega) (by omega)]
          have e : 100 - acc.length = (100 - (acc ++ [port]).length) + 1 := by
            simp only [List.length_append, List.length_singleton]
            omega
          rw [e, List.take_succ_cons]
          simp
      · have h100 : 100 - acc.length = 0 := by omega
        simp [availableLoop, hlen, h100]
    · have hr : portRange port portEnd = [] := portRange_empty port portEnd (by omega)
      simp [availableLoop, hle, hr]

/-- A port is plucked by the data-plane query exactly when a tcp or udp proxy has it as a
positive remote port. -/
theorem mem_usedProxyPorts (proxies : List Proxy) (q : Int) :
    q ∈ usedProxyPorts proxies
      ↔ ∃ x ∈ proxies, (x.ProxyType = "tcp" ∨ x.ProxyType = "udp") ∧ 0 < x.RemotePort
          ∧ x.RemotePort = q := by
  simp only [usedProxyPorts, List.mem_map, List.mem_filter, Bool.and_eq_true,
    Bool.or_eq_true, decide_eq_true_eq, gt_iff_lt]
  constructor
  · rintro ⟨x, ⟨hx, ht, hpos⟩, rfl⟩
    exact ⟨x, hx, ht, hpos, rfl⟩
  · rintro ⟨x, hx, ht, hpos, rfl⟩
    exact ⟨x, ⟨hx, ht, hpos⟩, rfl⟩

set_option maxRecDepth 20000 in
/-- C15, as stated, fails at the largest `int`: with the pool `[2^63-1, 2^63-1]` and no proxy
the range holds one free port, but `port++` wraps around and the list holds 100 ports,
2^63-1 followed by -2^63, -2^63+1, ...: it is not ascending and leaves the range. -/
theorem available_ports_wrap_past_largest_int :
    (getAvailablePortsHandler 9223372036854775807 9223372036854775807 []).map
        (fun r => (r.ports.length, r.ports.take 3))
      = some (100, [9223372036854775807, -9223372036854775808, -9223372036854775807])
    ∧ ((portRange 9223372036854775807 9223372036854775807).filter
        (fun p => !((usedProxyPorts []).contains p))).length = 1 := by
  decide

/-- C15, amended: for Go integers `portStart`, `portEnd` with `portEnd` below 2^63-1, the
handler answers, and its list `ports` is the first 100 free ports of `[portStart, portEnd]`
in ascending order: it is strictly ascending, each element lies in the range and is not the
remote port of a tcp or udp proxy with a positive remote port, its length is the minimum of
100 and the number of free ports of the range, and no free port of the range below a listed
port is missing from it. -/
theorem available_ports_listing (portStart portEnd : Int) (proxies : List Proxy)
    (hs : isInt64 portStart) (_he : isInt64 portEnd) (hmax : portEnd < maxInt64) :
    ∃ resp, getAvailablePortsHandler portStart portEnd proxies = some resp
      ∧ resp.ports = ((portRange portStart portEnd).filter
          (fun p => !((usedProxyPorts proxies).contains p))).take 100
      ∧ resp.ports.Pairwise (fun a b => a < b)
      ∧ (∀ p ∈ resp.ports, portStart ≤ p ∧ p ≤ portEnd
          ∧ ∀ x ∈ proxies, (x.ProxyType = "tcp" ∨ x.ProxyType = "udp") → 0 < x.RemotePort →
              x.RemotePort ≠ p)
      ∧ resp.ports.length = min 100 ((portRange portStart portEnd).filter
          (fun p => !((usedProxyPorts proxies).contains p))).length
      ∧ (∀ q p, portStart ≤ q → q ≤ portEnd → q ∉ usedProxyPorts proxies →
          p ∈ resp.ports → q < p → q ∈ resp.ports) := by
  have hloop := availableLoop_spec (usedProxyPorts proxies) portEnd hmax
    ((portEnd - portStart + 1).toNat + 101) portStart [] hs.1 (by simp) (by omega)
  simp only [List.nil_append, List.length_nil, Nat.sub_zero] at hloop
  have hsorted : ((portRange portStart portEnd).filter
      (fun p => !((usedProxyPorts proxies).contains p))).Pairwise (fun a b => a < b) :=
    (portRange_pairwise portStart portEnd).sublist (List.filter_sublist _)
  have hresp : getAvailablePortsHandler portStart portEnd proxies
      = some
        { ports := ((portRange portStart portEnd).filter
            (fun p => !((usedProxyPorts proxies).contains p))).take 100,
          used_ports := usedProxyPorts proxies,
          pool_start := portStart, pool_end := portEnd,
          total_used := ((usedProxyPorts proxies).length : Int),
          total_available :=
            wrapInt64 (wrapInt64 (wrapInt64 (portEnd - portStart) + 1)
              - ((usedProxyPorts proxies).length : Int)) } := by
    simp only [getAvailablePortsHandler, hloop]
  refine ⟨_, hresp, rfl, ?_, ?_, ?_, ?_⟩
  · exact hsorted.sublist (List.take_sublist _ _)
  · intro p hp
    have hp2 := List.mem_of_mem_take hp
    rw [List.mem_filter] at hp2
    have hr := (mem_portRange portStart portEnd p).mp hp2.1
    have hfree : p ∉ usedProxyPorts proxies := by simpa using hp2.2
    refine ⟨hr.1, hr.2, fun x hx ht hpos he => ?_⟩
    exact hfree ((mem_usedProxyPorts proxies p).mpr ⟨x, hx, ht, hpos, he⟩)
  · simp only [List.length_take]
  · intro q p hq1 hq2 hfree hp hlt
    have hqF : q ∈ (portRange portStart portEnd).filter
        (fun p => !((usedProxyPorts proxies).contains p)) := by
      rw [List.mem_filter]
      exact ⟨(mem_portRange portStart portEnd q).mpr ⟨hq1, hq2⟩, by simpa using hfree⟩
    rw [← List.take_append_drop 100 ((portRange portStart portEnd).filter
      (fun p => !((usedProxyPorts proxies).contains p)))] at hqF hsorted
    rcases List.mem_append.mp hqF with h | h
    · exact h
    · have := (List.pairwise_append.mp hsorted).2.2 p hp q h
      omega

/-- Witness of C15 amended: pool 10000..10004 with 10000 held by a tcp proxy and 10002 by a
udp proxy; an stcp proxy with remote port 10003 does not count. -/
theorem available_ports_listing_witness :
    ∃ resp, getAvailablePortsHandler 10000 10004
        [⟨1, 1, "web", "tcp", 10000⟩, ⟨2, 1, "dns", "udp", 10002⟩,
         ⟨3, 1, "ssh", "stcp", 10003⟩] = some resp
      ∧ resp.ports = [10001, 10003, 10004] :=
  have h := available_ports_listing 10000 10004
    [⟨1, 1, "web", "tcp", 10000⟩, ⟨2, 1, "dns", "udp", 10002⟩, ⟨3, 1, "ssh", "stcp", 10003⟩]
    (by decide) (by decide) (by decide)
  h.elim (fun resp hr => ⟨resp, hr.1, hr.2.1.trans (by decide)⟩)

/-! ## Properties of the server configuration parser -/

/-- Trailing elements that satisfy `p` are dropped up to the last element that does not. -/
theorem rdropWhile_append_cons_of_neg {α : Type} (p : α → Bool) (l rest : List α) (c : α)
    (h : p c = false) :
    (l ++ c :: rest).rdropWhile p = l ++ c :: rest.rdropWhile p := by
  induction rest using List.reverseRecOn with
  | nil =>
    have e : l ++ [c] = l ++ [c] := rfl
    rw [List.rdropWhile_nil, List.rdropWhile_concat_neg _ _ _ (by simp [h])]
  | append_singleton r b ih =>
    by_cases hb : p b = true
    · have e : l ++ c :: (r ++ [b]) = (l ++ c :: r) ++ [b] := by simp
      rw [e, List.rdropWhile_concat_pos _ _ _ hb, List.rdropWhile_concat_pos _ _ _ hb, ih]
    · have e : l ++ c :: (r ++ [b]) = (l ++ c :: r) ++ [b] := by simp
      rw [e, List.rdropWhile_concat_neg _ _ _ hb, List.rdropWhile_concat_neg _ _ _ hb]
      simp

/-- Clearing both ends of a text whose elements all satisfy `p` leaves nothing. -/
theorem trim_of_all {α : Type} (p : α → Bool) (s : List α) (h : ∀ x ∈ s, p x = true) :
    (s.rdropWhile p).dropWhile p = [] := by
  rw [List.rdropWhile_eq_nil_iff.mpr h]
  rfl

/-- Clearing both ends of `ws ++ core ++ ws1` leaves `core`, when `ws` and `ws1` consist of
elements satisfying `p` and `core` starts and ends with elements that do not. -/
theorem trim_core {α : Type} (p : α → Bool) (ws core ws1 : List α) (c d : α)
    (hws : ∀ x ∈ ws, p x = true) (hws1 : ∀ x ∈ ws1, p x = true)
    (hc : core.head? = some c) (hpc : p c = false)
    (hd : core.getLast? = some d) (hpd : p d = false) :
    ((ws ++ core ++ ws1).rdropWhile p).dropWhile p = core := by
  have hcore : core = core.dropLast ++ [d] := by
    have := List.dropLast_append_getLast? d hd
    exact this.symm
  have e : ws ++ core ++ ws1 = (ws ++ core.dropLast) ++ d :: ws1 := by
    conv_lhs => rw [hcore]
    simp
  rw [e, rdropWhile_append_cons_of_neg p _ _ _ hpd, List.rdropWhile_eq_nil_iff.mpr hws1]
  have e2 : ws ++ core.dropLast ++ [d] = ws ++ core := by
    conv_rhs => rw [hcore]
    simp
  rw [e2, List.dropWhile_append_of_pos hws]
  cases core with
  | nil => simp at hc
  | cons a t =>
    simp only [List.head?_cons, Option.some.injEq] at hc
    subst hc
    rw [List.dropWhile_cons_of_neg (by simp [hpc])]

/-- The carriage return the scanner drops is invisible after `TrimSpace`. -/
theorem TrimSpace_dropCR (raw : List Char) : TrimSpace (dropCR raw) = TrimSpace raw := by
  unfold dropCR
  by_cases h : raw.getLast? = some '\r'
  · simp only [h, if_true]
    have e : raw = raw.dropLast ++ ['\r'] := (List.dropLast_append_getLast? _ h).symm
    conv_rhs => rw [e]
    unfold TrimSpace
    rw [List.rdropWhile_concat_pos _ _ _ (by decide)]
  · simp only [h, if_false]

/-- The separator does not occur: nothing to cut. -/
theorem cutAtFirst_of_not_mem (sep : Char) (s : List Char) (h : sep ∉ s) :
    cutAtFirst sep s = none := by
  induction s with
  | nil => rfl
  | cons c cs ih =>
    have hc : ¬ c = sep := fun e => h (by simp [e])
    have hcs : sep ∉ cs := fun e => h (List.mem_cons_of_mem _ e)
    simp [cutAtFirst, hc, ih hcs]

/-- The cut is made at the first occurrence of the separator. -/
theorem cutAtFirst_append (sep : Char) (a b : List Char) (h : sep ∉ a) :
    cutAtFirst sep (a ++ sep :: b) = some (a, b) := by
  induction a with
  | nil => simp [cutAtFirst]
  | cons c cs ih =>
    have hc : ¬ c = sep := fun e => h (by simp [e])
    have hcs : sep ∉ cs := fun e => h (List.mem_cons_of_mem _ e)
    simp [cutAtFirst, hc, ih hcs]

/-- A blank line is skipped. -/
theorem keyValue_blank (raw : List Char) (h : ∀ c ∈ raw, isSpace c = true) :
    keyValue raw = none := by
  unfold keyValue
  rw [TrimSpace_dropCR]
  have e : TrimSpace raw = [] := trim_of_all isSpace raw h
  simp [e]

/-- A line whose first character that is not white space is `#` is skipped. -/
theorem keyValue_comment (raw : List Char) (h : (raw.dropWhile isSpace).head? = some '#') :
    keyValue raw = none := by
  unfold keyValue
  rw [TrimSpace_dropCR]
  obtain ⟨rest, hrest⟩ : ∃ rest, raw.dropWhile isSpace = '#' :: rest := by
    cases hd : raw.dropWhile isSpace with
    | nil => rw [hd] at h; simp at h
    | cons a t =>
      rw [hd] at h
      simp only [List.head?_cons, Option.some.injEq] at h
      exact ⟨t, by rw [h]⟩
  have hraw : raw = raw.takeWhile isSpace ++ '#' :: rest := by
    rw [← hrest, List.takeWhile_append_dropWhile]
  have hws : ∀ x ∈ raw.takeWhile isSpace, isSpace x = true :=
    fun x hx => (List.mem_takeWhile_imp hx)
  have e : TrimSpace raw = '#' :: rest.rdropWhile isSpace := by
    unfold TrimSpace
    conv_lhs => rw [hraw]
    rw [rdropWhile_append_cons_of_neg isSpace _ _ _ (by decide),
      List.dropWhile_append_of_pos hws, List.dropWhile_cons_of_neg (by decide)]
  simp [e, HasPrefix]

/-- A line without `=` is skipped. -/
theorem keyValue_no_equals (raw : List Char) (h : '=' ∉ raw) : keyValue raw = none := by
  unfold keyValue
  rw [TrimSpace_dropCR]
  have hsub : List.Sublist (TrimSpace raw) raw :=
    (List.dropWhile_sublist _).trans (List.rdropWhile_prefix isSpace raw).sublist
  have hne : '=' ∉ TrimSpace raw := fun hm => h (hsub.subset hm)
  simp only [SplitN, cutAtFirst_of_not_mem '=' _ hne]
  split <;> rfl

/-- A key outside the eight recognized ones changes nothing. -/
theorem assignKey_unrecognized (config : FrpsConfig) (key value : List Char)
    (h : key ∉ recognizedKeys) : assignKey config key value = config := by
  simp only [recognizedKeys, List.mem_cons, List.mem_singleton, not_or, List.not_mem_nil,
    not_false_eq_true, and_true] at h
  obtain ⟨h1, h2, h3, h4, h5, h6, h7, h8⟩ := h
  unfold assignKey
  rw [if_neg h1, if_neg h2, if_neg h3, if_neg h4, if_neg h5, if_neg h6, if_neg h7, if_neg h8]

/-- A line of one of the four kinds the parser has no use for leaves the configuration as it
is. -/
theorem scanLine_irrelevant (config : FrpsConfig) (raw : List Char)
    (h : (∀ c ∈ raw, isSpace c = true) ∨ (raw.dropWhile isSpace).head? = some '#'
      ∨ '=' ∉ raw ∨ ∃ key value, keyValue raw = some (key, value) ∧ key ∉ recognizedKeys) :
    scanLine config raw = config := by
  unfold scanLine
  rcases h with h | h | h | ⟨key, value, hkv, hk⟩
  · rw [keyValue_blank raw h]
  · rw [keyValue_comment raw h]
  · rw [keyValue_no_equals raw h]
  · rw [hkv]
    exact assignKey_unrecognized config key value hk

/-- Scanning a document in two parts. -/
theorem scanLoop_append (pre post : List (List Char)) :
    ∀ config : FrpsConfig,
      scanLoop config (pre ++ post)
        = if (scanLoop config pre).2 = none then scanLoop (scanLoop config pre).1 post
          else scanLoop config pre := by
  induction pre with
  | nil => intro config; simp [scanLoop]
  | cons raw rest ih =>
    intro config
    by_cases hlong : maxScanTokenSize ≤ byteLen raw
    · simp [scanLoop, hlong]
    · simp only [List.cons_append, scanLoop, hlong, if_false]
      exact ih _

/-- The scan ends without error exactly when every raw line fits the scanner's buffer, and
its only error is `bufio.ErrTooLong`. -/
theorem scanLoop_error (doc : List (List Char)) :
    ∀ config : FrpsConfig,
      ((scanLoop config doc).2 = none ↔ ∀ raw ∈ doc, byteLen raw < maxScanTokenSize)
      ∧ ((scanLoop config doc).2 ≠ none → (scanLoop config doc).2 = some ParseError.tooLong) := by
  induction doc with
  | nil => intro config; simp [scanLoop]
  | cons raw rest ih =>
    intro config
    by_cases hlong : maxScanTokenSize ≤ byteLen raw
    · have e : scanLoop config (raw :: rest) = (config, some ParseError.tooLong) := by
        simp only [scanLoop, hlong, if_true]
      rw [e]
      refine ⟨⟨fun h => absurd h (by simp), fun h => ?_⟩, fun _ => rfl⟩
      exact absurd (h raw (List.mem_cons_self _ _)) (by omega)
    · have e : scanLoop config (raw :: rest) = scanLoop (scanLine config raw) rest := by
        simp only [scanLoop, hlong, if_false]
      rw [e]
      have := ih (scanLine config raw)
      refine ⟨⟨fun h => ?_, fun h => ?_⟩, this.2⟩
      · intro r hr
        rcases List.mem_cons.mp hr with rfl | hr
        · omega
        · exact this.1.mp h r hr
      · exact this.1.mpr (fun r hr => h r (List.mem_cons_of_mem _ hr))

/-- Bytes of a text made of one character repeated. -/
theorem byteLen_replicate (n : Nat) (c : Char) :
    byteLen (List.replicate n c) = n * c.utf8Size := by
  induction n with
  | zero => simp [byteLen]
  | succ k ih =>
    simp only [byteLen] at ih ⊢
    rw [List.replicate_succ, List.map_cons, List.sum_cons, ih]
    ring

/-- Bytes of a text with one more character in front. -/
theorem byteLen_cons (c : Char) (s : List Char) : byteLen (c :: s) = c.utf8Size + byteLen s := by
  simp [byteLen]

/-- Bytes of two texts joined. -/
theorem byteLen_append (s t : List Char) : byteLen (s ++ t) = byteLen s + byteLen t := by
  simp [byteLen]

/-- C19, as stated, fails: a document whose only line is 65536 letters `a` makes
`ParseFrpsToml` return the default configuration together with the scanner's error. -/
theorem long_line_fails_parse :
    ParseFrpsToml (some [List.replicate 65536 'a'])
      = (some defaultFrpsConfig, some ParseError.tooLong) := by
  have h : maxScanTokenSize ≤ byteLen (List.replicate 65536 'a') := by
    rw [byteLen_replicate]
    decide
  simp only [ParseFrpsToml, scanLoop, h, if_true]

/-- On lines that all fit the scanner the loop reads every line, in order, and ends without
error. -/
theorem scanLoop_short (doc : List (List Char)) :
    ∀ config : FrpsConfig, (∀ raw ∈ doc, byteLen raw < maxScanTokenSize) →
      scanLoop config doc = (doc.foldl scanLine config, none) := by
  induction doc with
  | nil => intro config _; rfl
  | cons raw rest ih =>
    intro config h
    have hnot : ¬ maxScanTokenSize ≤ byteLen raw :=
      Nat.not_le.mpr (h raw (List.mem_cons_self _ _))
    rw [scanLoop, if_neg hnot, ih _ (fun r hr => h r (List.mem_cons_of_mem _ hr))]
    rfl

/-- C19, amended: for every file that opens, `ParseFrpsToml` returns a configuration; its
error is nil exactly when every raw line is shorter than 65536 bytes, whatever the lines
hold, and the configuration is then the one read from all the lines, in order; otherwise the
scan stops at the first line of 65536 bytes or more: the configuration returned is the one
read from the lines before it (the result of parsing those lines alone), whatever follows,
and the error is the scanner's `bufio.ErrTooLong`.  When the file cannot be opened the error
of `os.Open` is returned with no configuration. -/
theorem parse_error_iff_long_line (doc : List (List Char)) :
    (∃ config, (ParseFrpsToml (some doc)).1 = some config)
    ∧ ((ParseFrpsToml (some doc)).2 = none ↔ ∀ raw ∈ doc, byteLen raw < maxScanTokenSize)
    ∧ ((ParseFrpsToml (some doc)).2 ≠ none →
        (ParseFrpsToml (some doc)).2 = some ParseError.tooLong)
    ∧ ((∀ raw ∈ doc, byteLen raw < maxScanTokenSize) →
        ParseFrpsToml (some doc) = (some (doc.foldl scanLine defaultFrpsConfig), none))
    ∧ (∀ (pre post : List (List Char)) (long : List Char), doc = pre ++ long :: post →
        (∀ raw ∈ pre, byteLen raw < maxScanTokenSize) → maxScanTokenSize ≤ byteLen long →
        ParseFrpsToml (some doc)
          = (some (pre.foldl scanLine defaultFrpsConfig), some ParseError.tooLong)
        ∧ (ParseFrpsToml (some doc)).1 = (ParseFrpsToml (some pre)).1)
    ∧ ParseFrpsToml none = (none, some ParseError.openFailed) := by
  have h := scanLoop_error doc defaultFrpsConfig
  refine ⟨⟨_, rfl⟩, h.1, h.2, fun hshort => ?_, fun pre post long hdoc hpre hlong => ?_, rfl⟩
  · simp only [ParseFrpsToml, scanLoop_short doc defaultFrpsConfig hshort]
  · subst hdoc
    have e1 := scanLoop_short pre defaultFrpsConfig hpre
    have e2 : ParseFrpsToml (some (pre ++ long :: post))
        = (some (pre.foldl scanLine defaultFrpsConfig), some ParseError.tooLong) := by
      simp only [ParseFrpsToml, scanLoop_append, e1, if_true, scanLoop, hlong]
    refine ⟨e2, ?_⟩
    rw [e2]
    simp only [ParseFrpsToml, e1]

/-- Witness of C19 amended: the line `bindPort = 7001` is read before the scan stops at a
line of 65536 letters, and the line `bindAddr = "10.0.0.1"` after it is not read. -/
theorem parse_error_iff_long_line_witness :
    ParseFrpsToml (some ["bindPort = 7001".toList, List.replicate 65536 'a',
        "bindAddr = \"10.0.0.1\"".toList])
      = (some { defaultFrpsConfig with BindPort := 7001 }, some ParseError.tooLong) :=
  ((parse_error_iff_long_line ["bindPort = 7001".toList, List.replicate 65536 'a',
      "bindAddr = \"10.0.0.1\"".toList]).2.2.2.2.1 ["bindPort = 7001".toList]
    ["bindAddr = \"10.0.0.1\"".toList] (List.replicate 65536 'a') rfl (by decide)
    (by rw [byteLen_replicate]; decide)).1.trans (by decide)

/-- C20, as stated, fails: before the line `bindPort = 7001` a comment line of 65536 bytes is
inserted; the scan stops at it and the bind port stays 7000. -/
theorem long_comment_line_changes_result :
    ParseFrpsToml (some ["bindPort = 7001".toList])
      = (some { defaultFrpsConfig with BindPort := 7001 }, none)
    ∧ (('#' :: List.replicate 65535 'x').dropWhile isSpace).head? = some '#'
    ∧ ParseFrpsToml (some ['#' :: List.replicate 65535 'x', "bindPort = 7001".toList])
      = (some defaultFrpsConfig, some ParseError.tooLong) := by
  have h : maxScanTokenSize ≤ byteLen ('#' :: List.replicate 65535 'x') := by
    rw [byteLen_cons, byteLen_replicate]
    decide
  refine ⟨by decide, by decide, ?_⟩
  simp only [ParseFrpsToml, scanLoop, h, if_true]

/-- C20, amended: inserting, at any position of a document, a raw line shorter than 65536
bytes that is blank, or whose first character that is not white space is `#`, or that holds
no `=`, or that is a key=value line whose key is not one of the eight recognized keys, gives
the same result of `ParseFrpsToml` (configuration and error). -/
theorem irrelevant_line_ignored (pre post : List (List Char)) (raw : List Char)
    (hshort : byteLen raw < maxScanTokenSize)
    (hkind : (∀ c ∈ raw, isSpace c = true) ∨ (raw.dropWhile isSpace).head? = some '#'
      ∨ '=' ∉ raw ∨ ∃ key value, keyValue raw = some (key, value) ∧ key ∉ recognizedKeys) :
    ParseFrpsToml (some (pre ++ raw :: post)) = ParseFrpsToml (some (pre ++ post)) := by
  have hstep : ∀ config, scanLoop config (raw :: post) = scanLoop config post := by
    intro config
    have hnot : ¬ maxScanTokenSize ≤ byteLen raw := by omega
    simp only [scanLoop, hnot, if_false, scanLine_irrelevant config raw hkind]
  simp only [ParseFrpsToml, scanLoop_append, hstep]

/-- Witness of C20 amended: a table header (a line without `=`) is inserted between the two
lines of a document. -/
theorem irrelevant_line_ignored_witness :
    ParseFrpsToml (some (["bindPort = 7001".toList] ++ "[webServer]".toList
        :: ["webServer.port = 7501".toList]))
      = ParseFrpsToml (some (["bindPort = 7001".toList] ++ ["webServer.port = 7501".toList])) :=
  irrelevant_line_ignored ["bindPort = 7001".toList] ["webServer.port = 7501".toList]
    "[webServer]".toList (by decide) (Or.inr (Or.inr (Or.inl (by decide))))

/-- The decimal digit characters. -/
theorem digitChar_spec (m : Nat) (h : m < 10) :
    (Nat.digitChar m).isDigit = true ∧ (Nat.digitChar m).toNat - 48 = m := by
  interval_cases m <;> decide

/-- The digits written by `Nat.toDigitsCore` in front of `ds`: they are decimal digits, at
least one, and read back as the number. -/
theorem toDigitsCore_spec :
    ∀ (fuel n : Nat) (ds : List Char), n < fuel →
      ∃ D : List Char, Nat.toDigitsCore 10 fuel n ds = D ++ ds ∧ D ≠ []
        ∧ (∀ c ∈ D, c.isDigit = true)
        ∧ D.foldl (fun acc c => acc * 10 + (c.toNat - 48)) 0 = n := by
  intro fuel
  induction fuel with
  | zero => intro n ds h; omega
  | succ k ih =>
    intro n ds h
    have hd := digitChar_spec (n % 10) (Nat.mod_lt _ (by decide))
    by_cases h0 : n / 10 = 0
    · refine ⟨[Nat.digitChar (n % 10)], by simp [Nat.toDigitsCore, h0], by simp, ?_, ?_⟩
      · intro c hc
        rw [List.mem_singleton.mp hc]
        exact hd.1
      · simp only [List.foldl_cons, List.foldl_nil, hd.2]
        omega
    · obtain ⟨D, hD, hne, hdig, hval⟩ := ih (n / 10) (Nat.digitChar (n % 10) :: ds) (by omega)
      refine ⟨D ++ [Nat.digitChar (n % 10)], ?_, by simp, ?_, ?_⟩
      · simp only [Nat.toDigitsCore, h0, if_false, hD]
        simp
      · intro c hc
        rcases List.mem_append.mp hc with hc | hc
        · exact hdig c hc
        · rw [List.mem_singleton.mp hc]
          exact hd.1
      · rw [List.foldl_append, hval]
        simp only [List.foldl_cons, List.foldl_nil, hd.2]
        omega

/-- The decimal text of a natural number: digits, at least one, that read back as it. -/
theorem toDigits_spec (n : Nat) :
    Nat.toDigits 10 n ≠ [] ∧ (∀ c ∈ Nat.toDigits 10 n, c.isDigit = true)
      ∧ (Nat.toDigits 10 n).foldl (fun acc c => acc * 10 + (c.toNat - 48)) 0 = n := by
  obtain ⟨D, hD, hne, hdig, hval⟩ := toDigitsCore_spec (n + 1) n [] (by omega)
  have e : Nat.toDigits 10 n = D := by
    unfold Nat.toDigits
    rw [hD]
    simp
  rw [e]
  exact ⟨hne, hdig, hval⟩

/-- A decimal digit is neither a sign, nor a double quote, nor white space. -/
theorem isDigit_not_special (c : Char) (h : c.isDigit = true) :
    c ≠ '-' ∧ c ≠ '+' ∧ c ≠ '"' ∧ isSpace c = false := by
  have h1 : 48 ≤ c.toNat ∧ c.toNat ≤ 57 := by
    simp only [Char.isDigit, Bool.and_eq_true, decide_eq_true_eq] at h
    have ha : (48 : UInt32).toBitVec.toNat ≤ c.val.toBitVec.toNat :=
      BitVec.le_def.mp (UInt32.le_def.mp h.1)
    have hb : c.val.toBitVec.toNat ≤ (57 : UInt32).toBitVec.toNat :=
      BitVec.le_def.mp (UInt32.le_def.mp h.2)
    have h48 : (48 : UInt32).toBitVec.toNat = 48 := by decide
    have h57 : (57 : UInt32).toBitVec.toNat = 57 := by decide
    have hc : c.toNat = c.val.toBitVec.toNat := rfl
    omega
  refine ⟨?_, ?_, ?_, ?_⟩
  · rintro rfl; revert h1; decide
  · rintro rfl; revert h1; decide
  · rintro rfl; revert h1; decide
  · simp only [isSpace, Bool.or_eq_false_iff, Bool.and_eq_false_iff, decide_eq_false_iff_not,
      beq_eq_false_iff_ne, ne_eq]
    omega

/-- The integer `strconv.Atoi` reads from the decimal text of a Go integer is that
integer. -/
theorem Atoi_Itoa (n : Int) (h : isInt64 n) : Atoi (Itoa n) = some n := by
  by_cases hneg : n < 0
  · obtain ⟨hne, hdig, hval⟩ := toDigits_spec n.natAbs
    have hall : (Nat.toDigits 10 n.natAbs).all Char.isDigit = true :=
      List.all_eq_true.mpr hdig
    have hv : -((n.natAbs : Nat) : Int) = n := by omega
    simp only [Itoa, hneg, if_true, Atoi, List.head?_cons, true_or, List.tail_cons, hne,
      hall, not_true_eq_false, or_self, if_false, hval, hv, h]
  · obtain ⟨hne, hdig, hval⟩ := toDigits_spec n.toNat
    have hall : (Nat.toDigits 10 n.toNat).all Char.isDigit = true :=
      List.all_eq_true.mpr hdig
    have hv : ((n.toNat : Nat) : Int) = n := by omega
    obtain ⟨a, t, hat⟩ : ∃ a t, Nat.toDigits 10 n.toNat = a :: t := by
      cases hc : Nat.toDigits 10 n.toNat with
      | nil => exact absurd hc hne
      | cons a t => exact ⟨a, t, rfl⟩
    have ha := isDigit_not_special a (hdig a (by rw [hat]; exact List.mem_cons_self _ _))
    have h1 : ¬ (Nat.toDigits 10 n.toNat).head? = some '-' := by
      rw [hat]; simpa using ha.1
    have h2 : ¬ (Nat.toDigits 10 n.toNat).head? = some '+' := by
      rw [hat]; simpa using ha.2.1
    simp only [Itoa, hneg, if_false, Atoi, h1, h2, or_self, hne, hall, not_true_eq_false,
      hval, hv, h, if_true]

/-- Each field is written only under its own key. -/
theorem assignKey_fields (config : FrpsConfig) (key value : List Char) :
    (key ≠ "bindAddr".toList → (assignKey config key value).BindAddr = config.BindAddr)
    ∧ (key ≠ "bindPort".toList → (assignKey config key value).BindPort = config.BindPort)
    ∧ (key ≠ "auth.method".toList →
        (assignKey config key value).AuthMethod = config.AuthMethod)
    ∧ (key ≠ "auth.token".toList → (assignKey config key value).AuthToken = config.AuthToken)
    ∧ (key ≠ "webServer.addr".toList →
        (assignKey config key value).WebServerAddr = config.WebServerAddr)
    ∧ (key ≠ "webServer.port".toList →
        (assignKey config key value).WebServerPort = config.WebServerPort)
    ∧ (key ≠ "webServer.user".toList →
        (assignKey config key value).WebServerUser = config.WebServerUser)
    ∧ (key ≠ "webServer.password".toList →
        (assignKey config key value).WebServerPass = config.WebServerPass) := by
  unfold assignKey
  refine ⟨?_, ?_, ?_, ?_, ?_, ?_, ?_, ?_⟩ <;> intro hne <;> repeat' split
  all_goals first | rfl | contradiction

/-- A field that only the key `key` can write is not changed by a document on which `key`
does not occur. -/
theorem scanLoop_preserves {β : Type} (f : FrpsConfig → β) (key : List Char)
    (hf : ∀ (config : FrpsConfig) (k v : List Char), k ≠ key → f (assignKey config k v) = f config) :
    ∀ (doc : List (List Char)) (config : FrpsConfig),
      (∀ raw ∈ doc, ∀ v, keyValue raw ≠ some (key, v)) → f (scanLoop config doc).1 = f config := by
  intro doc
  induction doc with
  | nil => intro config _; rfl
  | cons raw rest ih =>
    intro config h
    by_cases hlong : maxScanTokenSize ≤ byteLen raw
    · simp only [scanLoop, hlong, if_true]
    · simp only [scanLoop, hlong, if_false]
      rw [ih (scanLine config raw) (fun r hr => h r (List.mem_cons_of_mem _ hr))]
      unfold scanLine
      cases hkv : keyValue raw with
      | none => rfl
      | some kv =>
        obtain ⟨k, v⟩ := kv
        have hk : k ≠ key := by
          rintro rfl
          exact h raw (List.mem_cons_self _ _) v hkv
        exact hf config k v hk

/-- C18: for every document, each recognized field whose key occurs on no key=value line
holds its default: bind address 0.0.0.0, bind port 7000, auth method token, empty token,
management address 127.0.0.1, port 7500, user admin, password admin; the empty document
parses to exactly these defaults, with no error. -/
theorem absent_keys_keep_defaults (doc : List (List Char)) :
    (∃ config, (ParseFrpsToml (some doc)).1 = some config
      ∧ (¬ keyOccurs "bindAddr".toList doc → config.BindAddr = "0.0.0.0".toList)
      ∧ (¬ keyOccurs "bindPort".toList doc → config.BindPort = 7000)
      ∧ (¬ keyOccurs "auth.method".toList doc → config.AuthMethod = "token".toList)
      ∧ (¬ keyOccurs "auth.token".toList doc → config.AuthToken = [])
      ∧ (¬ keyOccurs "webServer.addr".toList doc → config.WebServerAddr = "127.0.0.1".toList)
      ∧ (¬ keyOccurs "webServer.port".toList doc → config.WebServerPort = 7500)
      ∧ (¬ keyOccurs "webServer.user".toList doc → config.WebServerUser = "admin".toList)
      ∧ (¬ keyOccurs "webServer.password".toList doc →
          config.WebServerPass = "admin".toList))
    ∧ ParseFrpsToml (some [])
      = (some ⟨"0.0.0.0".toList, 7000, "token".toList, [], "127.0.0.1".toList, 7500,
          "admin".toList, "admin".toList⟩, none) := by
  have hno : ∀ key, ¬ keyOccurs key doc → ∀ raw ∈ doc, ∀ v, keyValue raw ≠ some (key, v) :=
    fun key h raw hr v hkv => h ⟨raw, hr, v, hkv⟩
  refine ⟨⟨(scanLoop defaultFrpsConfig doc).1, rfl, ?_, ?_, ?_, ?_, ?_, ?_, ?_, ?_⟩, rfl⟩
  · exact fun h => scanLoop_preserves (fun c => c.BindAddr) _
      (fun c k v hk => (assignKey_fields c k v).1 hk) doc _ (hno _ h)
  · exact fun h => scanLoop_preserves (fun c => c.BindPort) _
      (fun c k v hk => (assignKey_fields c k v).2.1 hk) doc _ (hno _ h)
  · exact fun h => scanLoop_preserves (fun c => c.AuthMethod) _
      (fun c k v hk => (assignKey_fields c k v).2.2.1 hk) doc _ (hno _ h)
  · exact fun h => scanLoop_preserves (fun c => c.AuthToken) _
      (fun c k v hk => (assignKey_fields c k v).2.2.2.1 hk) doc _ (hno _ h)
  · exact fun h => scanLoop_preserves (fun c => c.WebServerAddr) _
      (fun c k v hk => (assignKey_fields c k v).2.2.2.2.1 hk) doc _ (hno _ h)
  · exact fun h => scanLoop_preserves (fun c => c.WebServerPort) _
      (fun c k v hk => (assignKey_fields c k v).2.2.2.2.2.1 hk) doc _ (hno _ h)
  · exact fun h => scanLoop_preserves (fun c => c.WebServerUser) _
      (fun c k v hk => (assignKey_fields c k v).2.2.2.2.2.2.1 hk) doc _ (hno _ h)
  · exact fun h => scanLoop_preserves (fun c => c.WebServerPass) _
      (fun c k v hk => (assignKey_fields c k v).2.2.2.2.2.2.2 hk) doc _ (hno _ h)

/-- `Trim` leaves a text without characters of the cutset as it is. -/
theorem Trim_of_not_mem (s cutset : List Char) (h : ∀ c ∈ s, cutset.contains c = false) :
    Trim s cutset = s := by
  unfold Trim
  cases hs : s.getLast? with
  | none =>
    have : s = [] := List.getLast?_eq_none_iff.mp hs
    subst this
    rfl
  | some d =>
    cases hh : s.head? with
    | none =>
      have : s = [] := List.head?_eq_none_iff.mp hh
      subst this
      rfl
    | some c =>
      have hc : c ∈ s := List.mem_of_mem_head? hh
      have hd : d ∈ s := List.mem_of_mem_getLast? hs
      have := trim_core (fun x => cutset.contains x) [] s [] c d (by simp) (by simp) hh
        (h c hc) hs (h d hd)
      simpa using this

/-- `Trim` with the double quote as cutset takes the quotes off a quoted text that holds no
double quote. -/
theorem Trim_quoted (v : List Char) (h : '"' ∉ v) : Trim (quoted v) ['"'] = v := by
  have hp : ∀ c ∈ v, ['"'].contains c = false := by
    intro c hc
    have : c ≠ '"' := fun e => h (e ▸ hc)
    simp [this]
  have hv := Trim_of_not_mem v ['"'] hp
  unfold Trim at hv ⊢
  unfold quoted
  have e : '"' :: v ++ ['"'] = ('"' :: v) ++ ['"'] := by simp
  rw [e, List.rdropWhile_concat_pos _ _ _ (by decide)]
  cases hl : v.getLast? with
  | none =>
    have : v = [] := List.getLast?_eq_none_iff.mp hl
    subst this
    decide
  | some d =>
    have hd : d ∈ v := List.mem_of_mem_getLast? hl
    have hdq : d ≠ '"' := fun e => h (e ▸ hd)
    have hvd : v = v.dropLast ++ [d] := (List.dropLast_append_getLast? d hl).symm
    have e2 : '"' :: v = ('"' :: v.dropLast) ++ [d] := by
      conv_lhs => rw [hvd]
      simp
    have hrd : v.rdropWhile (fun c => ['"'].contains c) = v := by
      conv_lhs => rw [hvd]
      rw [List.rdropWhile_concat_neg _ _ _ (by simp [hdq])]
      exact hvd.symm
    rw [e2, List.rdropWhile_concat_neg _ _ _ (by simp [hdq]), ← e2,
      List.dropWhile_cons_of_pos (by decide)]
    rw [hrd] at hv
    exact hv

/-- What the loop body reads on a raw line `key = text`: the key and the text without the
double quotes at its ends, whatever white space surrounds the key, the equals sign and the
text. -/
theorem keyValue_keyValueLine (w1 key w2 w3 text w4 : List Char) (a b c d : Char)
    (hw1 : ∀ x ∈ w1, isSpace x = true) (hw2 : ∀ x ∈ w2, isSpace x = true)
    (hw3 : ∀ x ∈ w3, isSpace x = true) (hw4 : ∀ x ∈ w4, isSpace x = true)
    (ha : key.head? = some a) (ha1 : isSpace a = false) (ha2 : a ≠ '#')
    (hb : key.getLast? = some b) (hb1 : isSpace b = false) (heq : '=' ∉ key)
    (hc : text.head? = some c) (hc1 : isSpace c = false)
    (hd : text.getLast? = some d) (hd1 : isSpace d = false) :
    keyValue (keyValueLine w1 key w2 w3 text w4) = some (key, Trim text ['"']) := by
  have hcore : keyValueLine w1 key w2 w3 text w4
      = w1 ++ (key ++ w2 ++ '=' :: w3 ++ text) ++ w4 := by
    simp [keyValueLine]
  have hhead : (key ++ w2 ++ '=' :: w3 ++ text).head? = some a := by
    cases key with
    | nil => simp at ha
    | cons k ks => simpa using ha
  have hlast : (key ++ w2 ++ '=' :: w3 ++ text).getLast? = some d := by
    rw [List.getLast?_append, hd]
    rfl
  have hline : TrimSpace (keyValueLine w1 key w2 w3 text w4)
      = key ++ w2 ++ '=' :: w3 ++ text := by
    rw [hcore]
    exact trim_core isSpace w1 _ w4 a d hw1 hw4 hhead ha1 hlast hd1
  have hne : key ++ w2 ++ '=' :: w3 ++ text ≠ [] := by
    intro e
    rw [e] at hhead
    simp at hhead
  have hstart : HasPrefix (key ++ w2 ++ '=' :: w3 ++ text) ['#'] = false := by
    cases key with
    | nil => simp at ha
    | cons k ks =>
      simp only [List.head?_cons, Option.some.injEq] at ha
      subst ha
      simp [HasPrefix, List.isPrefixOf, Ne.symm ha2]
  have hnotin : '=' ∉ key ++ w2 := by
    intro hm
    rcases List.mem_append.mp hm with hm | hm
    · exact heq hm
    · have := hw2 _ hm
      revert this
      decide
  have hsplit : SplitN (key ++ w2 ++ '=' :: w3 ++ text) '=' = [key ++ w2, w3 ++ text] := by
    have e : key ++ w2 ++ '=' :: w3 ++ text = (key ++ w2) ++ '=' :: (w3 ++ text) := by simp
    rw [e]
    simp only [SplitN, cutAtFirst_append '=' _ _ hnotin]
  have hk : TrimSpace (key ++ w2) = key := by
    have := trim_core isSpace [] key w2 a b (by simp) hw2 ha ha1 hb hb1
    simpa [TrimSpace] using this
  have hv : TrimSpace (w3 ++ text) = text := by
    have := trim_core isSpace w3 text [] c d hw3 (by simp) hc hc1 hd hd1
    simpa [TrimSpace] using this
  unfold keyValue
  rw [TrimSpace_dropCR, hline]
  simp only [hne, hstart, Bool.false_eq_true, or_self, if_false, hsplit, hk, hv]

/-- The shape of the recognized keys: they start and end with a character that is not white
space, do not start with `#` and hold no `=`. -/
theorem recognizedKeys_shape (key : List Char) (h : key ∈ recognizedKeys) :
    ∃ a b, key.head? = some a ∧ isSpace a = false ∧ a ≠ '#'
      ∧ key.getLast? = some b ∧ isSpace b = false ∧ '=' ∉ key := by
  simp only [recognizedKeys, List.mem_cons, List.mem_singleton, List.not_mem_nil,
    or_false] at h
  rcases h with rfl | rfl | rfl | rfl | rfl | rfl | rfl | rfl
  · exact ⟨'b', 'r', by decide⟩
  · exact ⟨'b', 't', by decide⟩
  · exact ⟨'a', 'd', by decide⟩
  · exact ⟨'a', 'n', by decide⟩
  · exact ⟨'w', 'r', by decide⟩
  · exact ⟨'w', 't', by decide⟩
  · exact ⟨'w', 'r', by decide⟩
  · exact ⟨'w', 'd', by decide⟩

/-- A line for a string key stores its value in the field of the key. -/
theorem assignKey_stringField_self (config : FrpsConfig) (key value : List Char)
    (h : key ∈ stringKeys) : (assignKey config key value).stringField key = some value := by
  simp only [stringKeys, List.mem_cons, List.mem_singleton, List.not_mem_nil, or_false] at h
  rcases h with rfl | rfl | rfl | rfl | rfl | rfl <;> rfl

/-- A line for an integer key whose value converts stores the integer in the field of the
key. -/
theorem assignKey_intField_self (config : FrpsConfig) (key value : List Char) (n : Int)
    (h : key ∈ intKeys) (hn : Atoi value = some n) :
    (assignKey config key value).intField key = some n := by
  simp only [intKeys, List.mem_cons, List.mem_singleton, List.not_mem_nil, or_false] at h
  rcases h with rfl | rfl
  · have e : assignKey config "bindPort".toList value = { config with BindPort := n } := by
      unfold assignKey
      rw [if_neg (by decide), if_pos rfl, hn]
    rw [e]
    rfl
  · have e : assignKey config "webServer.port".toList value
        = { config with WebServerPort := n } := by
      unfold assignKey
      rw [if_neg (by decide), if_neg (by decide), if_neg (by decide), if_neg (by decide),
        if_neg (by decide), if_pos rfl, hn]
    rw [e]
    rfl

/-- A line for another key leaves the string field of a key as it is. -/
theorem assignKey_stringField_other (key : List Char) (config : FrpsConfig)
    (k v : List Char) (h : k ≠ key) :
    (assignKey config k v).stringField key = config.stringField key := by
  have hf := assignKey_fields config k v
  unfold FrpsConfig.stringField
  repeat' split
  · subst_vars; rw [hf.1 h]
  · subst_vars; rw [hf.2.2.1 h]
  · subst_vars; rw [hf.2.2.2.1 h]
  · subst_vars; rw [hf.2.2.2.2.1 h]
  · subst_vars; rw [hf.2.2.2.2.2.2.1 h]
  · subst_vars; rw [hf.2.2.2.2.2.2.2 h]
  · rfl

/-- A line for another key leaves the integer field of a key as it is. -/
theorem assignKey_intField_other (key : List Char) (config : FrpsConfig)
    (k v : List Char) (h : k ≠ key) :
    (assignKey config k v).intField key = config.intField key := by
  have hf := assignKey_fields config k v
  unfold FrpsConfig.intField
  repeat' split
  · subst_vars; rw [hf.2.1 h]
  · subst_vars; rw [hf.2.2.2.2.2.1 h]
  · rfl

/-- The decimal text of an integer starts and ends with a character that is not white space
and holds no double quote. -/
theorem Itoa_shape (n : Int) :
    ∃ c d, (Itoa n).head? = some c ∧ isSpace c = false
      ∧ (Itoa n).getLast? = some d ∧ isSpace d = false
      ∧ ∀ x ∈ Itoa n, ['"'].contains x = false := by
  have hchars : ∀ x ∈ Itoa n, x ≠ '"' ∧ isSpace x = false := by
    intro x hx
    unfold Itoa at hx
    by_cases hneg : n < 0
    · simp only [hneg, if_true, List.mem_cons] at hx
      rcases hx with rfl | hx
      · decide
      · have := isDigit_not_special x ((toDigits_spec n.natAbs).2.1 x hx)
        exact ⟨this.2.2.1, this.2.2.2⟩
    · simp only [hneg, if_false] at hx
      have := isDigit_not_special x ((toDigits_spec n.toNat).2.1 x hx)
      exact ⟨this.2.2.1, this.2.2.2⟩
  have hne : Itoa n ≠ [] := by
    unfold Itoa
    by_cases hneg : n < 0
    · simp [hneg]
    · simp only [hneg, if_false]
      exact (toDigits_spec n.toNat).1
  cases hh : (Itoa n).head? with
  | none => exact absurd (List.head?_eq_none_iff.mp hh) hne
  | some c =>
    cases hl : (Itoa n).getLast? with
    | none => exact absurd (List.getLast?_eq_none_iff.mp hl) hne
    | some d =>
      refine ⟨c, d, rfl, (hchars c (List.mem_of_mem_head? hh)).2, rfl,
        (hchars d (List.mem_of_mem_getLast? hl)).2, fun x hx => ?_⟩
      simp [(hchars x hx).1]

/-- After a document with a line for `key`, the field of `key` holds what that line stores
when no later line is for `key` and every line fits the scanner's buffer. -/
theorem scanLoop_line {β : Type} (f : FrpsConfig → β) (key : List Char)
    (hf : ∀ (config : FrpsConfig) (k v : List Char), k ≠ key → f (assignKey config k v) = f config)
    (pre post : List (List Char)) (line value : List Char) (result : β)
    (hline : keyValue line = some (key, value))
    (hset : ∀ config, f (assignKey config key value) = result)
    (hshort : ∀ raw ∈ pre ++ line :: post, byteLen raw < maxScanTokenSize)
    (hothers : ∀ raw ∈ pre ++ post, ∀ x, keyValue raw ≠ some (key, x)) :
    f (scanLoop defaultFrpsConfig (pre ++ line :: post)).1 = result := by
  have hpre : (scanLoop defaultFrpsConfig pre).2 = none :=
    (scanLoop_error pre defaultFrpsConfig).1.mpr
      (fun r hr => hshort r (List.mem_append_left _ hr))
  have hl : ¬ maxScanTokenSize ≤ byteLen line := by
    have := hshort line (List.mem_append_right _ (List.mem_cons_self _ _))
    omega
  rw [scanLoop_append, if_pos hpre]
  simp only [scanLoop, hl, if_false]
  rw [scanLoop_preserves f key hf post _
    (fun r hr => hothers r (List.mem_append_right _ hr))]
  unfold scanLine
  rw [hline]
  exact hset _

/-- On a document all of whose lines are skipped no key occurs. -/
theorem no_key_of_all_skipped (doc : List (List Char)) (h : ∀ raw ∈ doc, keyValue raw = none)
    (key : List Char) : ∀ raw ∈ doc, ∀ x, keyValue raw ≠ some (key, x) := by
  intro raw hr x hx
  rw [h raw hr] at hx
  cases hx

/-- C21, as stated, fails: the only line of the document is `auth.token = "v"` with v made of
65536 letters `a` (no double quote, no newline, no white space); the line does not fit the
scanner's buffer and the token stays empty. -/
theorem long_value_is_not_read :
    '"' ∉ List.replicate 65536 'a'
    ∧ (∀ c ∈ List.replicate 65536 'a', isSpace c = false ∧ c ≠ '\n')
    ∧ (ParseFrpsToml (some [keyValueLine [] "auth.token".toList [' '] [' ']
          (quoted (List.replicate 65536 'a')) []])).1 = some defaultFrpsConfig
    ∧ defaultFrpsConfig.stringField "auth.token".toList ≠ some (List.replicate 65536 'a') := by
  have hmem : ∀ c ∈ List.replicate 65536 'a', c = 'a' := fun c hc => (List.mem_replicate.mp hc).2
  have hlong : maxScanTokenSize ≤ byteLen (keyValueLine [] "auth.token".toList [' '] [' ']
      (quoted (List.replicate 65536 'a')) []) := by
    simp only [keyValueLine, quoted, List.nil_append, List.append_nil, byteLen_append,
      byteLen_cons, byteLen_replicate, maxScanTokenSize]
    have : 'a'.utf8Size = 1 := by decide
    omega
  refine ⟨fun h => ?_, fun c hc => ?_, ?_, ?_⟩
  · exact absurd (hmem _ h) (by decide)
  · rw [hmem c hc]
    decide
  · simp only [ParseFrpsToml, scanLoop, hlong, if_true]
  · intro h
    have e : defaultFrpsConfig.stringField "auth.token".toList = some [] := by decide
    rw [e] at h
    have h2 := congrArg List.length (Option.some.inj h)
    rw [List.length_replicate, List.length_nil] at h2
    exact absurd h2 (by decide)

/-- C21, amended: in a document whose raw lines are all shorter than 65536 bytes and whose
only line for a recognized key is `key = "v"` (with any white space before the key, around
the equals sign and after the value), v holding no double quote, the string field of the key
is v, also when v holds `=` or `#`; and when the only line for `bindPort` or
`webServer.port` is `key = n` with n the decimal text of a Go integer, the integer field of
the key is n. -/
theorem recognized_line_sets_field (pre post : List (List Char)) (key w1 w2 w3 w4 : List Char)
    (hw1 : ∀ x ∈ w1, isSpace x = true) (hw2 : ∀ x ∈ w2, isSpace x = true)
    (hw3 : ∀ x ∈ w3, isSpace x = true) (hw4 : ∀ x ∈ w4, isSpace x = true)
    (hothers : ∀ raw ∈ pre ++ post, ∀ x, keyValue raw ≠ some (key, x)) :
    (key ∈ stringKeys → ∀ v : List Char, '"' ∉ v →
      (∀ raw ∈ pre ++ keyValueLine w1 key w2 w3 (quoted v) w4 :: post,
        byteLen raw < maxScanTokenSize) →
      ∃ config,
        ParseFrpsToml (some (pre ++ keyValueLine w1 key w2 w3 (quoted v) w4 :: post))
          = (some config, none)
        ∧ config.stringField key = some v)
    ∧ (key ∈ intKeys → ∀ n : Int, isInt64 n →
      (∀ raw ∈ pre ++ keyValueLine w1 key w2 w3 (Itoa n) w4 :: post,
        byteLen raw < maxScanTokenSize) →
      ∃ config,
        ParseFrpsToml (some (pre ++ keyValueLine w1 key w2 w3 (Itoa n) w4 :: post))
          = (some config, none)
        ∧ config.intField key = some n) := by
  constructor
  · intro hkey v hv hshort
    have hrec : key ∈ recognizedKeys := by
      simp only [stringKeys, List.mem_cons, List.mem_singleton, List.not_mem_nil,
        or_false] at hkey
      rcases hkey with rfl | rfl | rfl | rfl | rfl | rfl <;> decide
    obtain ⟨a, b, ha, ha1, ha2, hb, hb1, heq⟩ := recognizedKeys_shape key hrec
    have hq1 : (quoted v).head? = some '"' := rfl
    have hq2 : (quoted v).getLast? = some '"' := by
      show (('"' :: v) ++ ['"']).getLast? = some '"'
      rw [List.getLast?_append]
      rfl
    have hline := keyValue_keyValueLine w1 key w2 w3 (quoted v) w4 a b '"' '"' hw1 hw2 hw3 hw4
      ha ha1 ha2 hb hb1 heq hq1 (by decide) hq2 (by decide)
    rw [Trim_quoted v hv] at hline
    refine ⟨(scanLoop defaultFrpsConfig
      (pre ++ keyValueLine w1 key w2 w3 (quoted v) w4 :: post)).1, ?_, ?_⟩
    · simp only [ParseFrpsToml, (scanLoop_error _ defaultFrpsConfig).1.mpr hshort]
    · exact scanLoop_line (fun c => c.stringField key) key
        (assignKey_stringField_other key) pre post _ v (some v) hline
        (fun c => assignKey_stringField_self c key v hkey) hshort hothers
  · intro hkey n hn hshort
    have hrec : key ∈ recognizedKeys := by
      simp only [intKeys, List.mem_cons, List.mem_singleton, List.not_mem_nil,
        or_false] at hkey
      rcases hkey with rfl | rfl <;> decide
    obtain ⟨a, b, ha, ha1, ha2, hb, hb1, heq⟩ := recognizedKeys_shape key hrec
    obtain ⟨c, d, hc, hc1, hd, hd1, hnq⟩ := Itoa_shape n
    have hline := keyValue_keyValueLine w1 key w2 w3 (Itoa n) w4 a b c d hw1 hw2 hw3 hw4
      ha ha1 ha2 hb hb1 heq hc hc1 hd hd1
    rw [Trim_of_not_mem (Itoa n) ['"'] hnq] at hline
    refine ⟨(scanLoop defaultFrpsConfig
      (pre ++ keyValueLine w1 key w2 w3 (Itoa n) w4 :: post)).1, ?_, ?_⟩
    · simp only [ParseFrpsToml, (scanLoop_error _ defaultFrpsConfig).1.mpr hshort]
    · exact scanLoop_line (fun c => c.intField key) key
        (assignKey_intField_other key) pre post _ (Itoa n) (some n) hline
        (fun c => assignKey_intField_self c key (Itoa n) n hkey (Atoi_Itoa n hn))
        hshort hothers

/-- Witness of C21 amended: between a comment and a table header, the token line holds `=` and
`#` inside the quotes; in the second document the port line ends with a carriage return. -/
theorem recognized_line_sets_field_witness :
    (∃ config,
        ParseFrpsToml (some (["# frps".toList] ++ keyValueLine [' ', ' '] "auth.token".toList
            [' '] ['\t'] (quoted "s=e#cret".toList) [' '] :: ["[webServer]".toList]))
          = (some config, none)
        ∧ config.stringField "auth.token".toList = some "s=e#cret".toList)
    ∧ (∃ config,
        ParseFrpsToml (some (["# frps".toList] ++ keyValueLine [] "bindPort".toList
            [' '] [' '] (Itoa 7001) ['\r'] :: ["[webServer]".toList]))
          = (some config, none)
        ∧ config.intField "bindPort".toList = some 7001) :=
  ⟨(recognized_line_sets_field ["# frps".toList] ["[webServer]".toList] "auth.token".toList
      [' ', ' '] [' '] ['\t'] [' '] (by decide) (by decide) (by decide) (by decide)
      (no_key_of_all_skipped _ (by decide) _)).1 (by decide) "s=e#cret".toList (by decide)
      (by decide),
    (recognized_line_sets_field ["# frps".toList] ["[webServer]".toList] "bindPort".toList
      [] [' '] [' '] ['\r'] (by decide) (by decide) (by decide) (by decide)
      (no_key_of_all_skipped _ (by decide) _)).2 (by decide) 7001 (by decide) (by decide)⟩

/-! ## The sweep and the lock checks -/

/-- The sweep keeps the record of a key or deletes it; it never alters one. -/
theorem cleanup_attempts (l : LoginRateLimiter) (now : Time) (ip : String) :
    (cleanup l now).attempts ip = l.attempts ip
    ∨ ((cleanup l now).attempts ip = none
      ∧ ∃ info, l.attempts ip = some info ∧ info.lockUntil < now
        ∧ Time.Sub now info.firstTime > l.lockDuration * 2) := by
  have e : (cleanup l now).attempts ip = (match l.attempts ip with
      | none => none
      | some info =>
        if Time.After now info.lockUntil
            && decide (Time.Sub now info.firstTime > l.lockDuration * 2)
        then none else some info) := rfl
  rw [e]
  cases l.attempts ip with
  | none => exact Or.inl rfl
  | some info =>
    by_cases hc : (Time.After now info.lockUntil
        && decide (Time.Sub now info.firstTime > l.lockDuration * 2)) = true
    · right
      have hc2 := hc
      simp only [Bool.and_eq_true, decide_eq_true_eq, Time.After] at hc2
      exact ⟨if_pos hc, info, rfl, hc2.1, hc2.2⟩
    · left
      exact if_neg hc

/-- C30: for every limiter state, instant and key, the lock check at that instant (whatever
its second reading of the clock) answers the same (flag and remaining time) after the sweep
has run at that instant as before it; the sweep deletes no record whose lock is in force at
that instant, every record found after the sweep is the record that was there before it, and
the configuration is the same. -/
theorem sweep_invisible_to_lock_checks (l : LoginRateLimiter) (now : Time) (ip : String)
    (later : Time) :
    IsBlocked (cleanup l now) ip now later = IsBlocked l ip now later
    ∧ (∀ info, l.attempts ip = some info → Time.Before now info.lockUntil = true →
        (cleanup l now).attempts ip = some info)
    ∧ (∀ info, (cleanup l now).attempts ip = some info → l.attempts ip = some info)
    ∧ (cleanup l now).maxAttempts = l.maxAttempts
    ∧ (cleanup l now).lockDuration = l.lockDuration
    ∧ (cleanup l now).cleanInterval = l.cleanInterval := by
  refine ⟨?_, ?_, ?_, rfl, rfl, rfl⟩
  · rcases cleanup_attempts l now ip with h | ⟨h, info, hi, hafter, _⟩
    · simp only [IsBlocked, h]
    · have hnb : Time.Before now info.lockUntil = false :=
        decide_eq_false (Nat.lt_asymm hafter)
      simp only [IsBlocked, h, hi, hnb]
      rfl
  · intro info hi hb
    rcases cleanup_attempts l now ip with h | ⟨_, info2, hi2, hafter, _⟩
    · rw [h, hi]
    · rw [hi] at hi2
      cases hi2
      exact absurd (of_decide_eq_true hb) (Nat.lt_asymm hafter)
  · intro info hi
    rcases cleanup_attempts l now ip with h | ⟨h, _⟩
    · rw [← h, hi]
    · rw [h] at hi
      cases hi

/-- Witness of C30: a record locked until instant 500 is kept by the sweep at instant 400,
and the lock check, whose second reading is 440, gives 60 remaining before and after. -/
theorem sweep_invisible_to_lock_checks_witness :
    IsBlocked (cleanup (GetLoginRateLimiter.store "k" ⟨5, 0, 500⟩) 400) "k" 400 440
      = (true, 60)
    ∧ (cleanup (GetLoginRateLimiter.store "k" ⟨5, 0, 500⟩) 400).attempts "k"
        = some ⟨5, 0, 500⟩ :=
  ⟨(sweep_invisible_to_lock_checks (GetLoginRateLimiter.store "k" ⟨5, 0, 500⟩) 400 "k"
      440).1.trans (by decide),
    (sweep_invisible_to_lock_checks (GetLoginRateLimiter.store "k" ⟨5, 0, 500⟩) 400 "k"
      440).2.1 ⟨5, 0, 500⟩ (by decide) (by decide)⟩

/-! ## Properties of the statistics client -/

/-- The loop of `GetAllProxies` over any list of types, from any accumulated list: the
lists of the types whose query succeeded are appended in order. -/
theorem getAll_foldl (q : String → Except String ProxiesResponse) (types : List String) :
    ∀ acc : List ProxyInfo,
      types.foldl
        (fun allProxies t =>
          match q t with
          | Except.error _ => allProxies
          | Except.ok resp => allProxies ++ resp.Proxies) acc
      = acc ++ ((types.filterMap (fun t => (q t).toOption)).map
          (fun resp => resp.Proxies)).flatten := by
  induction types with
  | nil => intro acc; simp
  | cons t ts ih =>
    intro acc
    rw [List.foldl_cons, ih]
    cases h : q t with
    | error e => simp [List.filterMap_cons, h, Except.toOption]
    | ok resp => simp [List.filterMap_cons, h, Except.toOption]

/-- C26: whatever the outcomes of the eight per-type queries, `GetAllProxies` returns no
error, and its list is the concatenation, in the order tcp, udp, http, https, stcp, sudp,
xtcp, tcpmux, of the lists of the types whose query succeeded; and the result is the same as
when every failed query had succeeded with an empty list. -/
theorem GetAllProxies_concatenates (q : String → Except String ProxiesResponse) :
    (DashboardClient.GetAllProxies q).2 = none
    ∧ (DashboardClient.GetAllProxies q).1
      = (((["tcp", "udp", "http", "https", "stcp", "sudp", "xtcp", "tcpmux"].filterMap
          (fun t => (q t).toOption)).map (fun resp => resp.Proxies)).flatten)
    ∧ DashboardClient.GetAllProxies q
      = DashboardClient.GetAllProxies
          (fun t => match q t with
            | Except.error _ => Except.ok ⟨[]⟩
            | Except.ok resp => Except.ok resp) := by
  have h1 : ∀ q : String → Except String ProxiesResponse,
      (DashboardClient.GetAllProxies q).1
      = (((proxyTypes.filterMap (fun t => (q t).toOption)).map
          (fun resp => resp.Proxies)).flatten) := by
    intro q
    simp only [DashboardClient.GetAllProxies]
    rw [getAll_foldl, List.nil_append]
  refine ⟨rfl, h1 q, ?_⟩
  have key : ∀ f g : String → Option ProxiesResponse,
      (∀ t, f t = g t ∨ (f t = none ∧ g t = some ⟨[]⟩)) → ∀ types : List String,
      ((types.filterMap f).map (fun resp => resp.Proxies)).flatten
      = ((types.filterMap g).map (fun resp => resp.Proxies)).flatten := by
    intro f g hfg types
    induction types with
    | nil => rfl
    | cons t ts ih =>
      rcases hfg t with h | ⟨h3, h4⟩
      · cases hg : g t with
        | none => simp [List.filterMap_cons, h, hg, ih]
        | some r => simp [List.filterMap_cons, h, hg, ih]
      · simp [List.filterMap_cons, h3, h4, ih]
  have h2 := key (fun t => (q t).toOption)
    (fun t => (match q t with
      | Except.error _ => (Except.ok ⟨[]⟩ : Except String ProxiesResponse)
      | Except.ok resp => Except.ok resp).toOption)
    (by
      intro t
      show (q t).toOption = (match q t with
          | Except.error _ => (Except.ok ⟨[]⟩ : Except String ProxiesResponse)
          | Except.ok resp => Except.ok resp).toOption
        ∨ ((q t).toOption = none ∧ (match q t with
          | Except.error _ => (Except.ok ⟨[]⟩ : Except String ProxiesResponse)
          | Except.ok resp => Except.ok resp).toOption = some (ProxiesResponse.mk []))
      cases q t with
      | error e => exact Or.inr ⟨rfl, rfl⟩
      | ok resp => exact Or.inl rfl)
  have e : ∀ a b : List ProxyInfo × Option String, a.1 = b.1 → a.2 = b.2 → a = b := by
    intro a b h3 h4
    cases a
    cases b
    simp only at h3 h4
    rw [h3, h4]
  apply e
  · rw [h1, h1]
    exact h2 proxyTypes
  · rfl

/-! ## Properties of the pool statistics -/

/-- Length of a range of ports. -/
theorem portRange_length (portStart portEnd : Int) :
    (portRange portStart portEnd).length = (portEnd - portStart + 1).toNat := by
  simp [portRange]

/-- When the ports in use are pairwise distinct and all lie in the range, the free ports of
the range are the ports of the range less the ports in use. -/
theorem freePortCount_eq (portStart portEnd : Int) (usedPorts : List Int)
    (hnd : usedPorts.Nodup) (hin : ∀ p ∈ usedPorts, portStart ≤ p ∧ p ≤ portEnd) :
    freePortCount portStart portEnd usedPorts + usedPorts.length
      = (portEnd - portStart + 1).toNat := by
  have hR : (portRange portStart portEnd).Nodup :=
    (portRange_pairwise portStart portEnd).imp (fun h => ne_of_lt h)
  have hsplit := List.length_eq_length_filter_add (l := portRange portStart portEnd)
    (fun p => usedPorts.contains p)
  have hperm : ((portRange portStart portEnd).filter (fun p => usedPorts.contains p)).Perm
      usedPorts := by
    rw [List.perm_ext_iff_of_nodup (hR.filter _) hnd]
    intro a
    rw [List.mem_filter, mem_portRange]
    constructor
    · intro h
      simpa using h.2
    · intro h
      exact ⟨hin a h, by simpa using h⟩
  rw [portRange_length, hperm.length_eq] at hsplit
  have e : freePortCount portStart portEnd usedPorts
      = ((portRange portStart portEnd).filter
          (fun x => !(fun p => usedPorts.contains p) x)).length := rfl
  rw [e, hsplit]
  exact Nat.add_comm _ _

/-- C29 fails on the code.  Data-plane pool 10000..10002 with a tcp and a udp proxy on port
10000: the answer lists the free ports 10001 and 10002 and reports `total_available` 1.
Admin pool 17000..17000 with two management-enabled clients on the ports 18000 and 18001,
outside the pool: `total_available` is -1, while the port of the pool is free and is the one
`allocateAdminPort` hands out. -/
theorem total_available_disagrees_with_free_ports :
    getAvailablePortsHandler 10000 10002
        [⟨1, 1, "web", "tcp", 10000⟩, ⟨2, 1, "dns", "udp", 10000⟩]
      = some ⟨[10001, 10002], [10000, 10000], 10000, 10002, 2, 1⟩
    ∧ freePortCount 10000 10002
        (usedProxyPorts [⟨1, 1, "web", "tcp", 10000⟩, ⟨2, 1, "dns", "udp", 10000⟩]) = 2
    ∧ getAdminPortPoolHandler 17000 17000
        [⟨1, "a", "a", "", true, 7400, "admin", "x", 18000⟩,
          ⟨2, "b", "b", "", true, 7400, "admin", "y", 18001⟩]
      = ⟨17000, 17000, 2, -1, [18000, 18001]⟩
    ∧ freePortCount 17000 17000
        (adminPortUsages [⟨1, "a", "a", "", true, 7400, "admin", "x", 18000⟩,
          ⟨2, "b", "b", "", true, 7400, "admin", "y", 18001⟩]) = 1
    ∧ allocateAdminPort 17000 17000
        [⟨1, "a", "a", "", true, 7400, "admin", "x", 18000⟩,
          ⟨2, "b", "b", "", true, 7400, "admin", "y", 18001⟩] 0 = some 17000 := by
  decide

/-- Where the pool statistics are right: for Go integers `portStart ≤ portEnd + 1` with
`portEnd` below 2^63-1 and a range whose size fits an `int`, when the in-use ports of a query
are pairwise distinct and all lie in the range, the query answers with `total_used` the
number of in-use ports and `total_available` the number of ports of the range that are not
in use, which is the size of the range minus `total_used` and is not negative; this holds
for the data-plane pool query and for the admin pool query. -/
theorem total_available_counts_free_ports (portStart portEnd : Int) (proxies : List Proxy)
    (clients : List FrpcConfig)
    (hs : isInt64 portStart) (hmax : portEnd < maxInt64)
    (hle : portStart ≤ portEnd + 1) (hsize : portEnd - portStart < maxInt64) :
    ((usedProxyPorts proxies).Nodup →
      (∀ p ∈ usedProxyPorts proxies, portStart ≤ p ∧ p ≤ portEnd) →
      ∃ resp, getAvailablePortsHandler portStart portEnd proxies = some resp
        ∧ resp.total_used = ((usedProxyPorts proxies).length : Int)
        ∧ resp.total_available
            = (freePortCount portStart portEnd (usedProxyPorts proxies) : Int)
        ∧ resp.total_available = (portEnd - portStart + 1) - resp.total_used
        ∧ 0 ≤ resp.total_available)
    ∧ ((adminPortUsages clients).Nodup →
        (∀ p ∈ adminPortUsages clients, portStart ≤ p ∧ p ≤ portEnd) →
        (getAdminPortPoolHandler portStart portEnd clients).total_used
          = ((adminPortUsages clients).length : Int)
        ∧ (getAdminPortPoolHandler portStart portEnd clients).total_available
          = (freePortCount portStart portEnd (adminPortUsages clients) : Int)
        ∧ (getAdminPortPoolHandler portStart portEnd clients).total_available
          = (portEnd - portStart + 1)
            - (getAdminPortPoolHandler portStart portEnd clients).total_used
        ∧ 0 ≤ (getAdminPortPoolHandler portStart portEnd clients).total_available) := by
  have hwrap : ∀ n : Nat, (n : Int) ≤ portEnd - portStart + 1 →
      wrapInt64 (wrapInt64 (wrapInt64 (portEnd - portStart) + 1) - (n : Int))
        = (portEnd - portStart + 1) - (n : Int) := by
    intro n hn
    unfold maxInt64 at hsize
    have h1 : wrapInt64 (portEnd - portStart) = portEnd - portStart := by
      unfold wrapInt64
      omega
    have h2 : wrapInt64 (portEnd - portStart + 1) = portEnd - portStart + 1 := by
      unfold wrapInt64
      omega
    rw [h1, h2]
    unfold wrapInt64
    omega
  have hcount : ∀ used : List Int, used.Nodup →
      (∀ p ∈ used, portStart ≤ p ∧ p ≤ portEnd) →
      (portEnd - portStart + 1) - (used.length : Int)
        = (freePortCount portStart portEnd used : Int)
      ∧ (used.length : Int) ≤ portEnd - portStart + 1 := by
    intro used hnd hin
    have h := freePortCount_eq portStart portEnd used hnd hin
    omega
  constructor
  · intro hnd hin
    have hloop := availableLoop_spec (usedProxyPorts proxies) portEnd hmax
      ((portEnd - portStart + 1).toNat + 101) portStart [] hs.1 (by simp) (by omega)
    obtain ⟨hc1, hc2⟩ := hcount _ hnd hin
    have hresp : getAvailablePortsHandler portStart portEnd proxies
        = some
          { ports := [] ++ ((portRange portStart portEnd).filter
              (fun p => !((usedProxyPorts proxies).contains p))).take (100 - ([] : List Int).length),
            used_ports := usedProxyPorts proxies,
            pool_start := portStart, pool_end := portEnd,
            total_used := ((usedProxyPorts proxies).length : Int),
            total_available :=
              wrapInt64 (wrapInt64 (wrapInt64 (portEnd - portStart) + 1)
                - ((usedProxyPorts proxies).length : Int)) } := by
      simp only [getAvailablePortsHandler, hloop]
    refine ⟨_, hresp, rfl, ?_, ?_, ?_⟩
    · show wrapInt64 _ = _
      rw [hwrap _ hc2, hc1]
    · show wrapInt64 _ = _
      rw [hwrap _ hc2]
    · show 0 ≤ wrapInt64 _
      rw [hwrap _ hc2]
      omega
  · intro hnd hin
    obtain ⟨hc1, hc2⟩ := hcount _ hnd hin
    refine ⟨rfl, ?_, ?_, ?_⟩
    · show wrapInt64 _ = _
      rw [hwrap _ hc2, hc1]
    · show wrapInt64 _ = _
      rw [hwrap _ hc2]
      rfl
    · show 0 ≤ wrapInt64 _
      rw [hwrap _ hc2]
      omega

/-! ## Properties of the process lifecycle -/

/-- A call of `Start` keeps the running flag paired with a started command. -/
theorem Start_tracked (m : ProcessManager) (env : StartEnv)
    (h : m.running = true → ∃ pid, m.cmd = some ⟨some pid⟩) :
    (m.Start env).1.running = true → ∃ pid, (m.Start env).1.cmd = some ⟨some pid⟩ := by
  unfold ProcessManager.Start
  by_cases hr : m.running = true
  · rw [if_pos hr]
    exact h
  · rw [if_neg hr]
    have hr2 : m.running = false := by simpa using hr
    by_cases hc : env.configNotExist = true
    · rw [if_pos hc]
      exact h
    · rw [if_neg hc]
      by_cases h1 : env.stdoutPipeFails = true
      · simp only [h1, if_true]
        intro hrun
        rw [hr2] at hrun
        cases hrun
      · by_cases h2 : env.stderrPipeFails = true
        · simp only [h1, h2, if_true, if_false]
          intro hrun
          rw [hr2] at hrun
          cases hrun
        · cases hs : env.spawn with
          | none =>
            simp only [h1, h2, if_false]
            intro hrun
            rw [hr2] at hrun
            cases hrun
          | some pid =>
            simp only [h1, h2, if_false]
            intro _
            exact ⟨pid, rfl⟩

/-- A call of `Stop` leaves the running flag false. -/
theorem Stop_running (m : ProcessManager) (signalFails : Bool)
    (h : m.running = true → ∃ pid, m.cmd = some ⟨some pid⟩) :
    (m.Stop signalFails).1.running = false := by
  unfold ProcessManager.Stop
  cases hr : m.running with
  | false => simp only [hr]
  | true =>
    obtain ⟨pid, hpid⟩ := h hr
    simp only [hpid]

/-- Every step keeps the running flag paired with a started command. -/
theorem step_tracked (w w1 : World) (e : Event) (h : w.tracked) (hstep : w.step e = some w1) :
    w1.tracked := by
  cases e with
  | start env =>
    have ht := Start_tracked w.m env h
    simp only [World.step] at hstep
    rcases hS : w.m.Start env with ⟨m1, err, sp⟩
    rw [hS] at hstep ht
    cases sp with
    | none =>
      simp only [Option.some.injEq] at hstep
      subst hstep
      exact ht
    | some pid =>
      simp only at hstep
      by_cases hl : pid ∈ w.live
      · rw [if_pos hl] at hstep
        cases hstep
      · rw [if_neg hl, Option.some.injEq] at hstep
        subst hstep
        exact ht
  | stop signalFails =>
    have hs := Stop_running w.m signalFails h
    simp only [World.step, Option.some.injEq] at hstep
    subst hstep
    intro hrun
    rw [hs] at hrun
    cases hrun
  | exit pid =>
    simp only [World.step] at hstep
    by_cases hl : pid ∈ w.live
    · rw [if_pos hl, Option.some.injEq] at hstep
      subst hstep
      intro hrun
      cases hrun
    · rw [if_neg hl] at hstep
      cases hstep
  | log timestamp line =>
    simp only [World.step, Option.some.injEq] at hstep
    subst hstep
    have e1 : (addLogLine w.m timestamp line).running = w.m.running := by
      simp only [addLogLine]
      split <;> rfl
    have e2 : (addLogLine w.m timestamp line).cmd = w.m.cmd := by
      simp only [addLogLine]
      split <;> rfl
    intro hrun
    rw [e1] at hrun
    rw [e2]
    exact h hrun

/-- In every state reached from a tracked one the running flag is paired with a started
command. -/
theorem run_tracked (events : List Event) :
    ∀ w w1 : World, w.tracked → w.run events = some w1 → w1.tracked := by
  induction events with
  | nil =>
    intro w w1 h hrun
    simp only [World.run, Option.some.injEq] at hrun
    subst hrun
    exact h
  | cons e es ih =>
    intro w w1 h hrun
    simp only [World.run] at hrun
    cases hs : w.step e with
    | none =>
      rw [hs] at hrun
      cases hrun
    | some w2 =>
      rw [hs] at hrun
      exact ih w2 w1 (step_tracked w w2 e h hs) hrun

/-- A new manager tracks no process. -/
theorem init_tracked (frpsPath configPath : String) :
    (World.init frpsPath configPath).tracked := by
  intro h
  cases h

/-- C23: when a process is tracked as running, `Start` returns the error "frps is already
running"; otherwise, when the configuration file does not exist, it returns the error
"config file not found"; in both cases the call spawns nothing and the state of the manager
(running flag, start time, log buffer and all the rest) is the state before the call, and so
is the world around it. -/
theorem Start_failure_cases (w : World) (env : StartEnv) :
    (w.m.running = true →
      w.m.Start env = (w.m, some "frps is already running", none)
      ∧ w.step (Event.start env) = some w)
    ∧ (w.m.running = false → env.configNotExist = true →
      w.m.Start env = (w.m, some ("config file not found: " ++ w.m.configPath), none)
      ∧ w.step (Event.start env) = some w) := by
  constructor
  · intro hr
    have e : w.m.Start env = (w.m, some "frps is already running", none) := by
      simp only [ProcessManager.Start, hr, if_true]
    refine ⟨e, ?_⟩
    simp only [World.step, e]
  · intro hr hc
    have e : w.m.Start env
        = (w.m, some ("config file not found: " ++ w.m.configPath), none) := by
      simp only [ProcessManager.Start, hr, hc, if_true]
      rfl
    refine ⟨e, ?_⟩
    simp only [World.step, e]

/-- Witness of C23: a second `Start` while process 101 is tracked, and a `Start` of a new
manager whose configuration file is missing. -/
theorem Start_failure_cases_witness :
    (ProcessManager.Start
        { NewProcessManager "frps" "frps.toml" with
          cmd := some ⟨some 101⟩, running := true, startTime := 7 }
        ⟨false, false, false, some 102, 9⟩).2 = (some "frps is already running", none)
    ∧ ((NewProcessManager "frps" "frps.toml").Start ⟨true, false, false, some 102, 9⟩).2
        = (some "config file not found: frps.toml", none) :=
  ⟨congrArg Prod.snd ((Start_failure_cases
      ⟨{ NewProcessManager "frps" "frps.toml" with
          cmd := some ⟨some 101⟩, running := true, startTime := 7 }, [101], some 101, []⟩
      ⟨false, false, false, some 102, 9⟩).1 rfl).1,
    congrArg Prod.snd ((Start_failure_cases (World.init "frps" "frps.toml")
      ⟨true, false, false, some 102, 9⟩).2 rfl rfl).1⟩

/-- C24: in every state the manager reaches from its creation, whether the graceful signal
fails or not: when no process is tracked as running, `Stop` returns the error "frps is not
running", sends no signal and leaves the state unchanged; when a process is tracked as
running, `Stop` returns no error, has sent the graceful signal to that process (and the
forced one after it exactly when the graceful one failed), and the state on return is the
state before with the running flag false; so a further `Stop` right after fails and changes
nothing. -/
theorem Stop_cases (frpsPath configPath : String) (events : List Event) (w : World)
    (hreach : (World.init frpsPath configPath).run events = some w) (signalFails : Bool) :
    (w.m.running = false → w.m.Stop signalFails = (w.m, some "frps is not running", []))
    ∧ (w.m.running = true →
      ∃ pid, w.m.cmd = some ⟨some pid⟩
        ∧ w.m.Stop signalFails
          = ({ w.m with running := false }, none,
              if signalFails then [(pid, Signal.SIGTERM), (pid, Signal.KILL)]
              else [(pid, Signal.SIGTERM)]))
    ∧ (w.m.Stop signalFails).1.running = false
    ∧ (∀ again : Bool, (w.m.Stop signalFails).1.Stop again
        = ((w.m.Stop signalFails).1, some "frps is not running", [])) := by
  have ht : w.tracked := run_tracked events _ w (init_tracked frpsPath configPath) hreach
  have hnot : ∀ (m : ProcessManager) (sf : Bool), m.running = false →
      m.Stop sf = (m, some "frps is not running", []) := by
    intro m sf hr
    simp only [ProcessManager.Stop, hr]
  have hafter := Stop_running w.m signalFails ht
  refine ⟨hnot w.m signalFails, ?_, hafter, fun again => hnot _ again hafter⟩
  intro hr
  obtain ⟨pid, hpid⟩ := ht hr
  refine ⟨pid, hpid, ?_⟩
  simp only [ProcessManager.Stop, hr, hpid]

/-- Witness of C24: after a successful `Start` that spawned process 101, a `Stop` whose
graceful signal fails sends both signals and clears the flag; the `Stop` after it fails. -/
theorem Stop_cases_witness :
    (∃ w, (World.init "frps" "frps.toml").run [Event.start ⟨false, false, false, some 101, 7⟩]
        = some w
      ∧ (w.m.Stop true).2 = (none, [(101, Signal.SIGTERM), (101, Signal.KILL)])
      ∧ (w.m.Stop true).1.running = false
      ∧ ((w.m.Stop true).1.Stop false).2 = (some "frps is not running", [])) :=
  ⟨_, rfl,
    by
      obtain ⟨pid, hpid, h⟩ := (Stop_cases "frps" "frps.toml"
        [Event.start ⟨false, false, false, some 101, 7⟩] _ rfl true).2.1 rfl
      cases hpid
      exact congrArg Prod.snd h,
    (Stop_cases "frps" "frps.toml"
      [Event.start ⟨false, false, false, some 101, 7⟩] _ rfl true).2.2.1,
    congrArg Prod.snd ((Stop_cases "frps" "frps.toml"
      [Event.start ⟨false, false, false, some 101, 7⟩] _ rfl true).2.2.2 false)⟩

/-- C25: from a state where no process is tracked as running, with the configuration file
present and both spawns succeeding, in the sequence `Start`, `Stop`, `Start` with nothing in
between: both calls of `Start` and the call of `Stop` return no error; `Status` after each
`Start` reports running, the PID of the process that `Start` spawned and the instant of that
`Start`; `Status` after `Stop` reports not running, PID 0, no start time and an empty
uptime. -/
theorem start_stop_start (m : ProcessManager) (env1 env2 : StartEnv) (pid1 pid2 : Int)
    (signalFails : Bool) (t1 t2 t3 : Time)
    (hidle : m.running = false)
    (hc1 : env1.configNotExist = false) (ho1 : env1.stdoutPipeFails = false)
    (he1 : env1.stderrPipeFails = false) (hs1 : env1.spawn = some pid1)
    (hc2 : env2.configNotExist = false) (ho2 : env2.stdoutPipeFails = false)
    (he2 : env2.stderrPipeFails = false) (hs2 : env2.spawn = some pid2) :
    (m.Start env1).2 = (none, some pid1)
    ∧ (m.Start env1).1.Status t1
      = ⟨true, pid1, env1.now, durationString (roundSecond (Time.Sub t1 env1.now)), "process"⟩
    ∧ ((m.Start env1).1.Stop signalFails).2.1 = none
    ∧ ((m.Start env1).1.Stop signalFails).1.Status t2 = ⟨false, 0, zeroTime, "", "process"⟩
    ∧ (((m.Start env1).1.Stop signalFails).1.Start env2).2 = (none, some pid2)
    ∧ (((m.Start env1).1.Stop signalFails).1.Start env2).1.Status t3
      = ⟨true, pid2, env2.now, durationString (roundSecond (Time.Sub t3 env2.now)),
          "process"⟩ := by
  have hstart : ∀ (m0 : ProcessManager) (env : StartEnv) (pid : Int), m0.running = false →
      env.configNotExist = false → env.stdoutPipeFails = false → env.stderrPipeFails = false →
      env.spawn = some pid →
      m0.Start env
        = ({ m0 with cmd := some ⟨some pid⟩, running := true, startTime := env.now },
            none, some pid) := by
    intro m0 env pid h1 h2 h3 h4 h5
    simp only [ProcessManager.Start, h1, h2, h3, h4, h5, Bool.false_eq_true, if_false]
  have hstop : ∀ (m0 : ProcessManager) (pid : Int) (sf : Bool), m0.running = true →
      m0.cmd = some ⟨some pid⟩ →
      (m0.Stop sf).1 = { m0 with running := false } ∧ (m0.Stop sf).2.1 = none := by
    intro m0 pid sf h1 h2
    simp only [ProcessManager.Stop, h1, h2, and_self]
  have e1 := hstart m env1 pid1 hidle hc1 ho1 he1 hs1
  obtain ⟨e2, e2b⟩ := hstop (m.Start env1).1 pid1 signalFails (by rw [e1]) (by rw [e1])
  have e3 := hstart ((m.Start env1).1.Stop signalFails).1 env2 pid2 (by rw [e2]) hc2 ho2 he2 hs2
  refine ⟨by rw [e1], ?_, e2b, ?_, by rw [e3], ?_⟩
  · rw [e1]
    rfl
  · rw [e2]
    simp only [ProcessManager.Status]
  · rw [e3]
    rfl

/-- Witness of C25: a new manager, process 101 spawned at instant 7 and process 102 at
instant 9 seconds. -/
theorem start_stop_start_witness :
    ((NewProcessManager "frps" "frps.toml").Start ⟨false, false, false, some 101, 7⟩).1.Status
        5000000007 = ⟨true, 101, 7, "5s", "process"⟩
    ∧ ((((NewProcessManager "frps" "frps.toml").Start ⟨false, false, false, some 101, 7⟩).1.Stop
        false).1.Start ⟨false, false, false, some 102, 9000000000⟩).2 = (none, some 102) :=
  ⟨(start_stop_start (NewProcessManager "frps" "frps.toml")
      ⟨false, false, false, some 101, 7⟩ ⟨false, false, false, some 102, 9000000000⟩ 101 102
      false 5000000007 0 0 rfl rfl rfl rfl rfl rfl rfl rfl rfl).2.1.trans (by decide),
    (start_stop_start (NewProcessManager "frps" "frps.toml")
      ⟨false, false, false, some 101, 7⟩ ⟨false, false, false, some 102, 9000000000⟩ 101 102
      false 5000000007 0 0 rfl rfl rfl rfl rfl rfl rfl rfl rfl).2.2.2.2.1⟩

/-- C28 fails on the code: `Start` spawns process 101, `Stop` signals it, `Start` spawns
process 102 while 101 has not exited yet, then 101 exits and its exit-waiter fires.  Process
102, the most recently spawned, has neither exited nor been stopped, and the running flag is
false: `Status` reports not running with PID 0, `Stop` answers "frps is not running", and a
further `Start` spawns process 103 beside the live 102. -/
theorem stale_exit_clears_running_flag :
    ∃ w, (World.init "frps" "frps.toml").run
        [Event.start ⟨false, false, false, some 101, 10⟩, Event.stop false,
          Event.start ⟨false, false, false, some 102, 20⟩, Event.exit 101] = some w
      ∧ w.latest = some 102 ∧ 102 ∈ w.live ∧ 102 ∉ w.stopped
      ∧ w.m.running = false
      ∧ w.m.Status 30 = ⟨false, 0, zeroTime, "", "process"⟩
      ∧ (w.m.Stop false).2 = (some "frps is not running", [])
      ∧ (w.step (Event.start ⟨false, false, false, some 103, 40⟩)).map (fun w1 => w1.live)
        = some [103, 102] :=
  ⟨_, rfl, rfl, by decide, by decide, rfl, by decide, rfl, by decide⟩

/-! ## The limiter over time: reachable records -/

/-- `RecordFailure` keeps `lockDuration`. -/
theorem RecordFailure_lockDuration (l : LoginRateLimiter) (a : String) (now : Time)
    {later : Time} : (RecordFailure l a now later).1.lockDuration = l.lockDuration := by
  unfold RecordFailure
  split
  · rfl
  · split
    · rfl
    · split
      · rfl
      · simp only []
        split <;> rfl

/-- The shape of a record stays as the clock advances. -/
theorem recordShape_mono (t u : Time) (info : attemptInfo) (h : recordShape t info)
    (htu : t ≤ u) : recordShape u info :=
  ⟨h.1, Nat.le_trans h.2.1 htu, h.2.2⟩

/-- A failure at or after the clock keeps the shape of the limiter. -/
theorem RecordFailure_shape (l : LoginRateLimiter) (ip : String) (t now : Time)
    (h : limiterShape t l) (htn : t ≤ now) {later : Time} :
    limiterShape now (RecordFailure l ip now later).1 := by
  obtain ⟨hmax, hdur, hrec⟩ := h
  have hM : (5 * Minute : Int) = 300000000000 := by decide
  have hfresh : recordShape now ⟨1, now, zeroTime⟩ :=
    ⟨le_refl _, le_refl _, Or.inl ⟨rfl, (by decide : (1 : Int) ≤ 4)⟩⟩
  refine ⟨by rw [RecordFailure_maxAttempts, hmax], by rw [RecordFailure_lockDuration, hdur], ?_⟩
  intro k info hk
  by_cases hkip : k = ip
  · subst hkip
    cases hi : l.attempts k with
    | none =>
      rw [RecordFailure_absent l k now hi, store_attempts_self] at hk
      cases hk
      exact hfresh
    | some old =>
      obtain ⟨hc1, hft, hcases⟩ := hrec k old hi
      by_cases hlk : now < old.lockUntil
      · rw [RecordFailure_locked l k now old hi hlk, hi] at hk
        cases hk
        exact ⟨hc1, Nat.le_trans hft htn, hcases⟩
      · have hlk2 : old.lockUntil ≤ now := Nat.le_of_not_lt hlk
        by_cases hw : l.lockDuration < (now : Int) - (old.firstTime : Int)
        · rw [RecordFailure_expired l k now old hi hlk2 hw, store_attempts_self] at hk
          cases hk
          exact hfresh
        · have hw2 : (now : Int) - (old.firstTime : Int) ≤ l.lockDuration := Int.not_lt.mp hw
          have hft2 : (old.firstTime : Int) ≤ (now : Int) :=
            Int.ofNat_le.mpr (Nat.le_trans hft htn)
          have hlk3 : (old.lockUntil : Int) ≤ (now : Int) := Int.ofNat_le.mpr hlk2
          have hnow : (0 : Int) ≤ (now : Int) := Int.ofNat_nonneg now
          by_cases hc : l.maxAttempts ≤ old.count + 1
          · rw [RecordFailure_lock l k now old hi hlk2 hw2 hc, store_attempts_self] at hk
            cases hk
            have hadd : ((Time.Add now l.lockDuration : Time) : Int)
                = (now : Int) + 300000000000 := by
              rw [hdur, hM]
              unfold Time.Add
              exact Int.toNat_of_nonneg (by omega)
            rw [hdur, hM] at hw2
            rw [hmax] at hc
            rw [hM] at hcases
            show 1 ≤ old.count + 1 ∧ old.firstTime ≤ now
              ∧ ((Time.Add now l.lockDuration = zeroTime ∧ old.count + 1 ≤ 4)
                ∨ (old.count + 1 = 5
                  ∧ (old.firstTime : Int) + 5 * Minute
                    ≤ ((Time.Add now l.lockDuration : Time) : Int))
                ∨ (old.count + 1 = 6
                  ∧ ((Time.Add now l.lockDuration : Time) : Int)
                    = (old.firstTime : Int) + 2 * (5 * Minute)))
            rw [hadd, hM]
            refine ⟨by omega, Nat.le_trans hft htn, ?_⟩
            rcases hcases with ⟨_, h4⟩ | ⟨h5, hl5⟩ | ⟨h6, hl6⟩
            · exact Or.inr (Or.inl ⟨by omega, by omega⟩)
            · exact Or.inr (Or.inr ⟨by omega, by omega⟩)
            · exfalso
              omega
          · have hc2 : old.count + 1 < l.maxAttempts := Int.not_le.mp hc
            rw [RecordFailure_count l k now old hi hlk2 hw2 hc2, store_attempts_self] at hk
            cases hk
            rw [hmax] at hc2
            show 1 ≤ old.count + 1 ∧ old.firstTime ≤ now
              ∧ ((old.lockUntil = zeroTime ∧ old.count + 1 ≤ 4)
                ∨ (old.count + 1 = 5
                  ∧ (old.firstTime : Int) + 5 * Minute ≤ (old.lockUntil : Int))
                ∨ (old.count + 1 = 6
                  ∧ (old.lockUntil : Int) = (old.firstTime : Int) + 2 * (5 * Minute)))
            refine ⟨by omega, Nat.le_trans hft htn, ?_⟩
            rcases hcases with ⟨h0, h4⟩ | ⟨h5, _⟩ | ⟨h6, _⟩
            · exact Or.inl ⟨h0, by omega⟩
            · exfalso
              omega
            · exfalso
              omega
  · rw [RecordFailure_attempts_other l ip k now (fun h => hkip h.symm)] at hk
    exact recordShape_mono t now info (hrec k info hk) htn

/-- Every call at or after the clock keeps the shape of the limiter; the clock moves to the
reading of the call. -/
theorem run_shape (events : List LimiterEvent) :
    ∀ (t : Time) (l : LoginRateLimiter), limiterShape t l → clockOrdered t events = true →
      ∃ u, limiterShape u (runLimiter l events) := by
  induction events with
  | nil => exact fun t l h _ => ⟨t, h⟩
  | cons e es ih =>
    intro t l h hclock
    cases e with
    | failure ip now =>
      simp only [clockOrdered, Bool.and_eq_true, decide_eq_true_eq] at hclock
      exact ih now _ (RecordFailure_shape l ip t now h hclock.1) hclock.2
    | success ip =>
      simp only [clockOrdered] at hclock
      refine ih t (RecordSuccess l ip) ⟨h.1, h.2.1, fun k info hk => ?_⟩ hclock
      by_cases hkip : k = ip
      · subst hkip
        rw [RecordSuccess, delete_attempts_self] at hk
        cases hk
      · rw [RecordSuccess, delete_attempts_other l ip k hkip] at hk
        exact h.2.2 k info hk
    | sweep now =>
      simp only [clockOrdered, Bool.and_eq_true, decide_eq_true_eq] at hclock
      refine ih now (cleanup l now) ⟨h.1, h.2.1, fun k info hk => ?_⟩ hclock.2
      rcases cleanup_attempts l now k with hkeep | ⟨hdel, _⟩
      · rw [hkeep] at hk
        exact recordShape_mono t now info (h.2.2 k info hk) hclock.1
      · rw [hdel] at hk
        cases hk

/-- C27, as stated, fails.  Five failures of one key at the same clock reading 1000 lock it
until 1000 + 5 minutes.  At exactly that instant the lock is no longer in force (the lock
check answers not blocked), yet `RecordFailure` answers blocked for 5 minutes and leaves the
record with count 6, above `maxAttempts` = 5, locked for 5 minutes more. -/
theorem failure_at_lock_expiry_relocks :
    (runLimiter GetLoginRateLimiter
        (List.replicate 5 (LimiterEvent.failure "10.0.0.5" 1000))).attempts "10.0.0.5"
      = some ⟨5, 1000, 300000001000⟩
    ∧ Time.Before 300000001000 300000001000 = false
    ∧ IsBlocked (runLimiter GetLoginRateLimiter
        (List.replicate 5 (LimiterEvent.failure "10.0.0.5" 1000))) "10.0.0.5" 300000001000
          300000001040
      = (false, 0)
    ∧ (RecordFailure (runLimiter GetLoginRateLimiter
        (List.replicate 5 (LimiterEvent.failure "10.0.0.5" 1000))) "10.0.0.5" 300000001000
          300000001040).2
      = (true, 5 * Minute)
    ∧ (RecordFailure (runLimiter GetLoginRateLimiter
        (List.replicate 5 (LimiterEvent.failure "10.0.0.5" 1000))) "10.0.0.5"
          300000001000 300000001040).1.attempts "10.0.0.5"
      = some ⟨6, 1000, 600000001000⟩
    ∧ GetLoginRateLimiter.maxAttempts = 5 := by
  decide

/-- C27, amended: in every state the limiter of `GetLoginRateLimiter` reaches by failures,
successes and sweeps under a clock that does not run backwards, for every key whose record
was locked and whose lock is no longer in force at `now` (`now` is not before lock-until),
if `now` is after lock-until, or the lock was set by a failure later than the first one of
the record, then `RecordFailure` at `now` answers not blocked and leaves the record at count
1, first failure `now`, no lock; and in every such state the stored count of every record is
at least 1 and at most `maxAttempts` + 1. -/
theorem expired_lock_grants_fresh_attempts (events : List LimiterEvent)
    (hclock : clockOrdered 0 events = true) :
    (∀ (key : String) (info : attemptInfo) (now later : Time),
      (runLimiter GetLoginRateLimiter events).attempts key = some info →
      info.lockUntil ≠ zeroTime → info.lockUntil ≤ now →
      (info.lockUntil < now
        ∨ (info.firstTime : Int) + (runLimiter GetLoginRateLimiter events).lockDuration
            < (info.lockUntil : Int)) →
      RecordFailure (runLimiter GetLoginRateLimiter events) key now later
        = ((runLimiter GetLoginRateLimiter events).store key ⟨1, now, zeroTime⟩, false, 0))
    ∧ (∀ (key : String) (info : attemptInfo),
      (runLimiter GetLoginRateLimiter events).attempts key = some info →
      1 ≤ info.count
      ∧ info.count ≤ (runLimiter GetLoginRateLimiter events).maxAttempts + 1) := by
  have h0 : limiterShape 0 GetLoginRateLimiter :=
    ⟨rfl, rfl, fun ip info h => by cases h⟩
  obtain ⟨u, hmax, hdur, hrec⟩ := run_shape events 0 GetLoginRateLimiter h0 hclock
  have hM : (5 * Minute : Int) = 300000000000 := by decide
  constructor
  · intro key info now later hi hlocked hle hcase
    obtain ⟨_, _, hcases⟩ := hrec key info hi
    apply RecordFailure_expired _ key now info hi hle
    rw [hdur, hM] at hcase ⊢
    rw [hM] at hcases
    have hle2 : (info.lockUntil : Int) ≤ (now : Int) := Int.ofNat_le.mpr hle
    have hlt : info.lockUntil < now → (info.lockUntil : Int) < (now : Int) :=
      fun h => Int.ofNat_lt.mpr h
    show (300000000000 : Int) < (now : Int) - (info.firstTime : Int)
    rcases hcases with ⟨hz, _⟩ | ⟨_, h5⟩ | ⟨_, h6⟩
    · exact absurd hz hlocked
    · rcases hcase with h | h
      · have := hlt h
        omega
      · omega
    · rcases hcase with h | h
      · have := hlt h
        omega
      · omega
  · intro key info hi
    obtain ⟨hc1, _, hcases⟩ := hrec key info hi
    rw [hmax]
    refine ⟨hc1, ?_⟩
    rcases hcases with ⟨_, h⟩ | ⟨h, _⟩ | ⟨h, _⟩ <;> omega

/-- Witness of C27 amended: five failures at the readings 1000..1004 lock the key until
1004 + 5 minutes; the failure at exactly that instant starts a fresh record. -/
theorem expired_lock_grants_fresh_attempts_witness :
    (RecordFailure (runLimiter GetLoginRateLimiter
        [LimiterEvent.failure "10.0.0.5" 1000, LimiterEvent.failure "10.0.0.5" 1001,
          LimiterEvent.failure "10.0.0.5" 1002, LimiterEvent.failure "10.0.0.5" 1003,
          LimiterEvent.failure "10.0.0.5" 1004]) "10.0.0.5" 300000001004
      300000001044).2 = (false, 0) :=
  congrArg Prod.snd ((expired_lock_grants_fresh_attempts
    [LimiterEvent.failure "10.0.0.5" 1000, LimiterEvent.failure "10.0.0.5" 1001,
      LimiterEvent.failure "10.0.0.5" 1002, LimiterEvent.failure "10.0.0.5" 1003,
      LimiterEvent.failure "10.0.0.5" 1004] (by decide)).1 "10.0.0.5"
    ⟨5, 1000, 300000001004⟩ 300000001004 300000001044 (by decide) (by decide) (by decide)
    (Or.inr (by decide)))

/-! ## Properties of the generated client document -/

/-- The scan of a line without line feed, followed by a line feed: the line is cut off. -/
theorem rawLinesFrom_line (rest : List Char) :
    ∀ (line current : List Char), '\n' ∉ line →
      rawLinesFrom (line ++ '\n' :: rest) current
        = (current.reverse ++ line) :: rawLinesFrom rest [] := by
  intro line
  induction line with
  | nil =>
    intro current _
    simp [rawLinesFrom]
  | cons c cs ih =>
    intro current h
    have hc : c ≠ '\n' := fun e => h (by rw [e]; exact List.mem_cons_self _ _)
    have hcs : '\n' ∉ cs := fun e => h (List.mem_cons_of_mem _ e)
    show rawLinesFrom (c :: (cs ++ '\n' :: rest)) current = _
    rw [rawLinesFrom, if_neg hc, ih (c :: current) hcs]
    simp

/-- The raw lines of a text written line by line, each line without line feed and ended by
one, are those lines. -/
theorem rawLines_rendered (lines : List (List Char)) (h : ∀ line ∈ lines, '\n' ∉ line) :
    rawLines ((lines.map (fun line => line ++ ['\n'])).flatten) = lines := by
  unfold rawLines
  induction lines with
  | nil => rfl
  | cons l ls ih =>
    have e : ((l :: ls).map (fun line => line ++ ['\n'])).flatten
        = l ++ '\n' :: (ls.map (fun line => line ++ ['\n'])).flatten := by
      simp
    rw [e, rawLinesFrom_line _ l [] (h l (List.mem_cons_self _ _)),
      ih (fun line hl => h line (List.mem_cons_of_mem _ hl))]
    rfl

end FrpAdmin
